import Mathlib

/-!
# FilterEngine: channel routing compilation and the per-callback runtime

A shallow embedding of `src/FilterEngine.cpp` (EqualizerAPO).

* `addFilter` / `addFilters` embed `FilterEngine::addFilters`: one fold step per filter of the
  loop body, with the engine members it reads and writes collected in `CompileState`.
* Channel names (`std::wstring`) are `String`; `std::find(...) - begin()` is `List.indexOf`,
  which like the C++ expression yields the length of the list when the name is absent.
* `engineInit`, `loadConfig` and `process` embed `FilterEngine::initialize`, the pointer
  hand-over of `FilterEngine::loadConfig()` and `FilterEngine::process` on the state `Engine`;
  `Step` is the interleaving of the owner thread, the reload worker and the audio thread.

Line numbers refer to `src/FilterEngine.cpp`.
-/

namespace FilterEngine

/-! ## Data model -/

/-- The part of the `IFilter` interface that `addFilters` calls: the three flags and the
filter's `initialize(sampleRate, maxFrameCount, channelNames)`, here the field `init`, which
returns the output channel names. -/
structure IFilter where
  getInPlace : Bool
  getAllChannels : Bool
  getSelectChannels : Bool
  init : ℚ → Nat → List String → List String

/-- One compiled filter. `inChannels`/`outChannels` hold `inChannelCount`/`outChannelCount`
pool indices; a count of zero is the empty list. -/
structure FilterInfo where
  filter : IFilter
  inPlace : Bool
  inChannels : List Nat
  outChannels : List Nat

/-- The members of `FilterEngine` used by `addFilters`. -/
structure CompileState where
  sampleRate : ℚ
  maxFrameCount : Nat
  allChannelNames : List String
  currentChannelNames : List String
  lastChannelNames : List String
  lastNewChannelNames : List String
  lastInPlace : Bool
  filterInfos : List FilterInfo

/-! ## `addFilters` -/

/-- Lines 524-529: each input name is looked up in the pool with `find`. -/
def mapInChannels (allChannelNames currentChannelNames : List String) : List Nat :=
  currentChannelNames.map (fun name => allChannelNames.indexOf name)

/-- Lines 546-559: the loop over the output names; returns the pool after the loop and the
indices written to `outChannels`. -/
def mapOutChannels : List String → List String → List String × List Nat
  | allChannelNames, [] => (allChannelNames, [])
  | allChannelNames, name :: rest =>
    if allChannelNames.indexOf name = allChannelNames.length then
      let r := mapOutChannels (allChannelNames ++ [name]) rest
      (r.1, allChannelNames.length :: r.2)
    else
      let r := mapOutChannels allChannelNames rest
      (r.1, allChannelNames.indexOf name :: r.2)

/-- The body of the loop of `FilterEngine::addFilters` (lines 505-572) for one filter, statement
by statement. -/
def addFilter (s : CompileState) (filter : IFilter) : CompileState :=
  let inPlace := filter.getInPlace
  let savedChannelNames := s.currentChannelNames
  let allChannels := filter.getAllChannels
  -- 511-512
  let s1 := if allChannels then { s with currentChannelNames := s.allChannelNames } else s
  -- 514-530
  let inChannels :=
    if s1.lastChannelNames = s1.currentChannelNames then []
    else mapInChannels s1.allChannelNames s1.currentChannelNames
  -- 532
  let s2 := { s1 with lastChannelNames := s1.currentChannelNames }
  -- 534
  let newChannelNames := filter.init s2.sampleRate s2.maxFrameCount s2.currentChannelNames
  -- 536-560
  let out :=
    if inPlace && s2.lastInPlace && decide (s2.lastNewChannelNames = newChannelNames) then
      (s2.allChannelNames, [])
    else mapOutChannels s2.allChannelNames newChannelNames
  -- 562-563
  let s3 := { s2 with
    allChannelNames := out.1, lastNewChannelNames := newChannelNames, lastInPlace := inPlace }
  -- 564-565
  let s4 :=
    if !s3.lastInPlace then
      { s3 with
        lastChannelNames := s3.lastNewChannelNames, lastNewChannelNames := s3.lastChannelNames }
    else s3
  -- 567
  let filterInfo : FilterInfo :=
    { filter := filter, inPlace := inPlace, inChannels := inChannels, outChannels := out.2 }
  let s5 := { s4 with filterInfos := s4.filterInfos ++ [filterInfo] }
  -- 569-572
  if filter.getSelectChannels then { s5 with currentChannelNames := newChannelNames }
  else { s5 with currentChannelNames := savedChannelNames }

/-- The function `FilterEngine::addFilters`: the loop over the given filters. -/
def addFilters (s : CompileState) (filters : List IFilter) : CompileState :=
  filters.foldl addFilter s

/-! ### Views of one `addFilter` step

The quantities a single loop iteration computes, named so that statements can refer to them;
`addFilter_fields` below shows that they are what `addFilter` stores. -/

/-- The selection the filter is compiled against (lines 510-512). -/
def effectiveInputs (s : CompileState) (filter : IFilter) : List String :=
  if filter.getAllChannels then s.allChannelNames else s.currentChannelNames

/-- The `inChannels` of the filter (lines 514-530). -/
def inChannelsOf (s : CompileState) (filter : IFilter) : List Nat :=
  if s.lastChannelNames = effectiveInputs s filter then []
  else mapInChannels s.allChannelNames (effectiveInputs s filter)

/-- The names returned by the filter's `initialize` (line 534). -/
def newChannelNamesOf (s : CompileState) (filter : IFilter) : List String :=
  filter.init s.sampleRate s.maxFrameCount (effectiveInputs s filter)

/-- The condition of line 536 under which the previous output binding is reused. -/
def reusesOutputs (s : CompileState) (filter : IFilter) : Bool :=
  filter.getInPlace && s.lastInPlace &&
    decide (s.lastNewChannelNames = newChannelNamesOf s filter)

/-- The pool after the filter and its `outChannels` (lines 536-560). -/
def outChannelsOf (s : CompileState) (filter : IFilter) : List String × List Nat :=
  if reusesOutputs s filter then (s.allChannelNames, [])
  else mapOutChannels s.allChannelNames (newChannelNamesOf s filter)

/-- The `FilterInfo` pushed at line 567. -/
def emitInfo (s : CompileState) (filter : IFilter) : FilterInfo :=
  { filter := filter
    inPlace := filter.getInPlace
    inChannels := inChannelsOf s filter
    outChannels := (outChannelsOf s filter).2 }

/-! ## The runtime: `initialize`, `loadConfig` and `process`

* Buffers of interleaved samples are functions from the sample position to the sample.
* The sample type is a parameter: `SampleOps` collects what `process` does with a `float`.
  It is instantiated with IEEE-754 bit patterns (`f32Ops`) where the bits matter and with the
  reals (`realOps`) where the arithmetic of the crossfade matters.
* `FilterConfiguration` objects live in `heap`, addressed by the pointers `currentConfig`,
  `nextConfig`, `previousConfig`; what a configuration does is the parameter `GraphOps`.
* `unsigned` arithmetic is arithmetic modulo `2 ^ 32`; `size_t` is taken to be 64 bits wide.
* The `float` member `sampleRate` is the rational number it denotes (a NaN or an infinity is
  not represented); the division of line 148 is carried out in `float` (`floatDiv`).
-/

/-- Interleaved sample memory. -/
abbrev Buffer (α : Type) := Nat → α

/-- Planar output lanes of a configuration (`float**`): channel, then frame. -/
abbrev Lanes (α : Type) := Nat → Nat → α

/-- What `process` needs of the sample type. -/
structure SampleOps (α : Type) where
  /-- The test `!(x != 0)` of line 432. -/
  isZero : α → Bool
  /-- The sample whose bytes are all zero, as written by `memset`. -/
  zero : α
  /-- Lines 477-482 for one sample: from `transitionCounter`, `transitionLength`, the sample of
  the current configuration and the sample of the next one. -/
  mix : Nat → Nat → α → α → α

/-- The `FilterConfiguration` members called by `process` (`isEmpty`, `process`,
`getOutputSamples`); their code is outside `FilterEngine.cpp`. -/
structure GraphOps (α G : Type) where
  isEmpty : G → Bool
  /-- The call `config->process(input, frameCount)`: the configuration afterwards. -/
  process : G → Buffer α → Nat → G
  getOutputSamples : G → Lanes α

/-- The members of `FilterEngine` used by `initialize`, `loadConfig()` and `process`. -/
structure Engine (G : Type) where
  capture : Bool
  sampleRate : ℚ
  inputChannelCount : Nat
  realChannelCount : Nat
  outputChannelCount : Nat
  channelMask : Nat
  maxFrameCount : Nat
  lastInputWasSilent : Bool
  lastInputSize : Int
  currentConfig : Option Nat
  nextConfig : Option Nat
  previousConfig : Option Nat
  transitionCounter : Nat
  transitionLength : Nat
  /-- Count of `loadSemaphore`, created with initial and maximum count 1. -/
  loadSemaphore : Nat
  heap : Nat → G

/-- The conversion `(unsigned)x` of a non-negative value: truncation. C++ defines the
conversion of a `float` for `-1 < x < 2 ^ 32` only; the theorems state the converted value
for `0 ≤ x < 2 ^ 32`. -/
def truncToUnsigned (x : ℚ) : Nat := ⌊x⌋.toNat % 2 ^ 32

/-- The integer nearest to `x`; when `x` lies halfway between two integers, the even one. -/
def roundHalfEven (x : ℚ) : ℤ :=
  if x - ⌊x⌋ < 1 / 2 then ⌊x⌋
  else if 1 / 2 < x - ⌊x⌋ then ⌊x⌋ + 1
  else if ⌊x⌋ % 2 = 0 then ⌊x⌋ else ⌊x⌋ + 1

/-- The result of a `float` operation whose exact result is `x`: the IEEE-754 binary32 value
nearest to `x`, ties to even. Binary32 values are spaced `2 ^ (e - 23)` apart between `2 ^ e`
and `2 ^ (e + 1)` and `2 ^ (-149)` apart below `2 ^ (-126)`. Overflow to infinity (above
`2 ^ 128 - 2 ^ 103`) is not represented. -/
def roundToFloat (x : ℚ) : ℚ :=
  if x = 0 then 0
  else
    let p := max (Int.log 2 |x| - 23) (-149)
    roundHalfEven (x / 2 ^ p) * 2 ^ p

/-- The quotient `x / y` of two `float` values, as in `sampleRate / 100` at line 148, where
the `int` 100 is converted to `float`. -/
def floatDiv (x y : ℚ) : ℚ := roundToFloat (x / y)

/-- The finite values of the type `float`: `m * 2 ^ e` with a significand of 24 bits and
an exponent between -149 and 104. -/
def IsFloat (y : ℚ) : Prop :=
  ∃ m e : ℤ, |m| < 2 ^ 24 ∧ -149 ≤ e ∧ e ≤ 104 ∧ y = m * 2 ^ e

/-- The call `ReleaseSemaphore(loadSemaphore, 1, NULL)` on a semaphore of maximum count 1: the call
fails and leaves the count alone when it is already 1. -/
def releaseSemaphore (count : Nat) : Nat := if count < 1 then count + 1 else count

/-- The state the constructor establishes (lines 59-70); the members it does not assign are
unconstrained. -/
def Constructed {G : Type} (e : Engine G) : Prop :=
  e.capture = false ∧ e.inputChannelCount = 0 ∧ e.lastInputWasSilent = false ∧
    e.lastInputSize = -1 ∧ e.currentConfig = none ∧ e.nextConfig = none ∧
    e.previousConfig = none ∧ e.transitionCounter = 0 ∧ e.loadSemaphore = 1

/-- The function `cleanupConfigurations` (lines 576-598). -/
def cleanupConfigurations {G : Type} (e : Engine G) : Engine G :=
  { e with currentConfig := none, nextConfig := none, previousConfig := none }

/-- The pointer part of `loadConfig()` (lines 245-250 and 295-306): `previousConfig` is freed
and the configuration just compiled, allocated at `config` with contents `g`, is published. -/
def loadConfig {G : Type} (e : Engine G) (config : Nat) (g : G) : Engine G :=
  let e1 := { e with previousConfig := none }
  let e2 := { e1 with heap := Function.update e1.heap config g }
  if e2.currentConfig = none then { e2 with currentConfig := some config }
  else { e2 with nextConfig := some config }

/-- The `switch` of lines 158-175 with the `KSAUDIO_SPEAKER_*` masks written out. -/
def defaultChannelMask (deviceChannelCount : Nat) : Nat :=
  match deviceChannelCount with
  | 1 => 0x4
  | 2 => 0x3
  | 4 => 0x33
  | 6 => 0x60F
  | 8 => 0x63F
  | _ => 0

/-- The function `FilterEngine::initialize` (lines 136-239), as far as the members above are concerned.
`configPath` is `none` when reading the registry value throws; `config`, `g` are the
configuration that `loadConfig()` compiles when it is called. -/
def engineInit {G : Type} (e : Engine G) (sampleRate : ℚ)
    (inputChannelCount realChannelCount outputChannelCount channelMask maxFrameCount : Nat)
    (configPath : Option String) (config : Nat) (g : G) : Engine G :=
  let e1 := cleanupConfigurations e
  let e2 := { e1 with
    sampleRate := sampleRate
    inputChannelCount := inputChannelCount
    realChannelCount := realChannelCount
    outputChannelCount := outputChannelCount
    maxFrameCount := maxFrameCount
    transitionCounter := 0
    transitionLength := truncToUnsigned (floatDiv sampleRate 100) }
  let deviceChannelCount := if e2.capture then inputChannelCount else outputChannelCount
  let channelMask := if channelMask = 0 then defaultChannelMask deviceChannelCount else channelMask
  let e3 := { e2 with channelMask := channelMask }
  match configPath with
  | none => e3
  | some path => if path ≠ "" then loadConfig e3 config g else e3

/-- Lines 421-437: the scan of the first `frameCount * realChannelCount` input samples. -/
def inputSilent {α : Type} (ops : SampleOps α) (input : Buffer α)
    (frameCount realChannelCount : Nat) : Bool :=
  (List.range (frameCount * realChannelCount % 2 ^ 32)).all (fun i => ops.isZero (input i))

/-- Lines 444-445: `output` is `none` when the caller passes the input buffer as output
buffer; then nothing is written and the output buffer is the input buffer. -/
def silenceOutput {α : Type} (ops : SampleOps α) (output : Option (Buffer α)) (input : Buffer α)
    (frameCount outputChannelCount : Nat) : Buffer α :=
  match output with
  | none => input
  | some out => fun i => if i < frameCount * outputChannelCount % 2 ^ 32 then ops.zero else out i

/-- Lines 460-461. -/
def copyOutput {α : Type} (output : Option (Buffer α)) (input : Buffer α)
    (frameCount outputChannelCount : Nat) : Buffer α :=
  match output with
  | none => input
  | some out => fun i => if i < outputChannelCount * frameCount % 2 ^ 32 then input i else out i

/-- Lines 475-485: the loop over the frames, on the output lanes of the current configuration
and `transitionCounter`. -/
def mixFrames {α : Type} (ops : SampleOps α) (transitionLength outputChannelCount : Nat)
    (nextSamples : Lanes α) (frames : List Nat) (start : Lanes α × Nat) : Lanes α × Nat :=
  frames.foldl
    (fun st f =>
      (fun c f2 =>
        if f2 = f ∧ c < outputChannelCount then
          ops.mix st.2 transitionLength (st.1 c f) (nextSamples c f)
        else st.1 c f2,
       (st.2 + 1) % 2 ^ 32))
    start

/-- Modelled from the spec: `FilterConfiguration::write`, whose code is not in
`FilterEngine.cpp`; it interleaves the output lanes of the configuration into the host
output. -/
def write {α : Type} (lanes : Lanes α) (output : Buffer α) (frameCount outputChannelCount : Nat) :
    Buffer α :=
  fun i =>
    if i < frameCount * outputChannelCount then lanes (i % outputChannelCount) (i / outputChannelCount)
    else output i

/-- Lines 490-497: the promotion of the pending configuration. -/
def promote {G : Type} (e : Engine G) : Engine G :=
  if e.nextConfig ≠ none ∧ e.transitionCounter ≥ e.transitionLength then
    { e with
      previousConfig := e.currentConfig
      currentConfig := e.nextConfig
      nextConfig := none
      transitionCounter := 0
      loadSemaphore := releaseSemaphore e.loadSemaphore }
  else e

/-- Lines 467-497: the part of `process` that runs the configurations, for a non-null
`currentConfig`. The mixed samples are handed to `write` directly. -/
def runGraphs {α G : Type} (ops : SampleOps α) (gops : GraphOps α G) (e : Engine G)
    (current : Nat) (output : Option (Buffer α)) (input : Buffer α) (frameCount : Nat) :
    Engine G × Buffer α :=
  -- 467
  let heap1 := Function.update e.heap current (gops.process (e.heap current) input frameCount)
  -- 469-486
  let mixed : (Nat → G) × Lanes α × Nat :=
    match e.nextConfig with
    | none => (heap1, gops.getOutputSamples (heap1 current), e.transitionCounter)
    | some next =>
      let heap2 := Function.update heap1 next (gops.process (heap1 next) input frameCount)
      let r := mixFrames ops e.transitionLength e.outputChannelCount
        (gops.getOutputSamples (heap2 next)) (List.range frameCount)
        (gops.getOutputSamples (heap2 current), e.transitionCounter)
      (heap2, r.1, r.2)
  let e1 := { e with heap := mixed.1, transitionCounter := mixed.2.2 }
  -- 488
  let out := write mixed.2.1 (output.getD input) frameCount e.outputChannelCount
  -- 490-497
  (promote e1, out)

/-- The function `FilterEngine::process` (lines 419-498). The result is `none` when `currentConfig` is
dereferenced while null; otherwise the engine after the callback and the output buffer. -/
def process {α G : Type} (ops : SampleOps α) (gops : GraphOps α G) (e : Engine G)
    (output : Option (Buffer α)) (input : Buffer α) (frameCount : Nat) :
    Option (Engine G × Buffer α) :=
  -- 423-428
  let e1 := { e with lastInputSize := frameCount }
  -- 430-437
  let silent := inputSilent ops input frameCount e1.realChannelCount
  -- 439-448
  if silent && e1.lastInputWasSilent then
    some (e1, silenceOutput ops output input frameCount e1.outputChannelCount)
  else
    -- 450, 453
    let e2 := { e1 with lastInputWasSilent := silent }
    match e2.currentConfig with
    | none => none
    | some current =>
      -- 455-465
      if gops.isEmpty (e2.heap current) && e2.nextConfig.isNone &&
          decide (e2.realChannelCount = e2.outputChannelCount) then
        some (e2, copyOutput output input frameCount e2.outputChannelCount)
      else some (runGraphs ops gops e2 current output input frameCount)

/-! ### The hand-over between the reload worker and the audio thread -/

/-- The engine together with the position of the reload worker: `workerHoldsPermit` is set
between the wait on `loadSemaphore` (line 650) and the call of `loadConfig()` (line 657). -/
structure System (G : Type) where
  engine : Engine G
  workerHoldsPermit : Bool

/-- One step of the system: `initialize` on the owner thread, the two halves of a reload on
the worker thread, or one `process` callback on the audio thread. -/
inductive Step {α G : Type} (ops : SampleOps α) (gops : GraphOps α G) :
    System G → System G → Prop
  | init (s : System G) (sampleRate : ℚ)
      (inputChannelCount realChannelCount outputChannelCount channelMask maxFrameCount : Nat)
      (configPath : Option String) (config : Nat) (g : G) :
      Step ops gops s
        { s with engine := (engineInit s.engine sampleRate inputChannelCount realChannelCount
            outputChannelCount channelMask maxFrameCount configPath config g) }
  | acquire (s : System G) (hfree : 0 < s.engine.loadSemaphore)
      (hidle : s.workerHoldsPermit = false) :
      Step ops gops s
        { engine := { s.engine with loadSemaphore := s.engine.loadSemaphore - 1 }
          workerHoldsPermit := true }
  | publish (s : System G) (hheld : s.workerHoldsPermit = true) (config : Nat) (g : G) :
      Step ops gops s { engine := loadConfig s.engine config g, workerHoldsPermit := false }
  | callback (s : System G) (output : Option (Buffer α)) (input : Buffer α) (frameCount : Nat)
      (r : Engine G × Buffer α) (hr : process ops gops s.engine output input frameCount = some r) :
      Step ops gops s { s with engine := r.1 }

/-- The states reachable from a freshly constructed engine. -/
inductive Reachable {α G : Type} (ops : SampleOps α) (gops : GraphOps α G) : System G → Prop
  | start (s : System G) (h : Constructed s.engine) (hw : s.workerHoldsPermit = false) :
      Reachable ops gops s
  | step (s t : System G) (hs : Reachable ops gops s) (hst : Step ops gops s t) :
      Reachable ops gops t

/-- The states reachable from a call of `initialize` on any engine. -/
inductive ReachableFromInit {α G : Type} (ops : SampleOps α) (gops : GraphOps α G) :
    System G → Prop
  | init (s : System G) (sampleRate : ℚ)
      (inputChannelCount realChannelCount outputChannelCount channelMask maxFrameCount : Nat)
      (configPath : Option String) (config : Nat) (g : G) :
      ReachableFromInit ops gops
        { s with engine := (engineInit s.engine sampleRate inputChannelCount realChannelCount
            outputChannelCount channelMask maxFrameCount configPath config g) }
  | step (s t : System G) (hs : ReachableFromInit ops gops s) (hst : Step ops gops s t) :
      ReachableFromInit ops gops t

/-- The value of `transitionCounter` after the `frameCount` increments of line 484. -/
def counterAfter (transitionCounter frameCount : Nat) : Nat :=
  if frameCount = 0 then transitionCounter else (transitionCounter + frameCount) % 2 ^ 32

/-- The value of `transitionCounter` at line 490: the crossfade loop runs only while a next
configuration is pending. -/
def counterAtEnd {G : Type} (e : Engine G) (frameCount : Nat) : Nat :=
  if e.nextConfig = none then e.transitionCounter else counterAfter e.transitionCounter frameCount

/-- Whether `process` returns before line 467, through the silence shortcut or the
passthrough shortcut. -/
def skipsGraphs {α G : Type} (ops : SampleOps α) (gops : GraphOps α G) (e : Engine G)
    (input : Buffer α) (frameCount : Nat) : Bool :=
  (inputSilent ops input frameCount e.realChannelCount && e.lastInputWasSilent) ||
    match e.currentConfig with
    | none => false
    | some current =>
      gops.isEmpty (e.heap current) && e.nextConfig.isNone &&
        decide (e.realChannelCount = e.outputChannelCount)

/-! ### Sample types -/

/-- The test `x != 0` is false exactly for the two IEEE-754 single-precision zeros. -/
def f32IsZero (bits : Nat) : Bool := bits = 0x00000000 || bits = 0x80000000

/-- Samples as IEEE-754 single-precision bit patterns. Only the comparison with zero and the
all-zero pattern are interpreted; the crossfade arithmetic is the parameter `mix`. -/
def f32Ops (mix : Nat → Nat → Nat → Nat → Nat) : SampleOps Nat :=
  { isZero := f32IsZero, zero := 0x00000000, mix := mix }

/-- Lines 477-479 over the reals: the weight of the next configuration. -/
noncomputable def crossfadeFactor (transitionCounter transitionLength : Nat) : ℝ :=
  let factor := 0.5 * (1 - Real.cos (transitionCounter * Real.pi / transitionLength))
  if transitionCounter ≥ transitionLength then 1 else factor

/-- Line 482 over the reals. -/
noncomputable def mixSample (transitionCounter transitionLength : Nat)
    (currentSample nextSample : ℝ) : ℝ :=
  currentSample * (1 - crossfadeFactor transitionCounter transitionLength) +
    nextSample * crossfadeFactor transitionCounter transitionLength

/-- Samples as real numbers. -/
noncomputable def realOps : SampleOps ℝ :=
  { isZero := fun x => decide (x = 0), zero := 0, mix := mixSample }

/-! ## `loadConfig()`: the channel names

Lines 252-273 of `loadConfig()` and the name table built by the constructor (lines 85-96).
The `SPEAKER_*` masks are the values of the Windows SDK header `KsMedia.h`. -/

/-- The conversion `to_wstring((unsigned long long)c)`: the decimal representation. -/
def to_wstring (c : Nat) : String := Nat.repr c

/-- The map `channelNameToPosMap` filled at lines 85-93: `SPEAKER_FRONT_LEFT`,
`SPEAKER_FRONT_RIGHT`, `SPEAKER_FRONT_CENTER`, `SPEAKER_LOW_FREQUENCY`, `SPEAKER_BACK_LEFT`,
`SPEAKER_BACK_RIGHT`, `SPEAKER_BACK_CENTER`, `SPEAKER_SIDE_LEFT`, `SPEAKER_SIDE_RIGHT`. -/
def channelNameToPosMap : List (String × Nat) :=
  [("L", 0x1), ("R", 0x2), ("C", 0x4), ("SUB", 0x8), ("RL", 0x10), ("RR", 0x20),
    ("RC", 0x100), ("SL", 0x200), ("SR", 0x400)]

/-- The map `channelPosToNameMap` (lines 95-96), as the lookup `find` of lines 189 and 259. -/
def channelPosToNameMap (channelPos : Nat) : Option String :=
  (channelNameToPosMap.find? (fun entry => entry.2 == channelPos)).map Prod.fst

/-- The body of the loop of lines 254-265 for bit `i`, on the names pushed so far and the
counter `c`. -/
def maskStep (channelMask : Nat) (st : List String × Nat) (i : Nat) : List String × Nat :=
  let channelPos := 1 <<< i
  if channelMask &&& channelPos ≠ 0 then
    match channelPosToNameMap channelPos with
    | some name => (st.1 ++ [name], st.2 + 1)
    | none => (st.1 ++ [to_wstring st.2], st.2 + 1)
  else st

/-- The loop of lines 254-265 over the bits 0 to 30. -/
def maskLoop (channelMask : Nat) (st : List String × Nat) : List String × Nat :=
  (List.range 31).foldl (maskStep channelMask) st

/-- The loop of lines 268-269, `c` being an `unsigned`; `none` when the given number of
iterations does not reach the end of the loop. -/
def coverLoop : Nat → Nat → List String × Nat → Option (List String)
  | 0, _, _ => none
  | fuel + 1, bound, st =>
    if st.2 ≤ bound then coverLoop fuel bound (st.1 ++ [to_wstring st.2], (st.2 + 1) % 2 ^ 32)
    else some st.1

/-- Lines 252-269: the pool names for a channel mask and the two channel counts. -/
def buildChannelNames (fuel channelMask realChannelCount outputChannelCount : Nat) :
    Option (List String) :=
  coverLoop fuel (max realChannelCount outputChannelCount) (maskLoop channelMask ([], 1))

/-- Lines 252-273 on the routing members: the pool is rebuilt, the selection is the whole
pool, `lastChannelNames` and `lastNewChannelNames` are cleared; `lastInPlace` is not
assigned. -/
def loadChannelNames (fuel channelMask realChannelCount outputChannelCount : Nat)
    (s : CompileState) : Option CompileState :=
  (buildChannelNames fuel channelMask realChannelCount outputChannelCount).map fun names =>
    { s with
      allChannelNames := names
      currentChannelNames := names
      lastChannelNames := []
      lastNewChannelNames := [] }

/-- The set bits among bits 0 to 30 of the mask, in ascending order. -/
def maskBits (channelMask : Nat) : List Nat :=
  (List.range 31).filter (fun i => decide (channelMask &&& (1 <<< i) ≠ 0))

/-- The name given to the lane of bit `i` when it is the lane number `c` (counted from 1). -/
def laneName (i c : Nat) : String :=
  match channelPosToNameMap (1 <<< i) with
  | some name => name
  | none => to_wstring c

/-- The names given to the lanes of the bits `bits` when the first of them is lane `c`. -/
def laneNames : List Nat → Nat → List String
  | [], _ => []
  | i :: rest, c => laneName i c :: laneNames rest (c + 1)

/-- The nine symbolic channel names. -/
def symbolicNames : List String := ["L", "R", "C", "SUB", "RL", "RR", "RC", "SL", "SR"]

/-! ## `loadConfig()` and `loadConfig(path)`: the factories

The filter factories are outside `FilterEngine.cpp`. `initialize` hands each of them the
engine (line 221), so a factory call may change what the engine owns; `createFilter` receives
`key` and `value` as variables of the caller, which tests `key` again after the call (line
390). A factory call is therefore a function of the state below that returns the new state
and, for `createFilter`, the key and value after the call. -/

/-- The factories pushed by the constructor (lines 73-83). -/
inductive FactoryKind
  | Device | If | Expression | Include | Stage | Channel | IIR | BiQuad | Preamp | Delay | Copy
  deriving DecidableEq

/-- The vector `factories` after the constructor: the registration order. -/
def factories : List FactoryKind :=
  [FactoryKind.Device, FactoryKind.If, FactoryKind.Expression, FactoryKind.Include,
    FactoryKind.Stage, FactoryKind.Channel, FactoryKind.IIR, FactoryKind.BiQuad,
    FactoryKind.Preamp, FactoryKind.Delay, FactoryKind.Copy]

/-- What a factory call can read and change: the routing members of the engine, the members
`watchRegistryKeys` and the variables of `parser` (values of type `V`), and the state of
the factories themselves (type `σ`). -/
structure LoadState (V σ : Type) where
  routing : CompileState
  watchRegistryKeys : List String
  parserVars : List (String × V)
  factoryState : σ

/-- The outcome of a call `factory->createFilter(path, key, value)`: the state, `key` and
`value` after the call, and the returned filters, `none` when the call throws an `exception`
(caught at line 385, leaving `newFilters` empty). -/
structure CreateResult (V σ : Type) where
  state : LoadState V σ
  key : String
  value : String
  newFilters : Option (List IFilter)

/-- The five calls of the `IFilterFactory` interface made by `loadConfig`. -/
structure FactoryOps (V σ : Type) where
  startOfConfiguration : FactoryKind → LoadState V σ → LoadState V σ × List IFilter
  startOfFile : FactoryKind → LoadState V σ → String → LoadState V σ × List IFilter
  createFilter : FactoryKind → LoadState V σ → String → String → String → CreateResult V σ
  endOfFile : FactoryKind → LoadState V σ → String → LoadState V σ × List IFilter
  endOfConfiguration : FactoryKind → LoadState V σ → LoadState V σ × List IFilter

/-- The statement `if(!newFilters.empty()) addFilters(newFilters)`. -/
def addNewFilters {V σ : Type} (w : LoadState V σ) (newFilters : List IFilter) : LoadState V σ :=
  if newFilters.isEmpty then w else { w with routing := addFilters w.routing newFilters }

/-- The loops of lines 277-283, 287-293, 348-354 and 401-407: every factory is called in turn
and the filters it returns are appended. -/
def runHooks {V σ : Type} (hook : FactoryKind → LoadState V σ → LoadState V σ × List IFilter)
    (w : LoadState V σ) : LoadState V σ :=
  factories.foldl (fun w factory => addNewFilters (hook factory w).1 (hook factory w).2) w

/-- One call of `createFilter`, as recorded by `dispatchLine`: the factory, the key and value
it was given, and the outcome. -/
structure FactoryCall (V σ : Type) where
  factory : FactoryKind
  state : LoadState V σ
  key : String
  value : String
  result : CreateResult V σ

/-- The loop of lines 376-397 over the given factories, for one line with key `key` and
value `value`. Besides the state after the line it returns the calls made, in order. -/
def dispatchLine {V σ : Type} (ops : FactoryOps V σ) (path : String) :
    List FactoryKind → LoadState V σ → String → String →
      LoadState V σ × List (FactoryCall V σ)
  | [], w, _, _ => (w, [])
  | factory :: rest, w, key, value =>
    -- 380-388
    let r := ops.createFilter factory w path key value
    let newFilters := r.newFilters.getD []
    let call : FactoryCall V σ :=
      { factory := factory, state := w, key := key, value := value, result := r }
    -- 390-391
    if r.key = "" then (r.state, [call])
    -- 392-396
    else if !newFilters.isEmpty then
      ({ r.state with routing := addFilters r.state.routing newFilters }, [call])
    else
      let d := dispatchLine ops path rest r.state r.key r.value
      (d.1, call :: d.2)

/-- Lines 360-361: a trailing carriage return is removed. -/
def stripCarriageReturn (line : List Char) : List Char :=
  if line.getLast? = some (Char.ofNat 13) then line.dropLast else line

/-- The text before the first colon (`line.substr(0, pos)`). -/
def keyText (line : List Char) : List Char := line.takeWhile (fun ch => ch != ':')

/-- The text after the first colon (`line.substr(pos + 1)`). -/
def valueText (line : List Char) : List Char := (line.dropWhile (fun ch => ch != ':')).drop 1

/-- The body of the loop of lines 356-399 for one line of the file, already decoded to wide
characters; `trim` is `StringHelper::trim`. -/
def loadLine {V σ : Type} (ops : FactoryOps V σ) (trim : String → String) (path : String)
    (w : LoadState V σ) (encodedLine : String) : LoadState V σ :=
  let line := stripCarriageReturn encodedLine.data
  -- 367-368
  if ':' ∈ line then
    -- 370-374
    let key := trim (String.mk (keyText line))
    let value := String.mk (valueText line)
    (dispatchLine ops path factories w key value).1
  else w

/-- The function `loadConfig(path)` (lines 311-411); `content` is `none` when the file
cannot be opened (line 325) and otherwise the lines read from it. -/
def loadConfigFile {V σ : Type} (ops : FactoryOps V σ) (trim : String → String) (path : String)
    (content : Option (List String)) (w : LoadState V σ) : LoadState V σ :=
  match content with
  | none => w
  | some lines =>
    -- 346
    let savedChannelNames := w.routing.currentChannelNames
    -- 348-354
    let w1 := runHooks (fun factory w => ops.startOfFile factory w path) w
    -- 356-399
    let w2 := lines.foldl (loadLine ops trim path) w1
    -- 401-407
    let w3 := runHooks (fun factory w => ops.endOfFile factory w path) w2
    -- 410
    { w3 with routing := { w3.routing with currentChannelNames := savedChannelNames } }

/-- The compiling part of `loadConfig()` (lines 252-298), `configFile` being the path of
`config.txt`. The result is the list of `FilterInfo` and the pool size handed to the new
`FilterConfiguration`, and the state after `filterInfos.clear()`; `none` when the loop of
lines 268-269 is cut short. -/
def compileConfig {V σ : Type} (ops : FactoryOps V σ) (trim : String → String)
    (fuel channelMask realChannelCount outputChannelCount : Nat) (configFile : String)
    (content : Option (List String)) (w : LoadState V σ) :
    Option ((List FilterInfo × Nat) × LoadState V σ) :=
  -- 252-273
  match loadChannelNames fuel channelMask realChannelCount outputChannelCount w.routing with
  | none => none
  | some routing =>
    -- 274-275
    let w1 : LoadState V σ :=
      { w with routing := routing, watchRegistryKeys := [], parserVars := [] }
    -- 277-283
    let w2 := runHooks ops.startOfConfiguration w1
    -- 285
    let w3 := loadConfigFile ops trim configFile content w2
    -- 287-293
    let w4 := runHooks ops.endOfConfiguration w3
    -- 295-298
    some ((w4.routing.filterInfos, w4.routing.allChannelNames.length),
      { w4 with routing := { w4.routing with filterInfos := [] } })

/-- The dispatch of one line as claim C14 words it, for comparison with `dispatchLine`: every
factory is consulted with the key and value of the line, and the filters of the first factory
that returns some are appended. -/
def dispatchLineSpec {V σ : Type} (ops : FactoryOps V σ) (path key value : String) :
    List FactoryKind → LoadState V σ → LoadState V σ × List (FactoryCall V σ)
  | [], w => (w, [])
  | factory :: rest, w =>
    let r := ops.createFilter factory w path key value
    let newFilters := r.newFilters.getD []
    let call : FactoryCall V σ :=
      { factory := factory, state := w, key := key, value := value, result := r }
    if !newFilters.isEmpty then
      ({ r.state with routing := addFilters r.state.routing newFilters }, [call])
    else
      let d := dispatchLineSpec ops path key value rest r.state
      (d.1, call :: d.2)

/-- Two routing states that agree on every member except possibly `lastInPlace`, which may
differ only while `lastNewChannelNames` is empty. -/
def SameRouting (s1 s2 : CompileState) : Prop :=
  s1.sampleRate = s2.sampleRate ∧ s1.maxFrameCount = s2.maxFrameCount ∧
    s1.allChannelNames = s2.allChannelNames ∧
    s1.currentChannelNames = s2.currentChannelNames ∧
    s1.lastChannelNames = s2.lastChannelNames ∧
    s1.lastNewChannelNames = s2.lastNewChannelNames ∧
    s1.filterInfos = s2.filterInfos ∧
    (s1.lastInPlace = s2.lastInPlace ∨ s1.lastNewChannelNames = [])

/-- Two load states with the same factory state, registry keys and parser variables and
routing states related by `SameRouting`. -/
def SameLoadState {V σ : Type} (w1 w2 : LoadState V σ) : Prop :=
  SameRouting w1.routing w2.routing ∧ w1.watchRegistryKeys = w2.watchRegistryKeys ∧
    w1.parserVars = w2.parserVars ∧ w1.factoryState = w2.factoryState

/-- The factories are deterministic and do not read the stale member `lastInPlace`: on
related states every call returns the same filters (and key and value) and related states. -/
structure FactoryOps.Deterministic {V σ : Type} (ops : FactoryOps V σ) : Prop where
  startOfConfiguration : ∀ factory w1 w2, SameLoadState w1 w2 →
    SameLoadState (ops.startOfConfiguration factory w1).1
        (ops.startOfConfiguration factory w2).1 ∧
      (ops.startOfConfiguration factory w1).2 = (ops.startOfConfiguration factory w2).2
  startOfFile : ∀ factory w1 w2 path, SameLoadState w1 w2 →
    SameLoadState (ops.startOfFile factory w1 path).1 (ops.startOfFile factory w2 path).1 ∧
      (ops.startOfFile factory w1 path).2 = (ops.startOfFile factory w2 path).2
  createFilter : ∀ factory w1 w2 path key value, SameLoadState w1 w2 →
    SameLoadState (ops.createFilter factory w1 path key value).state
        (ops.createFilter factory w2 path key value).state ∧
      (ops.createFilter factory w1 path key value).key =
        (ops.createFilter factory w2 path key value).key ∧
      (ops.createFilter factory w1 path key value).value =
        (ops.createFilter factory w2 path key value).value ∧
      (ops.createFilter factory w1 path key value).newFilters =
        (ops.createFilter factory w2 path key value).newFilters
  endOfFile : ∀ factory w1 w2 path, SameLoadState w1 w2 →
    SameLoadState (ops.endOfFile factory w1 path).1 (ops.endOfFile factory w2 path).1 ∧
      (ops.endOfFile factory w1 path).2 = (ops.endOfFile factory w2 path).2
  endOfConfiguration : ∀ factory w1 w2, SameLoadState w1 w2 →
    SameLoadState (ops.endOfConfiguration factory w1).1
        (ops.endOfConfiguration factory w2).1 ∧
      (ops.endOfConfiguration factory w1).2 = (ops.endOfConfiguration factory w2).2

/-- What `dispatchLine` does, in terms of the calls `d.2` it made and the state `d.1` it
ends in: the factories called are an initial segment of `fs` in order; each recorded call is
the call of `createFilter` on the recorded state, key and value; the first is made on `w`,
`key`, `value` and each later one on what the call before it left, that call having left a
non-empty key and returned no filter; the loop stops before the last factory only after a
call that cleared the key or returned filters; and the state after the line is the state
after the last call, with the filters of that call appended when the key is still
non-empty. -/
def ConsultsInOrder {V σ : Type} (ops : FactoryOps V σ) (path : String)
    (fs : List FactoryKind) (w : LoadState V σ) (key value : String)
    (d : LoadState V σ × List (FactoryCall V σ)) : Prop :=
  (∃ n, n ≤ fs.length ∧ (fs ≠ [] → 0 < n) ∧
    d.2.map (fun call => call.factory) = fs.take n) ∧
  (∀ call ∈ d.2,
    call.result = ops.createFilter call.factory call.state path call.key call.value) ∧
  (∀ call ∈ d.2.head?, call.state = w ∧ call.key = key ∧ call.value = value) ∧
  d.2.Chain' (fun a b =>
    b.state = a.result.state ∧ b.key = a.result.key ∧ b.value = a.result.value ∧
      a.result.key ≠ "" ∧ (a.result.newFilters.getD []).isEmpty = true) ∧
  (fs ≠ [] → ∃ call, d.2.getLast? = some call ∧
    (d.2.length < fs.length →
      call.result.key = "" ∨ (call.result.newFilters.getD []).isEmpty = false) ∧
    d.1 =
      if call.result.key ≠ "" ∧ (call.result.newFilters.getD []).isEmpty = false then
        { call.result.state with
          routing := addFilters call.result.state.routing (call.result.newFilters.getD []) }
      else call.result.state)

/-! ## A stream of callbacks -/

/-- The host calling `process` once per entry of `calls` (output buffer, frame count) with the
input `input`: the output buffer and frame count of every callback, or `none` when a callback
dereferences a null `currentConfig`. -/
def runCallbacks {α G : Type} (ops : SampleOps α) (gops : GraphOps α G) (input : Buffer α) :
    Engine G → List (Option (Buffer α) × Nat) → Option (List (Buffer α × Nat))
  | _, [] => some []
  | e, (output, frameCount) :: rest =>
    match process ops gops e output input frameCount with
    | none => none
    | some r => (runCallbacks ops gops input r.1 rest).map (fun outs => (r.2, frameCount) :: outs)

/-- The output sample of frame `frame` of the stream (counted over the callbacks) and channel
`channel`, the output being interleaved with `outputChannelCount` channels. -/
def frameSample {α : Type} (outputChannelCount : Nat) :
    List (Buffer α × Nat) → Nat → Nat → Option α
  | [], _, _ => none
  | (buffer, frameCount) :: rest, frame, channel =>
    if frame < frameCount then some (buffer (frame * outputChannelCount + channel))
    else frameSample outputChannelCount rest (frame - frameCount) channel

/-- Configurations whose output is a constant on every lane and frame: the configuration is
the constant. They are not empty. -/
def constGraphOps : GraphOps ℝ ℝ :=
  { isEmpty := fun _ => false, process := fun g _ _ => g, getOutputSamples := fun g _ _ => g }

/-- A constant input of 1.0. -/
def dcInput : Buffer ℝ := fun _ => 1

/-- The engine `e`, `frames` frames into the transition of `e0` from the configuration at
`current` to the one at `next`: before frame 480 the transition is pending with the counter
at `frames`; at frame 480 the next configuration has been promoted; channel counts,
`transitionLength` and the configurations are those of `e0`. -/
def TransitionInv (e0 e : Engine ℝ) (current next frames : Nat) : Prop :=
  e.realChannelCount = e0.realChannelCount ∧ e.outputChannelCount = e0.outputChannelCount ∧
    e.transitionLength = 480 ∧ e.heap = e0.heap ∧
    (frames < 480 →
      e.currentConfig = some current ∧ e.nextConfig = some next ∧
        e.transitionCounter = frames) ∧
    (frames = 480 → e.currentConfig = some next ∧ e.nextConfig = none) ∧
    ∃ p, e.currentConfig = some p

/-! ### Sample inputs -/

/-- A stereo compilation state as `loadConfig` leaves it before the first filter. -/
def stereoState : CompileState :=
  { sampleRate := 48000
    maxFrameCount := 512
    allChannelNames := ["L", "R"]
    currentChannelNames := ["L", "R"]
    lastChannelNames := []
    lastNewChannelNames := []
    lastInPlace := false
    filterInfos := [] }

/-- An in-place filter on the current selection that keeps the channel names. -/
def gainFilter : IFilter :=
  { getInPlace := true, getAllChannels := false, getSelectChannels := false
    init := fun _ _ names => names }

/-- An all-channels filter, not in place, that introduces the lane `X`. -/
def routeFilter : IFilter :=
  { getInPlace := false, getAllChannels := true, getSelectChannels := false
    init := fun _ _ names => names ++ ["X"] }

/-- A configuration without filters, as far as the shortcuts of `process` look at it. -/
def idleGraphOps : GraphOps Nat Unit :=
  { isEmpty := fun _ => true, process := fun g _ _ => g, getOutputSamples := fun _ _ _ => 0 }

/-- A stand-in for the crossfade arithmetic on bit patterns; the silence and passthrough
paths end before the crossfade. -/
def keepCurrent : Nat → Nat → Nat → Nat → Nat := fun _ _ currentSample _ => currentSample

/-- A mono engine with an empty current configuration and nothing pending. -/
def monoEngine : Engine Unit :=
  { capture := false
    sampleRate := 48000
    inputChannelCount := 1
    realChannelCount := 1
    outputChannelCount := 1
    channelMask := 0x4
    maxFrameCount := 512
    lastInputWasSilent := false
    lastInputSize := -1
    currentConfig := some 0
    nextConfig := none
    previousConfig := none
    transitionCounter := 0
    transitionLength := 480
    loadSemaphore := 1
    heap := fun _ => () }

/-- The engine `monoEngine` with two output channels for its one real input channel. -/
def upmixEngine : Engine Unit := { monoEngine with outputChannelCount := 2 }

/-- The engine `upmixEngine` 478 frames into a transition to the configuration at address 1,
the reload permit being taken. -/
def fadingEngine : Engine Unit :=
  { upmixEngine with nextConfig := some 1, transitionCounter := 478, loadSemaphore := 0 }

/-- A system whose worker is idle, around `monoEngine`. -/
def monoSystem : System Unit := { engine := monoEngine, workerHoldsPermit := false }

/-- A freshly constructed engine: no configuration, the reload permit available. -/
def freshSystem : System Unit :=
  { engine := { monoEngine with currentConfig := none, inputChannelCount := 0 }
    workerHoldsPermit := false }

/-- The system `freshSystem` after `initialize` at 48 kHz with a configuration file: the
configuration compiled by `loadConfig()`, at address 7, is the current one. -/
def initSystem : System Unit :=
  { freshSystem with
    engine := engineInit freshSystem.engine 48000 2 2 2 3 512 (some "config.txt") 7 () }

/-- The system `initSystem` after the reload worker has taken the permit. -/
def waitingSystem : System Unit :=
  { engine := { initSystem.engine with loadSemaphore := initSystem.engine.loadSemaphore - 1 }
    workerHoldsPermit := true }

/-- The system `waitingSystem` after the worker's `loadConfig()`: the configuration at
address 8 is pending. -/
def pendingSystem : System Unit :=
  { engine := loadConfig waitingSystem.engine 8 (), workerHoldsPermit := false }

/-- An input made of negative zeros (`-0.0f`). -/
def negativeZeros : Buffer Nat := fun _ => 0x80000000

/-- An output buffer holding `1.0f` everywhere before the callback. -/
def staleOutput : Buffer Nat := fun _ => 0x3F800000

/-- A buffer whose first sample is `0.0f` and whose other samples are `1.0f`. -/
def zeroThenOnes : Buffer Nat := fun i => if i = 0 then 0x00000000 else 0x3F800000

/-- A buffer of `0.0f`. -/
def zeros : Buffer Nat := fun _ => 0x00000000

/-- The system `pendingSystem` after a `process` callback of three frames whose input is not
silent. -/
def fadedSystem : System Unit :=
  match process (f32Ops keepCurrent) idleGraphOps pendingSystem.engine (some staleOutput)
      zeroThenOnes 3 with
  | some r => { pendingSystem with engine := r.1 }
  | none => pendingSystem

/-- A load state around `stereoState`, without registry keys or parser variables. -/
def plainLoadState : LoadState Unit Unit :=
  { routing := stereoState, watchRegistryKeys := [], parserVars := [], factoryState := () }

/-- The same load state with members left over by an earlier compilation. -/
def staleLoadState : LoadState Unit Unit :=
  { routing :=
      { stereoState with
        allChannelNames := ["L", "R", "X"]
        currentChannelNames := ["X"]
        lastChannelNames := ["L"]
        lastNewChannelNames := ["X"]
        lastInPlace := true }
    watchRegistryKeys := ["key"]
    parserVars := [("a", ())]
    factoryState := () }

/-- Factories that leave state, key and value alone; the `Preamp` factory answers the key
`Preamp` with one in-place filter. -/
def plainOps : FactoryOps Unit Unit :=
  { startOfConfiguration := fun _ w => (w, [])
    startOfFile := fun _ w _ => (w, [])
    createFilter := fun factory w _ key value =>
      { state := w, key := key, value := value
        newFilters :=
          if factory = FactoryKind.Preamp ∧ key = "Preamp" then some [gainFilter] else some [] }
    endOfFile := fun _ w _ => (w, [])
    endOfConfiguration := fun _ w => (w, []) }

/-- The factories of `plainOps`, except that the `Device` factory clears the key of every
line, as for a device that does not match. -/
def gatedOps : FactoryOps Unit Unit :=
  { plainOps with
    createFilter := fun factory w path key value =>
      if factory = FactoryKind.Device then
        { state := w, key := "", value := value, newFilters := some [] }
      else plainOps.createFilter factory w path key value }

/-- A stand-in for `StringHelper::trim`: leading and trailing blanks are removed. -/
def trimBlanks (text : String) : String :=
  String.mk
    (((text.data.dropWhile (fun ch => ch == ' ')).reverse.dropWhile
      (fun ch => ch == ' ')).reverse)

/-- A stereo engine at 48 kHz at the start of a transition from the configuration at
address 0, of constant output 1.0, to the one at address 1, of constant output
`10 ^ (-12 / 20)`. -/
noncomputable def dcEngine : Engine ℝ :=
  { capture := false
    sampleRate := 48000
    inputChannelCount := 2
    realChannelCount := 2
    outputChannelCount := 2
    channelMask := 0x3
    maxFrameCount := 512
    lastInputWasSilent := false
    lastInputSize := -1
    currentConfig := some 0
    nextConfig := some 1
    previousConfig := none
    transitionCounter := 0
    transitionLength := 480
    loadSemaphore := 0
    heap := fun p => if p = 0 then 1 else (10 : ℝ) ^ (-(12 : ℝ) / 20) }

/-- The engine `dcEngine` 240 frames into its transition. -/
noncomputable def fadingDcEngine : Engine ℝ := { dcEngine with transitionCounter := 240 }

/-! ## Theorems: channel routing compilation -/

/-- What one loop iteration leaves in each member. -/
theorem addFilter_fields (s : CompileState) (f : IFilter) :
    addFilter s f =
      { sampleRate := s.sampleRate
        maxFrameCount := s.maxFrameCount
        allChannelNames := (outChannelsOf s f).1
        currentChannelNames :=
          if f.getSelectChannels then newChannelNamesOf s f else s.currentChannelNames
        lastChannelNames :=
          if f.getInPlace then effectiveInputs s f else newChannelNamesOf s f
        lastNewChannelNames :=
          if f.getInPlace then newChannelNamesOf s f else effectiveInputs s f
        lastInPlace := f.getInPlace
        filterInfos := s.filterInfos ++ [emitInfo s f] } := by
  cases hA : f.getAllChannels <;> cases hP : f.getInPlace <;> cases hS : f.getSelectChannels <;>
    simp [addFilter, emitInfo, outChannelsOf, reusesOutputs, newChannelNamesOf, inChannelsOf,
      effectiveInputs, hA, hP, hS]

theorem addFilter_filterInfos (s : CompileState) (f : IFilter) :
    (addFilter s f).filterInfos = s.filterInfos ++ [emitInfo s f] := by
  rw [addFilter_fields]

theorem addFilter_allChannelNames (s : CompileState) (f : IFilter) :
    (addFilter s f).allChannelNames = (outChannelsOf s f).1 := by
  rw [addFilter_fields]

theorem addFilters_nil (s : CompileState) : addFilters s [] = s := rfl

theorem addFilters_cons (s : CompileState) (f : IFilter) (fs : List IFilter) :
    addFilters s (f :: fs) = addFilters (addFilter s f) fs := rfl

theorem addFilters_concat (s : CompileState) (fs : List IFilter) (f : IFilter) :
    addFilters s (fs ++ [f]) = addFilter (addFilters s fs) f := by
  simp [addFilters, List.foldl_append]

theorem addFilters_take_succ (s : CompileState) (fs : List IFilter) (i : Nat)
    (hi : i < fs.length) :
    addFilters s (fs.take (i + 1)) = addFilter (addFilters s (fs.take i)) fs[i] := by
  rw [List.take_succ, List.getElem?_eq_getElem hi]
  exact addFilters_concat s (fs.take i) fs[i]

theorem addFilters_infos_append (fs : List IFilter) (s : CompileState) :
    ∃ rest, (addFilters s fs).filterInfos = s.filterInfos ++ rest := by
  induction fs generalizing s with
  | nil => exact ⟨[], by simp [addFilters_nil]⟩
  | cons f fs ih =>
    obtain ⟨rest, hrest⟩ := ih (addFilter s f)
    refine ⟨emitInfo s f :: rest, ?_⟩
    rw [addFilters_cons, hrest, addFilter_filterInfos]
    simp

/-- The `i`-th filter of the argument list is compiled against the state left by the first
`i` filters, and its `FilterInfo` lands at position `i` after the infos already present. -/
theorem addFilters_info_at (fs : List IFilter) (s : CompileState) (i : Nat)
    (hi : i < fs.length) :
    (addFilters s fs).filterInfos[s.filterInfos.length + i]? =
      some (emitInfo (addFilters s (fs.take i)) fs[i]) := by
  induction fs generalizing s i with
  | nil => simp at hi
  | cons f fs ih =>
    cases i with
    | zero =>
      obtain ⟨rest, hrest⟩ := addFilters_infos_append fs (addFilter s f)
      have happ : (addFilter s f).filterInfos ++ rest =
          s.filterInfos ++ (emitInfo s f :: rest) := by simp [addFilter_filterInfos]
      rw [addFilters_cons, hrest, happ, Nat.add_zero,
        List.getElem?_append_right (Nat.le_refl _)]
      simp [addFilters_nil]
    | succ i =>
      have hi2 : i < fs.length := by simpa using hi
      have h := ih (addFilter s f) i hi2
      have hlen : (addFilter s f).filterInfos.length = s.filterInfos.length + 1 := by
        simp [addFilter_filterInfos]
      rw [hlen] at h
      rw [addFilters_cons, show s.filterInfos.length + (i + 1) = s.filterInfos.length + 1 + i by
        omega, h]
      simp [addFilters_cons]

/-! ### The output-name loop -/

theorem mapOutChannels_length (names pool : List String) :
    (mapOutChannels pool names).2.length = names.length := by
  induction names generalizing pool with
  | nil => rfl
  | cons n ns ih =>
    unfold mapOutChannels
    split <;> simp [ih]

/-- The names the loop appends: exactly the output names missing from the pool, without
repetition, ordered by first occurrence among the output names. -/
theorem mapOutChannels_pool (names pool : List String) :
    ∃ added, (mapOutChannels pool names).1 = pool ++ added ∧ added.Nodup ∧
      (∀ x, x ∈ added ↔ x ∈ names ∧ x ∉ pool) ∧
      (∀ a b, a ∈ added → b ∈ added →
        (added.indexOf a < added.indexOf b ↔ names.indexOf a < names.indexOf b)) := by
  induction names generalizing pool with
  | nil => exact ⟨[], by simp [mapOutChannels]⟩
  | cons n ns ih =>
    unfold mapOutChannels
    split
    · rename_i hnew
      have hn : n ∉ pool := List.indexOf_eq_length.mp hnew
      obtain ⟨added, hpool, hnd, hmem, hord⟩ := ih (pool ++ [n])
      have hnotin : n ∉ added := fun h => by
        have := (hmem n).mp h
        simp at this
      refine ⟨n :: added, by simp [hpool], List.nodup_cons.mpr ⟨hnotin, hnd⟩, ?_, ?_⟩
      · intro x
        by_cases hx : x = n
        · subst hx; simp [hn]
        · simp [hmem, hx]
      · intro a b ha hb
        by_cases ha2 : a = n
        · by_cases hb2 : b = n
          · subst ha2; subst hb2; simp
          · subst ha2
            simp [List.indexOf_cons_ne _ (Ne.symm hb2)]
        · by_cases hb2 : b = n
          · subst hb2
            simp [List.indexOf_cons_ne _ (Ne.symm ha2)]
          · have ha3 : a ∈ added := by simpa [ha2] using ha
            have hb3 : b ∈ added := by simpa [hb2] using hb
            simp only [List.indexOf_cons_ne _ (Ne.symm ha2), List.indexOf_cons_ne _ (Ne.symm hb2),
              Nat.succ_lt_succ_iff]
            exact hord a b ha3 hb3
    · rename_i hold
      have hn : n ∈ pool := by
        by_contra h
        exact hold (List.indexOf_eq_length.mpr h)
      obtain ⟨added, hpool, hnd, hmem, hord⟩ := ih pool
      refine ⟨added, hpool, hnd, ?_, ?_⟩
      · intro x
        by_cases hx : x = n
        · subst hx; simp [hmem, hn]
        · simp [hmem, hx]
      · intro a b ha hb
        have ha2 : a ≠ n := fun h => ((hmem a).mp ha).2 (h ▸ hn)
        have hb2 : b ≠ n := fun h => ((hmem b).mp hb).2 (h ▸ hn)
        simp only [List.indexOf_cons_ne _ (Ne.symm ha2), List.indexOf_cons_ne _ (Ne.symm hb2),
          Nat.succ_lt_succ_iff]
        exact hord a b ha hb

theorem mapOutChannels_extends (names pool : List String) :
    pool <+: (mapOutChannels pool names).1 := by
  obtain ⟨added, h, -⟩ := mapOutChannels_pool names pool
  rw [h]
  exact List.prefix_append pool added

/-- Every index written by the loop addresses, in the pool after the loop, the output name it
was written for. -/
theorem mapOutChannels_lookup (names pool : List String) (j : Nat) (hj : j < names.length) :
    ∃ idx, (mapOutChannels pool names).2[j]? = some idx ∧
      idx < (mapOutChannels pool names).1.length ∧
      (mapOutChannels pool names).1[idx]? = some names[j] := by
  induction names generalizing pool j with
  | nil => simp at hj
  | cons n ns ih =>
    unfold mapOutChannels
    split
    · obtain ⟨added, hpool, -⟩ := mapOutChannels_pool ns (pool ++ [n])
      cases j with
      | zero =>
        refine ⟨pool.length, by simp, ?_, ?_⟩
        · simp only [hpool]; simp
        · simp only [hpool]
          rw [List.append_assoc, List.getElem?_append_right (Nat.le_refl _)]
          simp
      | succ j =>
        obtain ⟨idx, h1, h2, h3⟩ := ih (pool ++ [n]) j (by simpa using hj)
        exact ⟨idx, by simpa using h1, h2, by simpa using h3⟩
    · rename_i hold
      have hn : n ∈ pool := by
        by_contra h
        exact hold (List.indexOf_eq_length.mpr h)
      obtain ⟨added, hpool, -⟩ := mapOutChannels_pool ns pool
      cases j with
      | zero =>
        have hlt : pool.indexOf n < pool.length := List.indexOf_lt_length.mpr hn
        refine ⟨pool.indexOf n, by simp, ?_, ?_⟩
        · simp only [hpool]; simp; omega
        · simp only [hpool]
          rw [List.getElem?_append_left hlt, ← List.get?_eq_getElem?]
          simpa using List.indexOf_get? hn
      | succ j =>
        obtain ⟨idx, h1, h2, h3⟩ := ih pool j (by simpa using hj)
        exact ⟨idx, by simpa using h1, h2, by simpa using h3⟩

/-! ### Per-filter routing tables -/

theorem addFilters_lastInPlace (s : CompileState) (fs : List IFilter) (k : Nat)
    (hk : k < fs.length) :
    (addFilters s (fs.take (k + 1))).lastInPlace = fs[k].getInPlace := by
  rw [addFilters_take_succ s fs k hk, addFilter_fields]

/-- C1: the `i`-th filter handed to `addFilters` is compiled against `inputs`, which is the
pool `allChannelNames` when the filter reports `getAllChannels()` and the current selection
otherwise (and `inputs` is what its `initialize` receives). If `inputs` equals
`lastChannelNames` the emitted `inChannels` is empty; otherwise `inChannels` is the list of
the `find` positions of the input names in the pool, in order, so that when every input name
occurs in the pool each index is below the pool size and addresses its name. -/
theorem addFilters_inChannels (s : CompileState) (fs : List IFilter) (i : Nat)
    (hi : i < fs.length) :
    ∃ info inputs pre,
      pre = addFilters s (fs.take i) ∧
      (addFilters s fs).filterInfos[s.filterInfos.length + i]? = some info ∧
      inputs = (if fs[i].getAllChannels then pre.allChannelNames
        else pre.currentChannelNames) ∧
      newChannelNamesOf pre fs[i] = fs[i].init pre.sampleRate pre.maxFrameCount inputs ∧
      (inputs = pre.lastChannelNames → info.inChannels = []) ∧
      (inputs ≠ pre.lastChannelNames →
        info.inChannels.length = inputs.length ∧
        info.inChannels = inputs.map (fun name => pre.allChannelNames.indexOf name)) ∧
      (inputs ≠ pre.lastChannelNames → (∀ name ∈ inputs, name ∈ pre.allChannelNames) →
        ∀ j (hj : j < inputs.length), ∃ idx, info.inChannels[j]? = some idx ∧
          idx < pre.allChannelNames.length ∧ pre.allChannelNames[idx]? = some inputs[j]) := by
  refine ⟨emitInfo (addFilters s (fs.take i)) fs[i],
    effectiveInputs (addFilters s (fs.take i)) fs[i], addFilters s (fs.take i), rfl,
    addFilters_info_at fs s i hi, rfl, rfl, ?_, ?_, ?_⟩
  · intro h
    simp [emitInfo, inChannelsOf, h]
  · intro h
    have h2 : ¬ (addFilters s (fs.take i)).lastChannelNames =
        effectiveInputs (addFilters s (fs.take i)) fs[i] := fun e => h e.symm
    simp [emitInfo, inChannelsOf, h2, mapInChannels]
  · intro h hall j hj
    have h2 : ¬ (addFilters s (fs.take i)).lastChannelNames =
        effectiveInputs (addFilters s (fs.take i)) fs[i] := fun e => h e.symm
    have hmem := hall _ (List.getElem_mem hj)
    refine ⟨(addFilters s (fs.take i)).allChannelNames.indexOf
      (effectiveInputs (addFilters s (fs.take i)) fs[i])[j], ?_,
      List.indexOf_lt_length.mpr hmem, ?_⟩
    · simp [emitInfo, inChannelsOf, h2, mapInChannels, List.getElem?_eq_getElem hj]
    · rw [← List.get?_eq_getElem?]
      exact List.indexOf_get? hmem

/-- C2: for the `i`-th filter handed to `addFilters`, with `N` the names its `initialize`
returns and `P` the pool once the filter is appended: if the filter is in-place, the previous
filter was in-place (`lastInPlace`, which for `i = k + 1` is the flag of filter `k`) and `N`
equals `lastNewChannelNames`, then `outChannels` is empty; otherwise `outChannels` has length
`|N|`, every index is below `|P|` with `P[outChannels[j]] = N[j]`, and `P` is the old pool
followed by the names of `N` missing from it, once each, in order of first occurrence. -/
theorem addFilters_outChannels (s : CompileState) (fs : List IFilter) (i : Nat)
    (hi : i < fs.length) :
    ∃ info pre N P,
      pre = addFilters s (fs.take i) ∧
      (addFilters s fs).filterInfos[s.filterInfos.length + i]? = some info ∧
      N = newChannelNamesOf pre fs[i] ∧
      P = (addFilters s (fs.take (i + 1))).allChannelNames ∧
      (∀ k, i = k + 1 → fs[k]?.map IFilter.getInPlace = some pre.lastInPlace) ∧
      (fs[i].getInPlace = true ∧ pre.lastInPlace = true ∧ N = pre.lastNewChannelNames →
        info.outChannels = []) ∧
      (¬ (fs[i].getInPlace = true ∧ pre.lastInPlace = true ∧ N = pre.lastNewChannelNames) →
        info.outChannels.length = N.length ∧
        (∀ j (hj : j < N.length), ∃ idx, info.outChannels[j]? = some idx ∧
          idx < P.length ∧ P[idx]? = some N[j]) ∧
        ∃ added, P = pre.allChannelNames ++ added ∧ added.Nodup ∧
          (∀ x, x ∈ added ↔ x ∈ N ∧ x ∉ pre.allChannelNames) ∧
          (∀ a b, a ∈ added → b ∈ added →
            (added.indexOf a < added.indexOf b ↔ N.indexOf a < N.indexOf b))) := by
  refine ⟨emitInfo (addFilters s (fs.take i)) fs[i], addFilters s (fs.take i),
    newChannelNamesOf (addFilters s (fs.take i)) fs[i],
    (addFilters s (fs.take (i + 1))).allChannelNames, rfl,
    addFilters_info_at fs s i hi, rfl, rfl, ?_, ?_, ?_⟩
  · intro k hk
    subst hk
    have hk2 : k < fs.length := by omega
    rw [addFilters_lastInPlace s fs k hk2, List.getElem?_eq_getElem hk2]
    rfl
  · rintro ⟨h1, h2, h3⟩
    simp [emitInfo, outChannelsOf, reusesOutputs, h1, h2, h3]
  · intro h
    have hre : reusesOutputs (addFilters s (fs.take i)) fs[i] = false := by
      simp only [reusesOutputs, Bool.and_eq_false_imp, Bool.and_eq_true, decide_eq_false_iff_not]
      rintro ⟨h1, h2⟩ h3
      exact h ⟨h1, h2, h3.symm⟩
    have hout : outChannelsOf (addFilters s (fs.take i)) fs[i] =
        mapOutChannels (addFilters s (fs.take i)).allChannelNames
          (newChannelNamesOf (addFilters s (fs.take i)) fs[i]) := by
      simp [outChannelsOf, hre]
    have hP : (addFilters s (fs.take (i + 1))).allChannelNames =
        (mapOutChannels (addFilters s (fs.take i)).allChannelNames
          (newChannelNamesOf (addFilters s (fs.take i)) fs[i])).1 := by
      rw [addFilters_take_succ s fs i hi, addFilter_allChannelNames, hout]
    refine ⟨?_, ?_, ?_⟩
    · simp only [emitInfo, hout]
      exact mapOutChannels_length _ _
    · intro j hj
      simp only [emitInfo, hout, hP]
      exact mapOutChannels_lookup _ _ j hj
    · rw [hP]
      exact mapOutChannels_pool _ _

/-- C3: if the pool `allChannelNames` has no duplicate name before `addFilters`, then for any
filters (whatever names their `initialize` returns) it has none afterwards, and the old pool
is an initial segment of the new one, so every existing lane keeps its index. -/
theorem addFilters_pool_nodup (s : CompileState) (fs : List IFilter)
    (h : s.allChannelNames.Nodup) :
    (addFilters s fs).allChannelNames.Nodup ∧
      s.allChannelNames <+: (addFilters s fs).allChannelNames ∧
      ∀ (idx : Nat) (name : String), s.allChannelNames[idx]? = some name →
        (addFilters s fs).allChannelNames[idx]? = some name := by
  have key : ∀ (fs : List IFilter) (s : CompileState), s.allChannelNames.Nodup →
      (addFilters s fs).allChannelNames.Nodup ∧
        s.allChannelNames <+: (addFilters s fs).allChannelNames := by
    intro fs
    induction fs with
    | nil => intro s h; exact ⟨h, List.prefix_refl _⟩
    | cons f fs ih =>
      intro s h
      have hstep : (addFilter s f).allChannelNames.Nodup ∧
          s.allChannelNames <+: (addFilter s f).allChannelNames := by
        rw [addFilter_allChannelNames]
        unfold outChannelsOf
        split
        · exact ⟨h, List.prefix_refl _⟩
        · obtain ⟨added, hp, hnd, hmem, -⟩ :=
            mapOutChannels_pool (newChannelNamesOf s f) s.allChannelNames
          rw [hp]
          refine ⟨List.Nodup.append h hnd ?_, List.prefix_append _ _⟩
          intro x hx1 hx2
          exact ((hmem x).mp hx2).2 hx1
      obtain ⟨h1, h2⟩ := ih (addFilter s f) hstep.1
      exact ⟨h1, List.IsPrefix.trans hstep.2 h2⟩
  obtain ⟨h1, h2⟩ := key fs s h
  refine ⟨h1, h2, ?_⟩
  intro idx name hidx
  obtain ⟨t, ht⟩ := h2
  have hlt : idx < s.allChannelNames.length := by
    by_contra hge
    rw [List.getElem?_eq_none (by omega)] at hidx
    cases hidx
  rw [← ht, List.getElem?_append_left hlt]
  exact hidx

/-- C4: once the `i`-th filter handed to `addFilters` is appended, the current selection is
the names returned by the filter's `initialize` if the filter reports `getSelectChannels()`,
and otherwise the selection that was current before the filter, also for an all-channels
filter (whose inputs were the pool). -/
theorem addFilters_selection (s : CompileState) (fs : List IFilter) (i : Nat)
    (hi : i < fs.length) :
    (addFilters s (fs.take (i + 1))).currentChannelNames =
      if fs[i].getSelectChannels then
        fs[i].init (addFilters s (fs.take i)).sampleRate (addFilters s (fs.take i)).maxFrameCount
          (if fs[i].getAllChannels then (addFilters s (fs.take i)).allChannelNames
            else (addFilters s (fs.take i)).currentChannelNames)
      else (addFilters s (fs.take i)).currentChannelNames := by
  rw [addFilters_take_succ s fs i hi, addFilter_fields]
  rfl

theorem addFilters_inChannels_witness :
    1 < [gainFilter, routeFilter].length ∧
    ∃ info inputs pre,
      pre = addFilters stereoState ([gainFilter, routeFilter].take 1) ∧
      (addFilters stereoState [gainFilter, routeFilter]).filterInfos[
        stereoState.filterInfos.length + 1]? = some info ∧
      inputs = (if [gainFilter, routeFilter][1].getAllChannels then pre.allChannelNames
        else pre.currentChannelNames) ∧
      newChannelNamesOf pre [gainFilter, routeFilter][1] =
        [gainFilter, routeFilter][1].init pre.sampleRate pre.maxFrameCount inputs ∧
      (inputs = pre.lastChannelNames → info.inChannels = []) ∧
      (inputs ≠ pre.lastChannelNames →
        info.inChannels.length = inputs.length ∧
        info.inChannels = inputs.map (fun name => pre.allChannelNames.indexOf name)) ∧
      (inputs ≠ pre.lastChannelNames → (∀ name ∈ inputs, name ∈ pre.allChannelNames) →
        ∀ j (hj : j < inputs.length), ∃ idx, info.inChannels[j]? = some idx ∧
          idx < pre.allChannelNames.length ∧ pre.allChannelNames[idx]? = some inputs[j]) :=
  ⟨by decide, addFilters_inChannels stereoState [gainFilter, routeFilter] 1 (by decide)⟩

theorem addFilters_outChannels_witness :
    1 < [gainFilter, routeFilter].length ∧
    ∃ info pre N P,
      pre = addFilters stereoState ([gainFilter, routeFilter].take 1) ∧
      (addFilters stereoState [gainFilter, routeFilter]).filterInfos[
        stereoState.filterInfos.length + 1]? = some info ∧
      N = newChannelNamesOf pre [gainFilter, routeFilter][1] ∧
      P = (addFilters stereoState ([gainFilter, routeFilter].take (1 + 1))).allChannelNames ∧
      (∀ k, 1 = k + 1 →
        [gainFilter, routeFilter][k]?.map IFilter.getInPlace = some pre.lastInPlace) ∧
      ([gainFilter, routeFilter][1].getInPlace = true ∧ pre.lastInPlace = true ∧
          N = pre.lastNewChannelNames →
        info.outChannels = []) ∧
      (¬ ([gainFilter, routeFilter][1].getInPlace = true ∧ pre.lastInPlace = true ∧
          N = pre.lastNewChannelNames) →
        info.outChannels.length = N.length ∧
        (∀ j (hj : j < N.length), ∃ idx, info.outChannels[j]? = some idx ∧
          idx < P.length ∧ P[idx]? = some N[j]) ∧
        ∃ added, P = pre.allChannelNames ++ added ∧ added.Nodup ∧
          (∀ x, x ∈ added ↔ x ∈ N ∧ x ∉ pre.allChannelNames) ∧
          (∀ a b, a ∈ added → b ∈ added →
            (added.indexOf a < added.indexOf b ↔ N.indexOf a < N.indexOf b))) :=
  ⟨by decide, addFilters_outChannels stereoState [gainFilter, routeFilter] 1 (by decide)⟩

theorem addFilters_pool_nodup_witness :
    stereoState.allChannelNames.Nodup ∧
    ((addFilters stereoState [gainFilter, routeFilter]).allChannelNames.Nodup ∧
      stereoState.allChannelNames <+:
        (addFilters stereoState [gainFilter, routeFilter]).allChannelNames ∧
      ∀ (idx : Nat) (name : String), stereoState.allChannelNames[idx]? = some name →
        (addFilters stereoState [gainFilter, routeFilter]).allChannelNames[idx]? = some name) :=
  ⟨by decide, addFilters_pool_nodup stereoState [gainFilter, routeFilter] (by decide)⟩

theorem addFilters_selection_witness :
    1 < [gainFilter, routeFilter].length ∧
    (addFilters stereoState ([gainFilter, routeFilter].take (1 + 1))).currentChannelNames =
      if [gainFilter, routeFilter][1].getSelectChannels then
        [gainFilter, routeFilter][1].init
          (addFilters stereoState ([gainFilter, routeFilter].take 1)).sampleRate
          (addFilters stereoState ([gainFilter, routeFilter].take 1)).maxFrameCount
          (if [gainFilter, routeFilter][1].getAllChannels then
            (addFilters stereoState ([gainFilter, routeFilter].take 1)).allChannelNames
            else (addFilters stereoState ([gainFilter, routeFilter].take 1)).currentChannelNames)
      else (addFilters stereoState ([gainFilter, routeFilter].take 1)).currentChannelNames :=
  ⟨by decide, addFilters_selection stereoState [gainFilter, routeFilter] 1 (by decide)⟩

/-- The routing tables compiled for `gainFilter` followed by `routeFilter` on a stereo pool:
the second filter reuses the input binding and introduces lane 2. -/
theorem addFilters_stereo_tables :
    ((addFilters stereoState [gainFilter, routeFilter]).filterInfos.map
        (fun info => (info.inChannels, info.outChannels)),
      (addFilters stereoState [gainFilter, routeFilter]).allChannelNames) =
    ([([0, 1], [0, 1]), ([], [0, 1, 2])], ["L", "R", "X"]) := by
  decide

/-! ## Theorems: the runtime -/

/-! ### The paths through `process` -/

theorem inputSilent_of_zero {α : Type} (ops : SampleOps α) (input : Buffer α)
    (frameCount realChannelCount : Nat)
    (h : ∀ i, i < frameCount * realChannelCount → ops.isZero (input i) = true) :
    inputSilent ops input frameCount realChannelCount = true := by
  simp only [inputSilent, List.all_eq_true, List.mem_range]
  intro i hi
  exact h i (lt_of_lt_of_le hi (Nat.mod_le _ _))

theorem inputSilent_zero {α : Type} (ops : SampleOps α) (input : Buffer α)
    (frameCount realChannelCount : Nat)
    (h : inputSilent ops input frameCount realChannelCount = true)
    (hsize : frameCount * realChannelCount < 2 ^ 32) (i : Nat)
    (hi : i < frameCount * realChannelCount) : ops.isZero (input i) = true := by
  simp only [inputSilent, List.all_eq_true, List.mem_range] at h
  exact h i (by rwa [Nat.mod_eq_of_lt hsize])

/-- The silence shortcut (lines 439-448). -/
theorem process_silent {α G : Type} (ops : SampleOps α) (gops : GraphOps α G) (e : Engine G)
    (output : Option (Buffer α)) (input : Buffer α) (frameCount : Nat)
    (hs : inputSilent ops input frameCount e.realChannelCount = true)
    (hl : e.lastInputWasSilent = true) :
    process ops gops e output input frameCount =
      some ({ e with lastInputSize := frameCount },
        silenceOutput ops output input frameCount e.outputChannelCount) := by
  simp [process, hs, hl]

/-- The null dereference at line 455. -/
theorem process_null {α G : Type} (ops : SampleOps α) (gops : GraphOps α G) (e : Engine G)
    (output : Option (Buffer α)) (input : Buffer α) (frameCount : Nat)
    (hs : ¬ (inputSilent ops input frameCount e.realChannelCount = true ∧
      e.lastInputWasSilent = true))
    (hcur : e.currentConfig = none) :
    process ops gops e output input frameCount = none := by
  have hs2 : (inputSilent ops input frameCount e.realChannelCount &&
      e.lastInputWasSilent) = false := by
    simpa using hs
  simp [process, hs2, hcur]

/-- The passthrough shortcut (lines 455-465). -/
theorem process_copy {α G : Type} (ops : SampleOps α) (gops : GraphOps α G) (e : Engine G)
    (output : Option (Buffer α)) (input : Buffer α) (frameCount current : Nat)
    (hs : ¬ (inputSilent ops input frameCount e.realChannelCount = true ∧
      e.lastInputWasSilent = true))
    (hcur : e.currentConfig = some current)
    (hempty : gops.isEmpty (e.heap current) = true) (hnext : e.nextConfig = none)
    (hcount : e.realChannelCount = e.outputChannelCount) :
    process ops gops e output input frameCount =
      some ({ e with
          lastInputSize := frameCount
          lastInputWasSilent := inputSilent ops input frameCount e.realChannelCount },
        copyOutput output input frameCount e.outputChannelCount) := by
  have hs2 : (inputSilent ops input frameCount e.realChannelCount &&
      e.lastInputWasSilent) = false := by
    simpa using hs
  simp only [process, hs2]
  simp [hcur, hempty, hnext, hcount]

/-- The path that runs the configurations (lines 467-497). -/
theorem process_run {α G : Type} (ops : SampleOps α) (gops : GraphOps α G) (e : Engine G)
    (output : Option (Buffer α)) (input : Buffer α) (frameCount current : Nat)
    (hs : ¬ (inputSilent ops input frameCount e.realChannelCount = true ∧
      e.lastInputWasSilent = true))
    (hcur : e.currentConfig = some current)
    (hrun : ¬ (gops.isEmpty (e.heap current) = true ∧ e.nextConfig = none ∧
      e.realChannelCount = e.outputChannelCount)) :
    process ops gops e output input frameCount =
      some (runGraphs ops gops
        { e with
          lastInputSize := frameCount
          lastInputWasSilent := inputSilent ops input frameCount e.realChannelCount }
        current output input frameCount) := by
  have hs2 : (inputSilent ops input frameCount e.realChannelCount &&
      e.lastInputWasSilent) = false := by
    simpa using hs
  have hrun2 : (gops.isEmpty (e.heap current) && e.nextConfig.isNone &&
      decide (e.realChannelCount = e.outputChannelCount)) = false := by
    by_contra hne
    simp only [Bool.not_eq_false, Bool.and_eq_true, decide_eq_true_eq,
      Option.isNone_iff_eq_none] at hne
    exact hrun ⟨hne.1.1, hne.1.2, hne.2⟩
  simp [process, hs2, hcur, hrun2]

/-- The loop of lines 475-485 in closed form: frame `f` is mixed with the counter value reached
after `f` increments, and the counter ends after `frameCount` increments. -/
theorem mixFrames_range {α : Type} (ops : SampleOps α) (transitionLength outputChannelCount : Nat)
    (nextSamples currentSamples : Lanes α) (counter frameCount : Nat) :
    mixFrames ops transitionLength outputChannelCount nextSamples (List.range frameCount)
        (currentSamples, counter) =
      (fun c f =>
        if f < frameCount ∧ c < outputChannelCount then
          ops.mix (counterAfter counter f) transitionLength
            (currentSamples c f) (nextSamples c f)
        else currentSamples c f,
       counterAfter counter frameCount) := by
  unfold counterAfter
  induction frameCount with
  | zero => simp [mixFrames]
  | succ n ih =>
    unfold mixFrames at ih ⊢
    rw [List.range_succ, List.foldl_append, ih]
    simp only [List.foldl_cons, List.foldl_nil]
    refine Prod.ext ?_ ?_
    · funext c f
      by_cases hfn : f = n
      · subst hfn
        by_cases hc : c < outputChannelCount
        · by_cases h0 : f = 0 <;> simp [hc, h0]
        · simp [hc]
      · by_cases hlt : f < n
        · have : f < n + 1 := by omega
          simp [hfn, hlt, this]
        · have : ¬ f < n + 1 := by omega
          simp [hfn, hlt, this]
    · by_cases h0 : n = 0
      · subst h0; simp
      · simp only [h0, if_false, Nat.succ_ne_zero, Nat.add_mod_mod]
        simp [Nat.add_assoc]

theorem promote_cases {G : Type} (e : Engine G) :
    (∃ next, e.nextConfig = some next ∧ e.transitionLength ≤ e.transitionCounter ∧
      promote e =
        { e with
          previousConfig := e.currentConfig
          currentConfig := some next
          nextConfig := none
          transitionCounter := 0
          loadSemaphore := releaseSemaphore e.loadSemaphore }) ∨
    ((e.nextConfig = none ∨ e.transitionCounter < e.transitionLength) ∧ promote e = e) := by
  unfold promote
  cases hn : e.nextConfig with
  | none => right; simp
  | some next =>
    by_cases hge : e.transitionLength ≤ e.transitionCounter
    · left
      exact ⟨next, rfl, hge, by simp [hge]⟩
    · right
      exact ⟨Or.inr (by omega), by simp [hge]⟩

/-- The engine handed to the promotion step by `runGraphs`: only `heap` and
`transitionCounter` differ from the engine before, and the counter is `counterAtEnd`. -/
theorem runGraphs_eq {α G : Type} (ops : SampleOps α) (gops : GraphOps α G) (e : Engine G)
    (current : Nat) (output : Option (Buffer α)) (input : Buffer α) (frameCount : Nat) :
    ∃ heap, (runGraphs ops gops e current output input frameCount).1 =
      promote { e with heap := heap, transitionCounter := counterAtEnd e frameCount } := by
  unfold runGraphs counterAtEnd
  cases hn : e.nextConfig with
  | none => exact ⟨_, rfl⟩
  | some next =>
    simp only [mixFrames_range]
    exact ⟨_, rfl⟩

theorem promote_frame {G : Type} (e : Engine G) :
    (promote e).realChannelCount = e.realChannelCount ∧
      (promote e).outputChannelCount = e.outputChannelCount ∧
      (promote e).lastInputWasSilent = e.lastInputWasSilent ∧
      (promote e).transitionLength = e.transitionLength ∧
      (promote e).sampleRate = e.sampleRate ∧
      (promote e).heap = e.heap := by
  unfold promote
  split <;> simp

/-- Every returning callback either leaves before the configurations are run, changing only
`lastInputSize` and `lastInputWasSilent`, or runs them and ends with the promotion step. -/
theorem process_cases {α G : Type} (ops : SampleOps α) (gops : GraphOps α G) (e : Engine G)
    (output : Option (Buffer α)) (input : Buffer α) (frameCount : Nat)
    (r : Engine G × Buffer α)
    (hr : process ops gops e output input frameCount = some r) :
    (skipsGraphs ops gops e input frameCount = true ∧
      r.1 = { e with
        lastInputSize := frameCount
        lastInputWasSilent := inputSilent ops input frameCount e.realChannelCount }) ∨
    (skipsGraphs ops gops e input frameCount = false ∧
      ∃ heap, r.1 = promote { e with
        lastInputSize := frameCount
        lastInputWasSilent := inputSilent ops input frameCount e.realChannelCount
        heap := heap
        transitionCounter := counterAtEnd e frameCount }) := by
  by_cases hs : inputSilent ops input frameCount e.realChannelCount = true ∧
      e.lastInputWasSilent = true
  · left
    rw [process_silent ops gops e output input frameCount hs.1 hs.2] at hr
    cases hr
    refine ⟨by simp [skipsGraphs, hs.1, hs.2], ?_⟩
    simp [hs.1, ← hs.2]
  · have hs2 : (inputSilent ops input frameCount e.realChannelCount &&
        e.lastInputWasSilent) = false := by
      simpa using hs
    obtain hcur | ⟨current, hcur⟩ : e.currentConfig = none ∨ ∃ c, e.currentConfig = some c := by
      cases e.currentConfig <;> simp
    · rw [process_null ops gops e output input frameCount hs hcur] at hr
      cases hr
    · by_cases hrun : gops.isEmpty (e.heap current) = true ∧ e.nextConfig = none ∧
          e.realChannelCount = e.outputChannelCount
      · left
        rw [process_copy ops gops e output input frameCount current hs hcur hrun.1 hrun.2.1
          hrun.2.2] at hr
        cases hr
        exact ⟨by simp [skipsGraphs, hs2, hcur, hrun.1, hrun.2.1, hrun.2.2], rfl⟩
      · right
        rw [process_run ops gops e output input frameCount current hs hcur hrun] at hr
        cases hr
        have hsk : skipsGraphs ops gops e input frameCount = false := by
          simp only [skipsGraphs, hs2, hcur, Bool.false_or]
          by_contra hne
          simp only [Bool.not_eq_false, Bool.and_eq_true, decide_eq_true_eq,
            Option.isNone_iff_eq_none] at hne
          exact hrun ⟨hne.1.1, hne.1.2, hne.2⟩
        obtain ⟨heap, hheap⟩ := runGraphs_eq ops gops
          { e with
            lastInputSize := frameCount
            lastInputWasSilent := inputSilent ops input frameCount e.realChannelCount }
          current output input frameCount
        exact ⟨hsk, heap, hheap⟩

/-- What a returning callback leaves in `lastInputWasSilent` and in the channel counts. -/
theorem process_frame {α G : Type} (ops : SampleOps α) (gops : GraphOps α G) (e : Engine G)
    (output : Option (Buffer α)) (input : Buffer α) (frameCount : Nat)
    (r : Engine G × Buffer α)
    (hr : process ops gops e output input frameCount = some r) :
    r.1.lastInputWasSilent = inputSilent ops input frameCount e.realChannelCount ∧
      r.1.realChannelCount = e.realChannelCount ∧
      r.1.outputChannelCount = e.outputChannelCount ∧
      r.1.transitionLength = e.transitionLength ∧
      r.1.sampleRate = e.sampleRate := by
  rcases process_cases ops gops e output input frameCount r hr with ⟨-, h⟩ | ⟨-, heap, h⟩
  · rw [h]; simp
  · rw [h]
    obtain ⟨h1, h2, h3, h4, h5, -⟩ := promote_frame
      { e with
        lastInputSize := frameCount
        lastInputWasSilent := inputSilent ops input frameCount e.realChannelCount
        heap := heap
        transitionCounter := counterAtEnd e frameCount }
    exact ⟨h3, h1, h2, h4, h5⟩

/-! ### Passthrough and silence -/

/-- C5 fails as stated: a mono engine with an empty current configuration, nothing pending
and equal channel counts receives the one-sample input `-0.0f` on two consecutive callbacks,
with an output buffer distinct from the input buffer. The first callback copies the sample;
the second takes the silence shortcut and writes `0x00000000` where the input holds
`0x80000000`. -/
theorem passthrough_negative_zero :
    monoEngine.currentConfig = some 0 ∧ idleGraphOps.isEmpty (monoEngine.heap 0) = true ∧
    monoEngine.nextConfig = none ∧
    monoEngine.realChannelCount = monoEngine.outputChannelCount ∧
    (process (f32Ops keepCurrent) idleGraphOps monoEngine (some staleOutput)
        negativeZeros 1).map (fun r => (r.1.currentConfig, r.1.nextConfig, r.2 0)) =
      some (some 0, none, 0x80000000) ∧
    ((process (f32Ops keepCurrent) idleGraphOps monoEngine (some staleOutput)
        negativeZeros 1).bind
      (fun r => process (f32Ops keepCurrent) idleGraphOps r.1 (some staleOutput)
        negativeZeros 1)).map (fun r => r.2 0) = some 0x00000000 ∧
    negativeZeros 0 = 0x80000000 := by
  decide

/-- C5, amended: with an empty current configuration, nothing pending, equal channel counts
and `frameCount * outputChannelCount` within `unsigned` range, `process` returns and, over
all `frameCount * outputChannelCount` samples, the output buffer is identical to the input
buffer, except on a callback with silent input that follows a silent callback and has an
output buffer distinct from the input buffer: there every output sample is the all-zero bit
pattern and the input sample at that position compares equal to zero. -/
theorem process_passthrough {α G : Type} (ops : SampleOps α) (gops : GraphOps α G)
    (e : Engine G) (output : Option (Buffer α)) (input : Buffer α) (frameCount current : Nat)
    (hcur : e.currentConfig = some current)
    (hempty : gops.isEmpty (e.heap current) = true) (hnext : e.nextConfig = none)
    (hcount : e.realChannelCount = e.outputChannelCount)
    (hsize : frameCount * e.outputChannelCount < 2 ^ 32) :
    ∃ r, process ops gops e output input frameCount = some r ∧
      ∀ i, i < frameCount * e.outputChannelCount →
        (¬ (inputSilent ops input frameCount e.realChannelCount = true ∧
            e.lastInputWasSilent = true ∧ output.isSome = true) → r.2 i = input i) ∧
        (inputSilent ops input frameCount e.realChannelCount = true ∧
            e.lastInputWasSilent = true ∧ output.isSome = true →
          r.2 i = ops.zero ∧ ops.isZero (input i) = true) := by
  by_cases hs : inputSilent ops input frameCount e.realChannelCount = true ∧
      e.lastInputWasSilent = true
  · refine ⟨_, process_silent ops gops e output input frameCount hs.1 hs.2, ?_⟩
    intro i hi
    have hi2 : i < frameCount * e.outputChannelCount % 2 ^ 32 := by
      rwa [Nat.mod_eq_of_lt hsize]
    cases output with
    | none => simp [silenceOutput]
    | some out =>
      refine ⟨fun h => absurd ⟨hs.1, hs.2, rfl⟩ h, fun _ => ⟨?_, ?_⟩⟩
      · simp only [silenceOutput]
        rw [if_pos hi2]
      exact inputSilent_zero ops input frameCount e.realChannelCount hs.1
        (by rw [hcount]; exact hsize) i (by rw [hcount]; exact hi)
  · refine ⟨_, process_copy ops gops e output input frameCount current hs hcur hempty hnext
      hcount, ?_⟩
    intro i hi
    have hi2 : i < e.outputChannelCount * frameCount % 2 ^ 32 := by
      rw [Nat.mul_comm, Nat.mod_eq_of_lt hsize]
      exact hi
    refine ⟨fun _ => ?_, fun h => absurd ⟨h.1, h.2.1⟩ hs⟩
    cases output with
    | none => simp [copyOutput]
    | some out =>
      simp only [copyOutput]
      rw [if_pos hi2]

theorem process_passthrough_witness :
    monoEngine.currentConfig = some 0 ∧ idleGraphOps.isEmpty (monoEngine.heap 0) = true ∧
    monoEngine.nextConfig = none ∧
    monoEngine.realChannelCount = monoEngine.outputChannelCount ∧
    1 * monoEngine.outputChannelCount < 2 ^ 32 ∧
    ∃ r, process (f32Ops keepCurrent) idleGraphOps monoEngine (some staleOutput)
        negativeZeros 1 = some r ∧
      ∀ i, i < 1 * monoEngine.outputChannelCount →
        (¬ (inputSilent (f32Ops keepCurrent) negativeZeros 1 monoEngine.realChannelCount = true ∧
            monoEngine.lastInputWasSilent = true ∧ (some staleOutput).isSome = true) →
          r.2 i = negativeZeros i) ∧
        (inputSilent (f32Ops keepCurrent) negativeZeros 1 monoEngine.realChannelCount = true ∧
            monoEngine.lastInputWasSilent = true ∧ (some staleOutput).isSome = true →
          r.2 i = (f32Ops keepCurrent).zero ∧
            (f32Ops keepCurrent).isZero (negativeZeros i) = true) :=
  ⟨rfl, rfl, rfl, rfl, by decide,
    process_passthrough (f32Ops keepCurrent) idleGraphOps monoEngine (some staleOutput)
      negativeZeros 1 0 rfl rfl rfl rfl (by decide)⟩

/-- C6 fails as stated: an engine with one real input channel and two output channels is
called twice with the input buffer also passed as output buffer; the one input sample of
each callback is `0.0f`, the second sample of the shared buffer is `1.0f`. The second
callback takes the silence shortcut, which leaves a shared buffer untouched, so output
sample 1 is `1.0f`. -/
theorem silence_aliased_not_zeroed :
    (∀ i, i < 1 * upmixEngine.realChannelCount →
      (f32Ops keepCurrent).isZero (zeroThenOnes i) = true) ∧
    1 < 1 * upmixEngine.outputChannelCount ∧
    ((process (f32Ops keepCurrent) idleGraphOps upmixEngine none zeroThenOnes 1).bind
      (fun r => process (f32Ops keepCurrent) idleGraphOps r.1 none zeroThenOnes 1)).map
        (fun r => r.2 1) = some 0x3F800000 ∧
    (f32Ops keepCurrent).isZero 0x3F800000 = false := by
  decide

/-- C6, amended: if two consecutive callbacks both receive an input whose
`frameCount * realChannelCount` samples all compare equal to zero, and on the second
`frameCount * outputChannelCount` is within `unsigned` range, then the second callback
returns without running a configuration (its result is the same whatever the configurations
do, and the heap of configurations is unchanged), leaves `currentConfig`, `nextConfig`,
`previousConfig`, `transitionCounter` and the semaphore unchanged, and, when the output buffer
is distinct from the input buffer, sets every one of the `frameCount * outputChannelCount`
output samples to zero; a buffer shared between input and output is left as it is. -/
theorem process_silence_twice {α G : Type} (ops : SampleOps α) (gops : GraphOps α G)
    (e : Engine G) (output1 output2 : Option (Buffer α)) (input1 input2 : Buffer α)
    (frameCount1 frameCount2 : Nat) (r1 : Engine G × Buffer α)
    (h1 : process ops gops e output1 input1 frameCount1 = some r1)
    (hz1 : ∀ i, i < frameCount1 * e.realChannelCount → ops.isZero (input1 i) = true)
    (hz2 : ∀ i, i < frameCount2 * e.realChannelCount → ops.isZero (input2 i) = true)
    (hsize : frameCount2 * e.outputChannelCount < 2 ^ 32) :
    ∃ r2, process ops gops r1.1 output2 input2 frameCount2 = some r2 ∧
      (∀ gops2 : GraphOps α G, process ops gops2 r1.1 output2 input2 frameCount2 = some r2) ∧
      r2.1.heap = r1.1.heap ∧
      r2.1.currentConfig = r1.1.currentConfig ∧ r2.1.nextConfig = r1.1.nextConfig ∧
      r2.1.previousConfig = r1.1.previousConfig ∧
      r2.1.transitionCounter = r1.1.transitionCounter ∧
      r2.1.loadSemaphore = r1.1.loadSemaphore ∧
      (∀ out, output2 = some out → ∀ i, i < frameCount2 * e.outputChannelCount →
        r2.2 i = ops.zero) ∧
      (output2 = none → r2.2 = input2) := by
  obtain ⟨hlast, hreal, hout, -, -⟩ := process_frame ops gops e output1 input1 frameCount1 r1 h1
  have hs1 := inputSilent_of_zero ops input1 frameCount1 e.realChannelCount hz1
  have hs2 : inputSilent ops input2 frameCount2 r1.1.realChannelCount = true := by
    rw [hreal]
    exact inputSilent_of_zero ops input2 frameCount2 e.realChannelCount hz2
  have hl : r1.1.lastInputWasSilent = true := by rw [hlast, hs1]
  refine ⟨_, process_silent ops gops r1.1 output2 input2 frameCount2 hs2 hl,
    fun gops2 => process_silent ops gops2 r1.1 output2 input2 frameCount2 hs2 hl,
    rfl, rfl, rfl, rfl, rfl, rfl, ?_, ?_⟩
  · intro out hout2 i hi
    subst hout2
    have hi2 : i < frameCount2 * r1.1.outputChannelCount % 2 ^ 32 := by
      rw [hout, Nat.mod_eq_of_lt hsize]
      exact hi
    simp only [silenceOutput]
    rw [if_pos hi2]
  · intro hnone
    subst hnone
    rfl

theorem process_silence_twice_witness :
    process (f32Ops keepCurrent) idleGraphOps monoEngine (some staleOutput) negativeZeros 1 =
      some ({ monoEngine with lastInputSize := 1, lastInputWasSilent := true },
        copyOutput (some staleOutput) negativeZeros 1 1) ∧
    (∀ i, i < 1 * monoEngine.realChannelCount →
      (f32Ops keepCurrent).isZero (negativeZeros i) = true) ∧
    (∀ i, i < 2 * monoEngine.realChannelCount → (f32Ops keepCurrent).isZero (zeros i) = true) ∧
    2 * monoEngine.outputChannelCount < 2 ^ 32 ∧
    ∃ r2, process (f32Ops keepCurrent) idleGraphOps
        { monoEngine with lastInputSize := 1, lastInputWasSilent := true }
        (some staleOutput) zeros 2 = some r2 ∧
      (∀ gops2 : GraphOps Nat Unit, process (f32Ops keepCurrent) gops2
        { monoEngine with lastInputSize := 1, lastInputWasSilent := true }
        (some staleOutput) zeros 2 = some r2) ∧
      r2.1.heap = monoEngine.heap ∧
      r2.1.currentConfig = monoEngine.currentConfig ∧
      r2.1.nextConfig = monoEngine.nextConfig ∧
      r2.1.previousConfig = monoEngine.previousConfig ∧
      r2.1.transitionCounter = monoEngine.transitionCounter ∧
      r2.1.loadSemaphore = monoEngine.loadSemaphore ∧
      (∀ out, some staleOutput = some out → ∀ i, i < 2 * monoEngine.outputChannelCount →
        r2.2 i = (f32Ops keepCurrent).zero) ∧
      ((some staleOutput : Option (Buffer Nat)) = none → r2.2 = zeros) :=
  ⟨rfl, by decide, by decide, by decide,
    process_silence_twice (f32Ops keepCurrent) idleGraphOps monoEngine (some staleOutput)
      (some staleOutput) negativeZeros zeros 1 2
      ({ monoEngine with lastInputSize := 1, lastInputWasSilent := true },
        copyOutput (some staleOutput) negativeZeros 1 1)
      rfl (by decide) (by decide) (by decide)⟩

/-! ### The crossfade -/

theorem crossfadeFactor_eq (transitionCounter transitionLength : Nat) :
    crossfadeFactor transitionCounter transitionLength =
      if transitionCounter ≥ transitionLength then 1
      else 0.5 * (1 - Real.cos (Real.pi * transitionCounter / transitionLength)) := by
  unfold crossfadeFactor
  simp only [mul_comm Real.pi]

theorem crossfadeFactor_bounds (transitionCounter transitionLength : Nat) :
    0 ≤ crossfadeFactor transitionCounter transitionLength ∧
      crossfadeFactor transitionCounter transitionLength ≤ 1 := by
  unfold crossfadeFactor
  have h1 := Real.cos_le_one (transitionCounter * Real.pi / transitionLength)
  have h2 := Real.neg_one_le_cos (transitionCounter * Real.pi / transitionLength)
  simp only []
  split
  · exact ⟨zero_le_one, le_refl 1⟩
  · constructor <;> linarith

/-- The sample that `write` puts at the position of frame `f` and channel `c`. -/
theorem write_sample {α : Type} (lanes : Lanes α) (output : Buffer α)
    (frameCount outputChannelCount f c : Nat) (hf : f < frameCount)
    (hc : c < outputChannelCount) :
    write lanes output frameCount outputChannelCount (f * outputChannelCount + c) =
      lanes c f := by
  have hlt : f * outputChannelCount + c < frameCount * outputChannelCount := by
    calc f * outputChannelCount + c < f * outputChannelCount + outputChannelCount := by omega
      _ = (f + 1) * outputChannelCount := by ring
      _ ≤ frameCount * outputChannelCount := Nat.mul_le_mul_right _ hf
  have hmod : (f * outputChannelCount + c) % outputChannelCount = c := by
    rw [Nat.mul_comm, Nat.mul_add_mod, Nat.mod_eq_of_lt hc]
  have hdiv : (f * outputChannelCount + c) / outputChannelCount = f := by
    rw [Nat.mul_comm, Nat.mul_add_div (by omega), Nat.div_eq_of_lt hc, Nat.add_zero]
  simp only [write, hlt, if_true, hmod, hdiv]

theorem convex_mix_bound (a b w : ℝ) (h0 : 0 ≤ w) (h1 : w ≤ 1) :
    |a * (1 - w) + b * w| ≤ max |a| |b| := by
  have h3 : 0 ≤ 1 - w := by linarith
  have ha := le_max_left |a| |b|
  have hb := le_max_right |a| |b|
  calc |a * (1 - w) + b * w| ≤ |a * (1 - w)| + |b * w| := abs_add _ _
    _ = |a| * (1 - w) + |b| * w := by rw [abs_mul, abs_mul, abs_of_nonneg h3, abs_of_nonneg h0]
    _ ≤ max |a| |b| * (1 - w) + max |a| |b| * w := by
        nlinarith [mul_le_mul_of_nonneg_right ha h3, mul_le_mul_of_nonneg_right hb h0]
    _ = max |a| |b| := by ring

/-- The crossfade loop over real samples: for every frame `f` below `frameCount` and output
channel `c`, with `k` the value of `transitionCounter` at that frame, the mixed sample is `(1 - w) * current + w * next` where `w = 0.5 * (1 - cos (π * k / transitionLength))`,
replaced by `1` once `k ≥ transitionLength`; `0 ≤ w ≤ 1`, the magnitude of the mixed sample is
at most the larger magnitude of the two samples, and the mixed sample is the sample of the
next configuration once `k ≥ transitionLength`. -/
theorem mixFrames_crossfade (transitionLength outputChannelCount : Nat)
    (nextSamples currentSamples : Lanes ℝ) (transitionCounter frameCount f c : Nat)
    (hf : f < frameCount) (hc : c < outputChannelCount) :
    ∃ (k : Nat) (w mixed : ℝ),
      k = (if f = 0 then transitionCounter else (transitionCounter + f) % 2 ^ 32) ∧
      mixed = (mixFrames realOps transitionLength outputChannelCount nextSamples
        (List.range frameCount) (currentSamples, transitionCounter)).1 c f ∧
      w = (if k ≥ transitionLength then 1
        else 0.5 * (1 - Real.cos (Real.pi * k / transitionLength))) ∧
      mixed = (1 - w) * currentSamples c f + w * nextSamples c f ∧
      0 ≤ w ∧ w ≤ 1 ∧
      |mixed| ≤ max |currentSamples c f| |nextSamples c f| ∧
      (k ≥ transitionLength → mixed = nextSamples c f) := by
  have hb := crossfadeFactor_bounds (counterAfter transitionCounter f) transitionLength
  have hm : (mixFrames realOps transitionLength outputChannelCount nextSamples
      (List.range frameCount) (currentSamples, transitionCounter)).1 c f =
      mixSample (counterAfter transitionCounter f) transitionLength (currentSamples c f)
        (nextSamples c f) := by
    rw [mixFrames_range]
    simp [hf, hc, realOps]
  refine ⟨counterAfter transitionCounter f,
    crossfadeFactor (counterAfter transitionCounter f) transitionLength,
    mixSample (counterAfter transitionCounter f) transitionLength (currentSamples c f)
      (nextSamples c f), rfl, hm.symm, crossfadeFactor_eq _ _, ?_, hb.1, hb.2, ?_, ?_⟩
  · unfold mixSample; ring
  · exact convex_mix_bound _ _ _ hb.1 hb.2
  · intro hk
    have hw : crossfadeFactor (counterAfter transitionCounter f) transitionLength = 1 := by
      rw [crossfadeFactor_eq, if_pos hk]
    unfold mixSample
    rw [hw]
    ring

/-- C7: a callback with a next configuration pending and a non-null current one, that does
not end in the silence shortcut, returns; for every frame `f` below `frameCount` and output
channel `c` the output sample at the position of frame `f` and channel `c` is the mixed
sample `(1 - w) * currentOut c f + w * nextOut c f`, where `currentOut` and `nextOut` are the
output samples of the current and the next configuration after their `process` calls, `k` is
the value of `transitionCounter` at frame `f` and
`w = 0.5 * (1 - cos (π * k / transitionLength))`, replaced by `1` once
`k ≥ transitionLength`; `0 ≤ w ≤ 1`, the magnitude of the mixed sample is at most the larger
magnitude of the two samples, and the mixed sample is the sample of the next configuration
once `k ≥ transitionLength`. -/
theorem crossfade_bounded {G : Type} (gops : GraphOps ℝ G) (e : Engine G) (current next : Nat)
    (output : Option (Buffer ℝ)) (input : Buffer ℝ) (frameCount f c : Nat)
    (hcur : e.currentConfig = some current) (hnext : e.nextConfig = some next)
    (hrun : (inputSilent realOps input frameCount e.realChannelCount &&
      e.lastInputWasSilent) = false)
    (hf : f < frameCount) (hc : c < e.outputChannelCount) :
    ∃ (r : Engine G × Buffer ℝ) (heap1 heap2 : Nat → G) (currentOut nextOut : Lanes ℝ)
        (k : Nat) (w mixed : ℝ),
      process realOps gops e output input frameCount = some r ∧
      heap1 = Function.update e.heap current (gops.process (e.heap current) input frameCount) ∧
      heap2 = Function.update heap1 next (gops.process (heap1 next) input frameCount) ∧
      currentOut = gops.getOutputSamples (heap2 current) ∧
      nextOut = gops.getOutputSamples (heap2 next) ∧
      k = (if f = 0 then e.transitionCounter else (e.transitionCounter + f) % 2 ^ 32) ∧
      w = (if k ≥ e.transitionLength then 1
        else 0.5 * (1 - Real.cos (Real.pi * k / e.transitionLength))) ∧
      mixed = r.2 (f * e.outputChannelCount + c) ∧
      mixed = (1 - w) * currentOut c f + w * nextOut c f ∧
      0 ≤ w ∧ w ≤ 1 ∧
      |mixed| ≤ max |currentOut c f| |nextOut c f| ∧
      (k ≥ e.transitionLength → mixed = nextOut c f) := by
  have hs : ¬ (inputSilent realOps input frameCount e.realChannelCount = true ∧
      e.lastInputWasSilent = true) := by
    intro h
    rw [h.1, h.2] at hrun
    cases hrun
  have hgo : ¬ (gops.isEmpty (e.heap current) = true ∧ e.nextConfig = none ∧
      e.realChannelCount = e.outputChannelCount) := by
    intro h
    rw [hnext] at h
    cases h.2.1
  obtain ⟨k, w, mixed, hk, hmixed, hw, hform, hw0, hw1, habs, hend⟩ :=
    mixFrames_crossfade e.transitionLength e.outputChannelCount
      (gops.getOutputSamples
        (Function.update
          (Function.update e.heap current (gops.process (e.heap current) input frameCount))
          next
          (gops.process
            (Function.update e.heap current (gops.process (e.heap current) input frameCount)
              next) input frameCount) next))
      (gops.getOutputSamples
        (Function.update
          (Function.update e.heap current (gops.process (e.heap current) input frameCount))
          next
          (gops.process
            (Function.update e.heap current (gops.process (e.heap current) input frameCount)
              next) input frameCount) current))
      e.transitionCounter frameCount f c hf hc
  refine ⟨_, _, _, _, _, k, w, mixed,
    process_run realOps gops e output input frameCount current hs hcur hgo, rfl, rfl, rfl, rfl,
    hk, hw, ?_, hform, hw0, hw1, habs, hend⟩
  rw [hmixed]
  unfold runGraphs
  simp only [hnext]
  exact (write_sample _ _ _ _ f c hf hc).symm

theorem crossfade_bounded_witness :
    fadingDcEngine.currentConfig = some 0 ∧ fadingDcEngine.nextConfig = some 1 ∧
    (inputSilent realOps dcInput 2 fadingDcEngine.realChannelCount &&
      fadingDcEngine.lastInputWasSilent) = false ∧
    1 < 2 ∧ 1 < fadingDcEngine.outputChannelCount ∧
    ∃ (r : Engine ℝ × Buffer ℝ) (heap1 heap2 : Nat → ℝ) (currentOut nextOut : Lanes ℝ)
        (k : Nat) (w mixed : ℝ),
      process realOps constGraphOps fadingDcEngine none dcInput 2 = some r ∧
      heap1 = Function.update fadingDcEngine.heap 0
        (constGraphOps.process (fadingDcEngine.heap 0) dcInput 2) ∧
      heap2 = Function.update heap1 1 (constGraphOps.process (heap1 1) dcInput 2) ∧
      currentOut = constGraphOps.getOutputSamples (heap2 0) ∧
      nextOut = constGraphOps.getOutputSamples (heap2 1) ∧
      k = (if 1 = 0 then fadingDcEngine.transitionCounter
        else (fadingDcEngine.transitionCounter + 1) % 2 ^ 32) ∧
      w = (if k ≥ fadingDcEngine.transitionLength then 1
        else 0.5 * (1 - Real.cos (Real.pi * k / fadingDcEngine.transitionLength))) ∧
      mixed = r.2 (1 * fadingDcEngine.outputChannelCount + 1) ∧
      mixed = (1 - w) * currentOut 1 1 + w * nextOut 1 1 ∧
      0 ≤ w ∧ w ≤ 1 ∧
      |mixed| ≤ max |currentOut 1 1| |nextOut 1 1| ∧
      (k ≥ fadingDcEngine.transitionLength → mixed = nextOut 1 1) :=
  ⟨rfl, rfl, Bool.and_false _, by decide, by decide,
    crossfade_bounded constGraphOps fadingDcEngine 0 1 none dcInput 2 1 1 rfl rfl
      (Bool.and_false _) (by decide) (by decide)⟩

/-! ### Promotion of the pending configuration -/

/-- C8: for every returning callback, with `counterAtEnd` the value of `transitionCounter`
after the crossfade loop: if the callback ran the configurations, `nextConfig` is non-null
and the counter has reached `transitionLength`, then `previousConfig` becomes the old
`currentConfig`, `currentConfig` the old `nextConfig`, `nextConfig` null, `transitionCounter`
zero, and `ReleaseSemaphore` is applied once (taking a count of 0 to 1); in every other case
`currentConfig`, `nextConfig`, `previousConfig` and the semaphore are unchanged. Either way
`currentConfig` afterwards is the old `currentConfig` or the old `nextConfig`. -/
theorem process_promotion {α G : Type} (ops : SampleOps α) (gops : GraphOps α G) (e : Engine G)
    (output : Option (Buffer α)) (input : Buffer α) (frameCount : Nat)
    (r : Engine G × Buffer α)
    (hr : process ops gops e output input frameCount = some r) :
    (skipsGraphs ops gops e input frameCount = false ∧ e.nextConfig ≠ none ∧
        e.transitionLength ≤ counterAtEnd e frameCount →
      r.1.previousConfig = e.currentConfig ∧ r.1.currentConfig = e.nextConfig ∧
      r.1.nextConfig = none ∧ r.1.transitionCounter = 0 ∧
      r.1.loadSemaphore = releaseSemaphore e.loadSemaphore ∧
      (e.loadSemaphore = 0 → r.1.loadSemaphore = 1)) ∧
    (¬ (skipsGraphs ops gops e input frameCount = false ∧ e.nextConfig ≠ none ∧
        e.transitionLength ≤ counterAtEnd e frameCount) →
      r.1.currentConfig = e.currentConfig ∧ r.1.nextConfig = e.nextConfig ∧
      r.1.previousConfig = e.previousConfig ∧ r.1.loadSemaphore = e.loadSemaphore) ∧
    (r.1.currentConfig = e.currentConfig ∨ r.1.currentConfig = e.nextConfig) := by
  rcases process_cases ops gops e output input frameCount r hr with ⟨hsk, h⟩ | ⟨hsk, heap, h⟩
  · refine ⟨fun hp => ?_, fun _ => ?_, ?_⟩
    · rw [hsk] at hp
      exact absurd hp.1 (by simp)
    · rw [h]; simp
    · rw [h]; simp
  · rcases promote_cases
      { e with
        lastInputSize := frameCount
        lastInputWasSilent := inputSilent ops input frameCount e.realChannelCount
        heap := heap
        transitionCounter := counterAtEnd e frameCount } with ⟨next, hn, hge, hp⟩ | ⟨hno, hp⟩
    · rw [hp] at h
      simp only [] at hn hge
      refine ⟨fun _ => ?_, fun hneg => ?_, ?_⟩
      · rw [h]
        refine ⟨rfl, hn.symm, rfl, rfl, rfl, ?_⟩
        intro h0
        simp [releaseSemaphore, h0]
      · exact absurd ⟨hsk, by simp [hn], hge⟩ hneg
      · right; rw [h]; exact hn.symm
    · rw [hp] at h
      simp only [] at hno
      refine ⟨fun hpos => ?_, fun _ => ?_, ?_⟩
      · rcases hno with hno | hno
        · exact absurd hno hpos.2.1
        · exact absurd hpos.2.2 (by omega)
      · rw [h]; simp
      · rw [h]; simp

theorem process_promotion_witness :
    ∃ r, process (f32Ops keepCurrent) idleGraphOps fadingEngine (some staleOutput)
        zeroThenOnes 2 = some r ∧
      (skipsGraphs (f32Ops keepCurrent) idleGraphOps fadingEngine zeroThenOnes 2 = false ∧
          fadingEngine.nextConfig ≠ none ∧
          fadingEngine.transitionLength ≤ counterAtEnd fadingEngine 2 →
        r.1.previousConfig = fadingEngine.currentConfig ∧
        r.1.currentConfig = fadingEngine.nextConfig ∧
        r.1.nextConfig = none ∧ r.1.transitionCounter = 0 ∧
        r.1.loadSemaphore = releaseSemaphore fadingEngine.loadSemaphore ∧
        (fadingEngine.loadSemaphore = 0 → r.1.loadSemaphore = 1)) ∧
      (¬ (skipsGraphs (f32Ops keepCurrent) idleGraphOps fadingEngine zeroThenOnes 2 = false ∧
          fadingEngine.nextConfig ≠ none ∧
          fadingEngine.transitionLength ≤ counterAtEnd fadingEngine 2) →
        r.1.currentConfig = fadingEngine.currentConfig ∧
        r.1.nextConfig = fadingEngine.nextConfig ∧
        r.1.previousConfig = fadingEngine.previousConfig ∧
        r.1.loadSemaphore = fadingEngine.loadSemaphore) ∧
      (r.1.currentConfig = fadingEngine.currentConfig ∨
        r.1.currentConfig = fadingEngine.nextConfig) :=
  ⟨_, rfl, process_promotion (f32Ops keepCurrent) idleGraphOps fadingEngine (some staleOutput)
    zeroThenOnes 2 _ rfl⟩

/-- The callback of `process_promotion_witness` promotes: 478 + 2 frames reach the
transition length 480. -/
theorem fadingEngine_promotes :
    (process (f32Ops keepCurrent) idleGraphOps fadingEngine (some staleOutput)
        zeroThenOnes 2).map
      (fun r => (r.1.previousConfig, r.1.currentConfig, r.1.nextConfig, r.1.transitionCounter,
        r.1.loadSemaphore)) = some (some 0, some 1, none, 0, 1) := by
  decide

/-! ### The transition counter and the reload permit -/

/-- The pointer and counter effect of a returning callback. -/
theorem process_pointers {α G : Type} (ops : SampleOps α) (gops : GraphOps α G) (e : Engine G)
    (output : Option (Buffer α)) (input : Buffer α) (frameCount : Nat)
    (r : Engine G × Buffer α)
    (hr : process ops gops e output input frameCount = some r) :
    (r.1.currentConfig = e.currentConfig ∧ r.1.nextConfig = e.nextConfig ∧
      r.1.previousConfig = e.previousConfig ∧ r.1.loadSemaphore = e.loadSemaphore ∧
      (r.1.transitionCounter = e.transitionCounter ∨
        r.1.transitionCounter < e.transitionLength)) ∨
    (∃ next, e.nextConfig = some next ∧ r.1.currentConfig = some next ∧
      r.1.nextConfig = none ∧ r.1.previousConfig = e.currentConfig ∧
      r.1.transitionCounter = 0 ∧ r.1.loadSemaphore = releaseSemaphore e.loadSemaphore) := by
  rcases process_cases ops gops e output input frameCount r hr with ⟨-, h⟩ | ⟨-, heap, h⟩
  · left
    rw [h]
    exact ⟨rfl, rfl, rfl, rfl, Or.inl rfl⟩
  · rcases promote_cases
      { e with
        lastInputSize := frameCount
        lastInputWasSilent := inputSilent ops input frameCount e.realChannelCount
        heap := heap
        transitionCounter := counterAtEnd e frameCount } with ⟨next, hn, -, hp⟩ | ⟨hno, hp⟩
    · right
      rw [hp] at h
      rw [h]
      exact ⟨next, hn, rfl, rfl, rfl, rfl, rfl⟩
    · left
      rw [hp] at h
      rw [h]
      refine ⟨rfl, rfl, rfl, rfl, ?_⟩
      rcases hno with hno | hno
      · left
        simp only [] at hno
        simp [counterAtEnd, hno]
      · right
        exact hno

theorem loadConfig_frame {G : Type} (e : Engine G) (config : Nat) (g : G) :
    (loadConfig e config g).transitionCounter = e.transitionCounter ∧
      (loadConfig e config g).transitionLength = e.transitionLength ∧
      (loadConfig e config g).sampleRate = e.sampleRate ∧
      (loadConfig e config g).loadSemaphore = e.loadSemaphore ∧
      (e.currentConfig = none → (loadConfig e config g).nextConfig = e.nextConfig) ∧
      (e.nextConfig = none →
        (loadConfig e config g).nextConfig = none ∨
          (loadConfig e config g).nextConfig = some config) := by
  unfold loadConfig
  by_cases h : e.currentConfig = none
  · simp only [h, if_true, true_and, implies_true]
    exact fun hn => Or.inl hn
  · simp [h]

/-! ### The `float` quotient of line 148 -/

/-- The conversion to `unsigned` of a value in range is its integer part. -/
theorem truncToUnsigned_spec (q : ℚ) (h0 : 0 ≤ q) (h1 : q < 2 ^ 32) :
    (truncToUnsigned q : ℚ) ≤ q ∧ q < truncToUnsigned q + 1 := by
  have hf0 : 0 ≤ ⌊q⌋ := Int.floor_nonneg.mpr h0
  have hf1 : ⌊q⌋ < 2 ^ 32 := by
    rw [Int.floor_lt]
    exact_mod_cast h1
  have hnat : (⌊q⌋.toNat : ℤ) = ⌊q⌋ := Int.toNat_of_nonneg hf0
  have hlt : ⌊q⌋.toNat < 2 ^ 32 := by omega
  have hval : ((truncToUnsigned q : ℕ) : ℚ) = (⌊q⌋ : ℚ) := by
    unfold truncToUnsigned
    rw [Nat.mod_eq_of_lt hlt]
    exact_mod_cast hnat
  rw [hval]
  exact ⟨Int.floor_le q, Int.lt_floor_add_one q⟩

theorem roundHalfEven_cases (x : ℚ) :
    (roundHalfEven x = ⌊x⌋ ∧ x - ⌊x⌋ ≤ 1 / 2) ∨
      (roundHalfEven x = ⌊x⌋ + 1 ∧ 1 / 2 ≤ x - ⌊x⌋) := by
  unfold roundHalfEven
  split_ifs with h1 h2 h3
  · exact Or.inl ⟨rfl, h1.le⟩
  · exact Or.inr ⟨rfl, h2.le⟩
  · exact Or.inl ⟨rfl, not_lt.mp h2⟩
  · exact Or.inr ⟨rfl, not_lt.mp h1⟩

/-- No integer is nearer to `x` than `roundHalfEven x`. -/
theorem roundHalfEven_nearest (x : ℚ) (n : ℤ) :
    |(roundHalfEven x : ℚ) - x| ≤ |(n : ℚ) - x| := by
  have hlo := Int.floor_le x
  have hhi := Int.lt_floor_add_one x
  have hn : n ≤ ⌊x⌋ ∨ ⌊x⌋ + 1 ≤ n := by omega
  have hn2 : (n : ℚ) ≤ ⌊x⌋ ∨ ((⌊x⌋ : ℚ) + 1 ≤ n) := by
    rcases hn with h | h
    · exact Or.inl (by exact_mod_cast h)
    · exact Or.inr (by exact_mod_cast h)
  rcases roundHalfEven_cases x with ⟨hr, hh⟩ | ⟨hr, hh⟩
  · rw [hr]
    rcases hn2 with h | h
    · rw [abs_le]
      constructor
      · have := neg_abs_le ((n : ℚ) - x); linarith
      · have := neg_abs_le ((n : ℚ) - x); linarith
    · rw [abs_le]
      constructor
      · have := le_abs_self ((n : ℚ) - x); linarith
      · have := le_abs_self ((n : ℚ) - x); linarith
  · rw [hr]
    push_cast
    rcases hn2 with h | h
    · rw [abs_le]
      constructor
      · have := neg_abs_le ((n : ℚ) - x); linarith
      · have := neg_abs_le ((n : ℚ) - x); linarith
    · rw [abs_le]
      constructor
      · have := le_abs_self ((n : ℚ) - x); linarith
      · have := le_abs_self ((n : ℚ) - x); linarith


theorem roundHalfEven_intCast (n : ℤ) : roundHalfEven (n : ℚ) = n := by
  simp [roundHalfEven]

/-- The binade of a positive value. -/
theorem log_binade (x : ℚ) (hx : 0 < x) :
    (2 : ℚ) ^ Int.log 2 x ≤ x ∧ x < (2 : ℚ) ^ (Int.log 2 x + 1) :=
  ⟨Int.zpow_log_le_self (by norm_num) hx, Int.lt_zpow_succ_log_self (by norm_num) x⟩

theorem log_eq_of_binade (x : ℚ) (e : ℤ) (h1 : (2 : ℚ) ^ e ≤ x) (h2 : x < (2 : ℚ) ^ (e + 1)) :
    Int.log 2 x = e := by
  have hx : 0 < x := lt_of_lt_of_le (by positivity) h1
  have ha : e ≤ Int.log 2 x := (Int.zpow_le_iff_le_log (by norm_num) hx).mp h1
  have hb : Int.log 2 x < e + 1 := (Int.lt_zpow_iff_log_lt (by norm_num) hx).mp h2
  omega

theorem roundToFloat_pos (x : ℚ) (hx : 0 < x) :
    roundToFloat x =
      roundHalfEven (x / 2 ^ max (Int.log 2 x - 23) (-149)) *
        2 ^ max (Int.log 2 x - 23) (-149) := by
  unfold roundToFloat
  rw [if_neg hx.ne', abs_of_pos hx]

/-- Rounding a positive value below `2 ^ 127` gives a `float`. -/
theorem roundToFloat_isFloat (x : ℚ) (hx : 0 < x) (hlt : x < 2 ^ 127) :
    IsFloat (roundToFloat x) := by
  obtain ⟨hlo, hhi⟩ := log_binade x hx
  have he : Int.log 2 x < 127 := by
    have h : (2 : ℚ) ^ Int.log 2 x < (2 : ℚ) ^ (127 : ℤ) := lt_of_le_of_lt hlo (by exact_mod_cast hlt)
    exact (zpow_lt_zpow_iff_right₀ (by norm_num)).mp h
  rw [roundToFloat_pos x hx]
  set e := Int.log 2 x with hedef
  set p := max (e - 23) (-149) with hp
  have hu : (0 : ℚ) < 2 ^ p := by positivity
  have hp1 : e - 23 ≤ p := le_max_left _ _
  have hp2 : -149 ≤ p := le_max_right _ _
  have hp3 : p ≤ 103 := by
    rcases max_cases (e - 23) (-149) with ⟨h, _⟩ | ⟨h, _⟩ <;> omega
  have hquot : x / 2 ^ p < 2 ^ 24 := by
    rw [div_lt_iff₀ hu]
    calc x < (2 : ℚ) ^ (e + 1) := hhi
      _ ≤ (2 : ℚ) ^ ((24 : ℤ) + p) := zpow_le_zpow_right₀ (by norm_num) (by omega)
      _ = 2 ^ 24 * 2 ^ p := by rw [zpow_add₀ (by norm_num)]; norm_num
  have hq0 : 0 ≤ x / 2 ^ p := by positivity
  have hf0 : 0 ≤ ⌊x / 2 ^ p⌋ := Int.floor_nonneg.mpr hq0
  have hf1 : ⌊x / 2 ^ p⌋ < 2 ^ 24 := by
    rw [Int.floor_lt]
    exact_mod_cast hquot
  have hm : 0 ≤ roundHalfEven (x / 2 ^ p) ∧ roundHalfEven (x / 2 ^ p) ≤ 2 ^ 24 := by
    rcases roundHalfEven_cases (x / 2 ^ p) with ⟨hr, _⟩ | ⟨hr, _⟩ <;> rw [hr] <;> omega
  by_cases htop : roundHalfEven (x / 2 ^ p) = 2 ^ 24
  · refine ⟨2 ^ 23, p + 1, by norm_num, by omega, by omega, ?_⟩
    rw [htop, zpow_add₀ (by norm_num)]
    push_cast
    ring
  · refine ⟨roundHalfEven (x / 2 ^ p), p, ?_, hp2, by omega, rfl⟩
    rw [abs_of_nonneg hm.1]
    omega


/-- Rounding a positive value gives a nearest `float`. -/
theorem roundToFloat_nearest (x : ℚ) (hx : 0 < x) (y : ℚ) (hy : IsFloat y) :
    |roundToFloat x - x| ≤ |y - x| := by
  obtain ⟨hlo, hhi⟩ := log_binade x hx
  obtain ⟨m, e2, hm, he2, -, rfl⟩ := hy
  rw [roundToFloat_pos x hx]
  set e := Int.log 2 x with hedef
  set p := max (e - 23) (-149) with hp
  have hu : (0 : ℚ) < 2 ^ p := by positivity
  have hscale : ∀ n : ℤ, |(roundHalfEven (x / 2 ^ p) : ℚ) * 2 ^ p - x| ≤
      |(n : ℚ) * 2 ^ p - x| := by
    intro n
    have h := roundHalfEven_nearest (x / 2 ^ p) n
    have e1 : (roundHalfEven (x / 2 ^ p) : ℚ) * 2 ^ p - x =
        ((roundHalfEven (x / 2 ^ p) : ℚ) - x / 2 ^ p) * 2 ^ p := by
      field_simp
    have e2 : (n : ℚ) * 2 ^ p - x = ((n : ℚ) - x / 2 ^ p) * 2 ^ p := by
      field_simp
    rw [e1, e2, abs_mul, abs_mul, abs_of_pos hu]
    exact mul_le_mul_of_nonneg_right h hu.le
  by_cases hcase : p ≤ e2
  · have hmul : (m : ℚ) * 2 ^ e2 = ((m * 2 ^ (e2 - p).toNat : ℤ) : ℚ) * 2 ^ p := by
      have hsplit : e2 = (e2 - p).toNat + p := by omega
      push_cast
      rw [mul_assoc]
      congr 1
      conv_lhs => rw [hsplit]
      rw [zpow_add₀ (by norm_num), zpow_natCast]
    rw [hmul]
    exact hscale _
  · have hpe : p = e - 23 := by
      rcases max_cases (e - 23) (-149) with ⟨h, _⟩ | ⟨h, _⟩ <;> omega
    have hmq : |(m : ℚ)| ≤ 2 ^ 24 := by
      have : |m| ≤ 2 ^ 24 := hm.le
      exact_mod_cast this
    have hsmall : |(m : ℚ) * 2 ^ e2| ≤ 2 ^ e := by
      rw [abs_mul, abs_of_pos (by positivity : (0 : ℚ) < 2 ^ e2)]
      calc |(m : ℚ)| * 2 ^ e2 ≤ 2 ^ 24 * 2 ^ e2 :=
            mul_le_mul_of_nonneg_right hmq (by positivity)
        _ = (2 : ℚ) ^ ((24 : ℤ) + e2) := by rw [zpow_add₀ (by norm_num)]; norm_num
        _ ≤ 2 ^ e := zpow_le_zpow_right₀ (by norm_num) (by omega)
    have hz : ((2 ^ 23 : ℤ) : ℚ) * 2 ^ p = 2 ^ e := by
      have : e = (23 : ℤ) + p := by omega
      rw [this, zpow_add₀ (by norm_num)]
      norm_num
    have h1 := hscale (2 ^ 23)
    rw [hz] at h1
    have h2 : |(2 : ℚ) ^ e - x| = x - 2 ^ e := by
      rw [abs_sub_comm, abs_of_nonneg (by linarith)]
    have h3 : x - 2 ^ e ≤ |(m : ℚ) * 2 ^ e2 - x| := by
      have ha := le_abs_self ((m : ℚ) * 2 ^ e2)
      have hb := neg_abs_le ((m : ℚ) * 2 ^ e2 - x)
      linarith
    linarith


theorem roundToFloat_binade (x : ℚ) (e : ℤ) (h1 : (2 : ℚ) ^ e ≤ x) (h2 : x < (2 : ℚ) ^ (e + 1)) :
    roundToFloat x =
      roundHalfEven (x / 2 ^ max (e - 23) (-149)) * 2 ^ max (e - 23) (-149) := by
  have hx : 0 < x := lt_of_lt_of_le (by positivity) h1
  rw [roundToFloat_pos x hx, log_eq_of_binade x e h1 h2]

theorem roundHalfEven_of_floor (x : ℚ) (n : ℤ) (h1 : (n : ℚ) ≤ x) (h2 : x < n + 1) :
    roundHalfEven x =
      if x - n < 1 / 2 then n else if 1 / 2 < x - n then n + 1
      else if n % 2 = 0 then n else n + 1 := by
  have hfloor : ⌊x⌋ = n := Int.floor_eq_iff.mpr ⟨h1, h2⟩
  unfold roundHalfEven
  rw [hfloor]

/-- At 48 kHz the `float` quotient is exact. -/
theorem floatDiv_48000 : floatDiv 48000 100 = 480 := by
  have hx : (48000 : ℚ) / 100 = 480 := by norm_num
  unfold floatDiv
  rw [hx, roundToFloat_binade 480 8 (by norm_num) (by norm_num)]
  have hp : max ((8 : ℤ) - 23) (-149) = -15 := by decide
  rw [hp]
  have hq : (480 : ℚ) / 2 ^ (-15 : ℤ) = ((15728640 : ℤ) : ℚ) := by norm_num
  rw [hq, roundHalfEven_intCast]
  norm_num

/-- A sample rate whose quotient by 100 is rounded up by the `float` division: the exact
quotient is 1048576.96. -/
theorem floatDiv_rounds_up : floatDiv 104857696 100 = 1048577 := by
  unfold floatDiv
  rw [roundToFloat_binade _ 20 (by norm_num) (by norm_num)]
  have hp : max ((20 : ℤ) - 23) (-149) = -3 := by decide
  rw [hp, roundHalfEven_of_floor _ 8388615 (by norm_num) (by norm_num)]
  norm_num

/-- The `float` quotient by 100 of a non-negative finite `float` value is a `float`, and no
`float` is nearer to the exact quotient. -/
theorem floatDiv_spec (x : ℚ) (h0 : 0 ≤ x) (h1 : x < 2 ^ 128) :
    IsFloat (floatDiv x 100) ∧
      ∀ y, IsFloat y → |floatDiv x 100 - x / 100| ≤ |y - x / 100| := by
  unfold floatDiv
  rcases h0.eq_or_lt with hz | hpos
  · subst hz
    have hr : roundToFloat ((0 : ℚ) / 100) = 0 := by simp [roundToFloat]
    rw [hr]
    refine ⟨⟨0, 0, by norm_num, by norm_num, by norm_num, by norm_num⟩, fun y _ => ?_⟩
    simp
  · have hq : 0 < x / 100 := div_pos hpos (by norm_num)
    have hpow : (0 : ℚ) < 2 ^ 127 := by positivity
    have hsucc : (2 : ℚ) ^ 128 = 2 ^ 127 * 2 := pow_succ 2 127
    have hlt : x / 100 < 2 ^ 127 := by
      rw [div_lt_iff₀ (by norm_num : (0 : ℚ) < 100)]
      rw [hsucc] at h1
      linarith
    exact ⟨roundToFloat_isFloat _ hq hlt, fun y hy => roundToFloat_nearest _ hq y hy⟩

theorem engineInit_frame {G : Type} (e : Engine G) (sampleRate : ℚ)
    (inputChannelCount realChannelCount outputChannelCount channelMask maxFrameCount : Nat)
    (configPath : Option String) (config : Nat) (g : G) :
    (engineInit e sampleRate inputChannelCount realChannelCount outputChannelCount channelMask
        maxFrameCount configPath config g).transitionCounter = 0 ∧
      (engineInit e sampleRate inputChannelCount realChannelCount outputChannelCount channelMask
        maxFrameCount configPath config g).transitionLength =
        truncToUnsigned (floatDiv sampleRate 100) ∧
      (engineInit e sampleRate inputChannelCount realChannelCount outputChannelCount channelMask
        maxFrameCount configPath config g).sampleRate = sampleRate ∧
      (engineInit e sampleRate inputChannelCount realChannelCount outputChannelCount channelMask
        maxFrameCount configPath config g).loadSemaphore = e.loadSemaphore ∧
      (engineInit e sampleRate inputChannelCount realChannelCount outputChannelCount channelMask
        maxFrameCount configPath config g).nextConfig = none := by
  unfold engineInit
  cases configPath with
  | none => simp [cleanupConfigurations]
  | some path =>
    by_cases hp : path = ""
    · simp [hp, cleanupConfigurations]
    · simp [hp, cleanupConfigurations, loadConfig]

/-- The bound on the counter is kept by every step. -/
theorem step_counter {α G : Type} (ops : SampleOps α) (gops : GraphOps α G) (s t : System G)
    (hst : Step ops gops s t)
    (h : s.engine.transitionCounter ≤ s.engine.transitionLength ∧
      s.engine.transitionLength = truncToUnsigned (floatDiv s.engine.sampleRate 100)) :
    t.engine.transitionCounter ≤ t.engine.transitionLength ∧
      t.engine.transitionLength = truncToUnsigned (floatDiv t.engine.sampleRate 100) := by
  cases hst with
  | init sampleRate icc rcc occ mask mfc path config g =>
    obtain ⟨h1, h2, h3, -, -⟩ := engineInit_frame s.engine sampleRate icc rcc occ mask mfc path
      config g
    simp only [h1, h2, h3]
    exact ⟨Nat.zero_le _, trivial⟩
  | acquire hfree hidle => exact h
  | publish hheld config g =>
    obtain ⟨h1, h2, h3, -, -⟩ := loadConfig_frame s.engine config g
    simp only [h1, h2, h3]
    exact h
  | callback output input frameCount r hr =>
    obtain ⟨-, -, -, hlen, hrate⟩ := process_frame ops gops s.engine output input frameCount r hr
    simp only [hlen, hrate]
    refine ⟨?_, h.2⟩
    rcases process_pointers ops gops s.engine output input frameCount r hr with
      ⟨-, -, -, -, hc⟩ | ⟨next, -, -, -, -, hc, -⟩
    · rcases hc with hc | hc
      · rw [hc]; exact h.1
      · exact Nat.le_of_lt hc
    · rw [hc]; exact Nat.zero_le _

/-- The bound on the counter and the value of `transitionLength` in every state reachable
from a call of `initialize`. -/
theorem reachable_counter {α G : Type} (ops : SampleOps α) (gops : GraphOps α G)
    (s : System G) (h : ReachableFromInit ops gops s) :
    s.engine.transitionCounter ≤ s.engine.transitionLength ∧
      s.engine.transitionLength = truncToUnsigned (floatDiv s.engine.sampleRate 100) := by
  induction h with
  | init s sampleRate icc rcc occ mask mfc path config g =>
    obtain ⟨h1, h2, h3, -, -⟩ := engineInit_frame s.engine sampleRate icc rcc occ mask mfc path
      config g
    simp only [h1, h2, h3]
    exact ⟨Nat.zero_le _, trivial⟩
  | step s t _ hst ih => exact step_counter ops gops s t hst ih

/-- C9: in every state reachable from a call of `initialize` by further calls of
`initialize`, reloads and `process` callbacks of any frame count and input,
`transitionCounter` lies between 0 and `transitionLength`, and `transitionLength` is
`sampleRate / 100` truncated to an unsigned integer: with `q` the quotient as line 148
computes it in `float` (for a finite `sampleRate ≥ 0` a `float` nearest to the exact
quotient), whenever `0 ≤ q < 2 ^ 32`, where the conversion is defined, `transitionLength` is
the integer with `transitionLength ≤ q < transitionLength + 1`. -/
theorem transitionCounter_bounded {α G : Type} (ops : SampleOps α) (gops : GraphOps α G)
    (s : System G) (h : ReachableFromInit ops gops s) :
    0 ≤ s.engine.transitionCounter ∧
      s.engine.transitionCounter ≤ s.engine.transitionLength ∧
      ∃ q : ℚ, q = floatDiv s.engine.sampleRate 100 ∧
        (0 ≤ s.engine.sampleRate → s.engine.sampleRate < 2 ^ 128 →
          IsFloat q ∧
            ∀ y, IsFloat y → |q - s.engine.sampleRate / 100| ≤ |y - s.engine.sampleRate / 100|) ∧
        (0 ≤ q → q < 2 ^ 32 →
          (s.engine.transitionLength : ℚ) ≤ q ∧ q < s.engine.transitionLength + 1) := by
  obtain ⟨hle, hlen⟩ := reachable_counter ops gops s h
  refine ⟨Nat.zero_le _, hle, _, rfl, floatDiv_spec s.engine.sampleRate, ?_⟩
  intro h0 h1
  rw [hlen]
  exact truncToUnsigned_spec _ h0 h1

/-- The system `fadedSystem` is reached from `initialize` by a reload (the worker takes the
permit and publishes a configuration) and a `process` callback. -/
theorem fadedSystem_reachable :
    ReachableFromInit (f32Ops keepCurrent) idleGraphOps fadedSystem := by
  have hpending : ReachableFromInit (f32Ops keepCurrent) idleGraphOps pendingSystem :=
    ReachableFromInit.step waitingSystem pendingSystem
      (ReachableFromInit.step initSystem waitingSystem
        (ReachableFromInit.init freshSystem 48000 2 2 2 3 512 (some "config.txt") 7 ())
        (Step.acquire initSystem (by decide) rfl))
      (Step.publish waitingSystem rfl 8 ())
  obtain ⟨r, hr⟩ : ∃ r, process (f32Ops keepCurrent) idleGraphOps pendingSystem.engine
      (some staleOutput) zeroThenOnes 3 = some r := ⟨_, rfl⟩
  have hfaded : fadedSystem = { pendingSystem with engine := r.1 } := by
    unfold fadedSystem
    rw [hr]
  rw [hfaded]
  exact ReachableFromInit.step _ _ hpending (Step.callback pendingSystem _ _ 3 r hr)

theorem truncToUnsigned_480 : truncToUnsigned 480 = 480 := by
  have h : ⌊(480 : ℚ)⌋ = 480 := by norm_num
  rw [truncToUnsigned, h]
  rfl

theorem promote_early {G : Type} (e : Engine G) (h : e.transitionCounter < e.transitionLength) :
    promote e = e := by
  unfold promote
  rw [if_neg (fun hc => absurd hc.2 (by omega))]

theorem promote_late {G : Type} (e : Engine G)
    (h : e.nextConfig ≠ none ∧ e.transitionCounter ≥ e.transitionLength) :
    promote e =
      { e with
        previousConfig := e.currentConfig
        currentConfig := e.nextConfig
        nextConfig := none
        transitionCounter := 0
        loadSemaphore := releaseSemaphore e.loadSemaphore } := by
  unfold promote
  rw [if_pos h]

/-- A callback that runs the configurations and leaves the counter below `transitionLength`
does not promote. -/
theorem runGraphs_early {α G : Type} (ops : SampleOps α) (gops : GraphOps α G) (e : Engine G)
    (current : Nat) (output : Option (Buffer α)) (input : Buffer α) (frameCount : Nat)
    (h : counterAtEnd e frameCount < e.transitionLength) :
    ∃ heap, (runGraphs ops gops e current output input frameCount).1 =
      { e with heap := heap, transitionCounter := counterAtEnd e frameCount } := by
  obtain ⟨heap, hheap⟩ := runGraphs_eq ops gops e current output input frameCount
  exact ⟨heap, by rw [hheap, promote_early _ h]⟩

/-- The state `fadedSystem`: three frames into the transition of 480 frames, the
configuration at address 8 still pending and the permit taken. -/
theorem fadedSystem_values :
    fadedSystem.engine.currentConfig = some 7 ∧ fadedSystem.engine.nextConfig = some 8 ∧
      fadedSystem.engine.transitionCounter = 3 ∧ fadedSystem.engine.transitionLength = 480 ∧
      fadedSystem.engine.sampleRate = 48000 ∧ fadedSystem.engine.loadSemaphore = 0 := by
  have hlen : pendingSystem.engine.transitionLength = 480 := by
    have h1 := (loadConfig_frame waitingSystem.engine 8 ()).2.1
    have h2 := (engineInit_frame freshSystem.engine 48000 2 2 2 3 512 (some "config.txt") 7
      ()).2.1
    rw [floatDiv_48000, truncToUnsigned_480] at h2
    exact h1.trans h2
  have hr := process_run (f32Ops keepCurrent) idleGraphOps pendingSystem.engine
    (some staleOutput) zeroThenOnes 3 7 (by decide) rfl (by decide)
  have hearly : counterAtEnd pendingSystem.engine 3 < pendingSystem.engine.transitionLength := by
    rw [hlen]
    decide
  obtain ⟨heap, hheap⟩ := runGraphs_early (f32Ops keepCurrent) idleGraphOps
    { pendingSystem.engine with
      lastInputSize := 3
      lastInputWasSilent := inputSilent (f32Ops keepCurrent) zeroThenOnes 3
        pendingSystem.engine.realChannelCount }
    7 (some staleOutput) zeroThenOnes 3 hearly
  have hfaded := Eq.trans (by unfold fadedSystem; rw [hr]; rfl : fadedSystem.engine = _) hheap
  rw [hfaded]
  exact ⟨rfl, rfl, rfl, hlen, rfl, rfl⟩

theorem transitionCounter_bounded_witness :
    ReachableFromInit (f32Ops keepCurrent) idleGraphOps fadedSystem ∧
    fadedSystem.engine.transitionCounter = 3 ∧ fadedSystem.engine.transitionLength = 480 ∧
    (0 ≤ fadedSystem.engine.transitionCounter ∧
      fadedSystem.engine.transitionCounter ≤ fadedSystem.engine.transitionLength ∧
      ∃ q : ℚ, q = floatDiv fadedSystem.engine.sampleRate 100 ∧
        (0 ≤ fadedSystem.engine.sampleRate → fadedSystem.engine.sampleRate < 2 ^ 128 →
          IsFloat q ∧
            ∀ y, IsFloat y →
              |q - fadedSystem.engine.sampleRate / 100| ≤
                |y - fadedSystem.engine.sampleRate / 100|) ∧
        (0 ≤ q → q < 2 ^ 32 →
          (fadedSystem.engine.transitionLength : ℚ) ≤ q ∧
            q < fadedSystem.engine.transitionLength + 1)) :=
  ⟨fadedSystem_reachable, fadedSystem_values.2.2.1, fadedSystem_values.2.2.2.1,
    transitionCounter_bounded (f32Ops keepCurrent) idleGraphOps fadedSystem
      fadedSystem_reachable⟩

/-- The value of `transitionLength` that `initialize` computes at 48 kHz, where the `float`
quotient is the exact one, and at a sample rate where the two differ: the exact quotient
1048576.96 is rounded to the `float` 1048577. -/
theorem engineInit_transitionLength :
    (engineInit freshSystem.engine 48000 2 2 2 3 512 none 7 ()).transitionLength = 480 ∧
    truncToUnsigned ((48000 : ℚ) / 100) = 480 ∧
    (engineInit freshSystem.engine 104857696 2 2 2 3 512 none 7 ()).transitionLength =
      1048577 ∧
    ⌊(104857696 : ℚ) / 100⌋ = 1048576 := by
  have h1 := (engineInit_frame freshSystem.engine 48000 2 2 2 3 512 none 7 ()).2.1
  have h2 := (engineInit_frame freshSystem.engine 104857696 2 2 2 3 512 none 7 ()).2.1
  rw [floatDiv_48000, truncToUnsigned_480] at h1
  rw [floatDiv_rounds_up] at h2
  have hfloor : ⌊(1048577 : ℚ)⌋ = 1048577 := by norm_num
  rw [truncToUnsigned, hfloor] at h2
  have hexact : (48000 : ℚ) / 100 = 480 := by norm_num
  have hfloor2 : ⌊(104857696 : ℚ) / 100⌋ = 1048576 := by
    rw [Int.floor_eq_iff]
    constructor <;> norm_num
  exact ⟨h1, by rw [hexact, truncToUnsigned_480], h2, hfloor2⟩

/-- The permit invariant: the semaphore count is at most 1, and it is 0 while a configuration
is pending or the worker is between its wait and its `loadConfig()`; these two exclude each
other. -/
theorem reachable_permit {α G : Type} (ops : SampleOps α) (gops : GraphOps α G)
    (s : System G) (h : Reachable ops gops s) :
    s.engine.loadSemaphore ≤ 1 ∧
      (s.engine.nextConfig ≠ none →
        s.engine.loadSemaphore = 0 ∧ s.workerHoldsPermit = false) ∧
      (s.workerHoldsPermit = true →
        s.engine.loadSemaphore = 0 ∧ s.engine.nextConfig = none) := by
  induction h with
  | start s hc hw =>
    obtain ⟨-, -, -, -, -, hnext, -, -, hsem⟩ := hc
    refine ⟨by omega, fun hn => absurd hnext hn, fun hh => ?_⟩
    rw [hw] at hh
    cases hh
  | step s t _ hst ih =>
    obtain ⟨ih1, ih2, ih3⟩ := ih
    cases hst with
    | init sampleRate icc rcc occ mask mfc path config g =>
      obtain ⟨-, -, -, hsem, hnext⟩ := engineInit_frame s.engine sampleRate icc rcc occ mask
        mfc path config g
      simp only [hsem, hnext]
      exact ⟨ih1, fun hn => absurd rfl hn, fun hh => ⟨(ih3 hh).1, trivial⟩⟩
    | acquire hfree hidle =>
      have hnext : s.engine.nextConfig = none := by
        by_contra hn
        have := (ih2 hn).1
        omega
      simp only []
      exact ⟨by omega, fun hn => absurd hnext hn, fun _ => ⟨by omega, hnext⟩⟩
    | publish hheld config g =>
      obtain ⟨-, -, -, hsem, -, -⟩ := loadConfig_frame s.engine config g
      simp only [hsem]
      exact ⟨ih1, fun _ => ⟨(ih3 hheld).1, trivial⟩, fun hh => by cases hh⟩
    | callback output input frameCount r hr =>
      simp only []
      rcases process_pointers ops gops s.engine output input frameCount r hr with
        ⟨-, hn, -, hsem, -⟩ | ⟨next, hn, -, hn2, -, -, hsem⟩
      · rw [hn, hsem]
        exact ⟨ih1, ih2, ih3⟩
      · have hpend : s.engine.nextConfig ≠ none := by simp [hn]
        obtain ⟨h0, hw⟩ := ih2 hpend
        rw [hn2, hsem, h0]
        refine ⟨by simp [releaseSemaphore], fun hne => absurd rfl hne, fun hh => ?_⟩
        rw [hw] at hh
        cases hh

/-- C10: in the step model starting from a constructed engine (permit count 1, maximum 1),
in every reachable state the count is at most 1 and is 0 while a configuration is pending.
The worker's `loadConfig()` runs only with `nextConfig` null, and no step replaces a pending
configuration by another one (a step leaves a non-null `nextConfig` or nulls it). The count
rises, by exactly 1, only in a `process` callback that promotes `nextConfig` to
`currentConfig`, and every callback that consumes `nextConfig` promotes it and raises the
count by 1. -/
theorem pending_at_most_one {α G : Type} (ops : SampleOps α) (gops : GraphOps α G)
    (s : System G) (h : Reachable ops gops s) :
    s.engine.loadSemaphore ≤ 1 ∧
    (s.engine.nextConfig ≠ none → s.engine.loadSemaphore = 0 ∧ s.workerHoldsPermit = false) ∧
    (s.workerHoldsPermit = true → s.engine.nextConfig = none) ∧
    (∀ t, Step ops gops s t →
      (∀ a, s.engine.nextConfig = some a →
        t.engine.nextConfig = some a ∨ t.engine.nextConfig = none) ∧
      t.engine.loadSemaphore ≤ s.engine.loadSemaphore + 1 ∧
      (t.engine.loadSemaphore = s.engine.loadSemaphore + 1 →
        ∃ output input frameCount r next,
          process ops gops s.engine output input frameCount = some r ∧ t.engine = r.1 ∧
          s.engine.nextConfig = some next ∧ r.1.currentConfig = some next ∧
          r.1.nextConfig = none ∧ r.1.previousConfig = s.engine.currentConfig)) ∧
    (∀ output input frameCount r,
      process ops gops s.engine output input frameCount = some r →
      r.1.nextConfig ≠ s.engine.nextConfig →
        r.1.currentConfig = s.engine.nextConfig ∧ r.1.nextConfig = none ∧
        r.1.previousConfig = s.engine.currentConfig ∧
        r.1.loadSemaphore = s.engine.loadSemaphore + 1) := by
  obtain ⟨ih1, ih2, ih3⟩ := reachable_permit ops gops s h
  refine ⟨ih1, ih2, fun hh => (ih3 hh).2, ?_, ?_⟩
  · intro t hst
    cases hst with
    | init sampleRate icc rcc occ mask mfc path config g =>
      obtain ⟨-, -, -, hsem, hnext⟩ := engineInit_frame s.engine sampleRate icc rcc occ mask
        mfc path config g
      simp only [hsem, hnext]
      exact ⟨fun _ _ => Or.inr trivial, by omega, fun hc => by omega⟩
    | acquire hfree hidle =>
      simp only []
      exact ⟨fun a ha => Or.inl ha, by omega, fun hc => by omega⟩
    | publish hheld config g =>
      obtain ⟨-, -, -, hsem, -, -⟩ := loadConfig_frame s.engine config g
      simp only [hsem]
      refine ⟨fun a ha => ?_, by omega, fun hc => by omega⟩
      rw [(ih3 hheld).2] at ha
      cases ha
    | callback output input frameCount r hr =>
      simp only []
      rcases process_pointers ops gops s.engine output input frameCount r hr with
        ⟨-, hn, -, hsem, -⟩ | ⟨next, hn, hcur, hn2, hprev, -, hsem⟩
      · rw [hn, hsem]
        exact ⟨fun a ha => Or.inl ha, by omega, fun hc => by omega⟩
      · rw [hn2, hsem]
        refine ⟨fun _ _ => Or.inr rfl, ?_, fun _ => ?_⟩
        · unfold releaseSemaphore
          split <;> omega
        · exact ⟨output, input, frameCount, r, next, hr, rfl, hn, hcur, hn2, hprev⟩
  · intro output input frameCount r hr hne
    rcases process_pointers ops gops s.engine output input frameCount r hr with
      ⟨-, hn, -, -, -⟩ | ⟨next, hn, hcur, hn2, hprev, -, hsem⟩
    · exact absurd hn hne
    · have hpend : s.engine.nextConfig ≠ none := by simp [hn]
      obtain ⟨h0, -⟩ := ih2 hpend
      refine ⟨by rw [hcur, hn], hn2, hprev, ?_⟩
      rw [hsem, h0]
      simp [releaseSemaphore]

/-- The system `pendingSystem` is reached from a constructed engine by `initialize`, the
worker taking the permit and its `loadConfig()`. -/
theorem pendingSystem_reachable :
    Reachable (f32Ops keepCurrent) idleGraphOps pendingSystem :=
  Reachable.step waitingSystem pendingSystem
    (Reachable.step initSystem waitingSystem
      (Reachable.step freshSystem initSystem
        (Reachable.start freshSystem ⟨rfl, rfl, rfl, rfl, rfl, rfl, rfl, rfl, rfl⟩ rfl)
        (Step.init freshSystem 48000 2 2 2 3 512 (some "config.txt") 7 ()))
      (Step.acquire initSystem (by decide) rfl))
    (Step.publish waitingSystem rfl 8 ())

theorem pending_at_most_one_witness :
    Reachable (f32Ops keepCurrent) idleGraphOps pendingSystem ∧
    pendingSystem.engine.currentConfig = some 7 ∧ pendingSystem.engine.nextConfig = some 8 ∧
    pendingSystem.engine.loadSemaphore = 0 ∧
    (pendingSystem.engine.loadSemaphore ≤ 1 ∧
    (pendingSystem.engine.nextConfig ≠ none →
      pendingSystem.engine.loadSemaphore = 0 ∧ pendingSystem.workerHoldsPermit = false) ∧
    (pendingSystem.workerHoldsPermit = true → pendingSystem.engine.nextConfig = none) ∧
    (∀ t, Step (f32Ops keepCurrent) idleGraphOps pendingSystem t →
      (∀ a, pendingSystem.engine.nextConfig = some a →
        t.engine.nextConfig = some a ∨ t.engine.nextConfig = none) ∧
      t.engine.loadSemaphore ≤ pendingSystem.engine.loadSemaphore + 1 ∧
      (t.engine.loadSemaphore = pendingSystem.engine.loadSemaphore + 1 →
        ∃ output input frameCount r next,
          process (f32Ops keepCurrent) idleGraphOps pendingSystem.engine output input
            frameCount = some r ∧ t.engine = r.1 ∧
          pendingSystem.engine.nextConfig = some next ∧ r.1.currentConfig = some next ∧
          r.1.nextConfig = none ∧ r.1.previousConfig = pendingSystem.engine.currentConfig)) ∧
    (∀ output input frameCount r,
      process (f32Ops keepCurrent) idleGraphOps pendingSystem.engine output input frameCount =
        some r →
      r.1.nextConfig ≠ pendingSystem.engine.nextConfig →
        r.1.currentConfig = pendingSystem.engine.nextConfig ∧ r.1.nextConfig = none ∧
        r.1.previousConfig = pendingSystem.engine.currentConfig ∧
        r.1.loadSemaphore = pendingSystem.engine.loadSemaphore + 1)) :=
  ⟨pendingSystem_reachable, rfl, rfl, rfl,
    pending_at_most_one (f32Ops keepCurrent) idleGraphOps pendingSystem
      pendingSystem_reachable⟩

/-- From `pendingSystem`, a callback of 480 frames completes the transition: the pending
configuration becomes the current one and the permit is released. -/
theorem pendingSystem_promotes :
    ∃ r, process (f32Ops keepCurrent) idleGraphOps pendingSystem.engine (some staleOutput)
        zeroThenOnes 480 = some r ∧
      r.1.previousConfig = some 7 ∧ r.1.currentConfig = some 8 ∧ r.1.nextConfig = none ∧
      r.1.transitionCounter = 0 ∧ r.1.loadSemaphore = 1 := by
  have hlen : pendingSystem.engine.transitionLength = 480 := by
    have h1 := (loadConfig_frame waitingSystem.engine 8 ()).2.1
    have h2 := (engineInit_frame freshSystem.engine 48000 2 2 2 3 512 (some "config.txt") 7
      ()).2.1
    rw [floatDiv_48000, truncToUnsigned_480] at h2
    exact h1.trans h2
  have hr := process_run (f32Ops keepCurrent) idleGraphOps pendingSystem.engine
    (some staleOutput) zeroThenOnes 480 7 (fun h => absurd h.2 (by decide)) rfl
    (fun h => absurd h.2.1 (by decide))
  obtain ⟨heap, hheap⟩ := runGraphs_eq (f32Ops keepCurrent) idleGraphOps
    { pendingSystem.engine with
      lastInputSize := ((480 : Nat) : Int)
      lastInputWasSilent := inputSilent (f32Ops keepCurrent) zeroThenOnes 480
        pendingSystem.engine.realChannelCount }
    7 (some staleOutput) zeroThenOnes 480
  refine ⟨_, hr, ?_⟩
  have hlate : pendingSystem.engine.nextConfig ≠ none ∧
      counterAtEnd pendingSystem.engine 480 ≥ pendingSystem.engine.transitionLength := by
    rw [hlen]
    decide
  simp only [] at hheap ⊢
  rw [hheap, promote_late]
  · exact ⟨rfl, rfl, rfl, rfl, rfl⟩
  · exact hlate

/-! ## Theorems: the channel names -/

theorem toDigitsCore_digits (fuel : Nat) : ∀ (n : Nat) (ds : List Char), 0 < n → n < fuel →
    Nat.toDigitsCore 10 fuel n ds = ((Nat.digits 10 n).reverse.map Nat.digitChar) ++ ds := by
  induction fuel with
  | zero => intro n ds _ h; omega
  | succ fuel ih =>
    intro n ds hpos hlt
    rw [Nat.digits_def' (by norm_num) hpos]
    simp only [Nat.toDigitsCore]
    by_cases h0 : n / 10 = 0
    · simp [h0]
    · have hpos2 : 0 < n / 10 := Nat.pos_of_ne_zero h0
      have hlt2 : n / 10 < fuel := by omega
      rw [if_neg h0, ih (n / 10) _ hpos2 hlt2]
      simp

theorem digitChar_inj_of_lt :
    ∀ a, a < 10 → ∀ b, b < 10 → Nat.digitChar a = Nat.digitChar b → a = b := by
  decide

theorem digitChar_mem :
    ∀ a, a < 10 → Nat.digitChar a ∈ ['0', '1', '2', '3', '4', '5', '6', '7', '8', '9'] := by
  decide

/-- The decimal string of a positive number, by its digits. -/
theorem to_wstring_data (n : Nat) (h : 0 < n) :
    (to_wstring n).data = (Nat.digits 10 n).reverse.map Nat.digitChar := by
  simp only [to_wstring, Nat.repr, Nat.toDigits,
    toDigitsCore_digits (n + 1) n [] h (Nat.lt_succ_self n), List.append_nil, List.asString]

theorem map_eq_of_injOn {α β : Type} (f : α → β) : ∀ (l1 l2 : List α),
    (∀ a ∈ l1, ∀ b ∈ l2, f a = f b → a = b) → l1.map f = l2.map f → l1 = l2 := by
  intro l1
  induction l1 with
  | nil => intro l2 _ h; cases l2 <;> simp_all
  | cons a l1 ih =>
    intro l2 hinj h
    cases l2 with
    | nil => simp at h
    | cons b l2 =>
      simp only [List.map_cons, List.cons.injEq] at h
      have hab := hinj a (List.mem_cons_self _ _) b (List.mem_cons_self _ _) h.1
      have := ih l2
        (fun x hx y hy => hinj x (List.mem_cons_of_mem _ hx) y (List.mem_cons_of_mem _ hy)) h.2
      rw [hab, this]

/-- Distinct positive numbers have distinct decimal strings. -/
theorem to_wstring_inj (a b : Nat) (ha : 0 < a) (hb : 0 < b)
    (h : to_wstring a = to_wstring b) : a = b := by
  have hd := congrArg String.data h
  rw [to_wstring_data a ha, to_wstring_data b hb] at hd
  have hrev : (Nat.digits 10 a).map Nat.digitChar = (Nat.digits 10 b).map Nat.digitChar := by
    have := congrArg List.reverse hd
    simpa [List.map_reverse] using this
  have hdig : Nat.digits 10 a = Nat.digits 10 b := by
    apply map_eq_of_injOn Nat.digitChar _ _ _ hrev
    intro x hx y hy hxy
    exact digitChar_inj_of_lt x (Nat.digits_lt_base (by norm_num) hx) y
      (Nat.digits_lt_base (by norm_num) hy) hxy
  exact Nat.digits.injective 10 hdig

/-- A decimal string is none of the nine symbolic names. -/
theorem to_wstring_not_symbolic (c : Nat) (h : 0 < c) : to_wstring c ∉ symbolicNames := by
  intro hmem
  have hdigits : ∀ ch ∈ (to_wstring c).data,
      ch ∈ ['0', '1', '2', '3', '4', '5', '6', '7', '8', '9'] := by
    intro ch hch
    rw [to_wstring_data c h] at hch
    obtain ⟨d, hd, rfl⟩ := List.mem_map.mp hch
    exact digitChar_mem d (Nat.digits_lt_base (by norm_num) (List.mem_reverse.mp hd))
  have hnames : ∀ name ∈ symbolicNames,
      ¬ ∀ ch ∈ name.data, ch ∈ ['0', '1', '2', '3', '4', '5', '6', '7', '8', '9'] := by
    decide
  exact hnames _ hmem hdigits

/-- The name table on the bits 0 to 30: only the nine positions have a name, the names are
symbolic and different positions have different names. -/
theorem channelPosToNameMap_bits :
    (∀ i, i < 31 → ∀ name, channelPosToNameMap (1 <<< i) = some name → name ∈ symbolicNames) ∧
    (∀ i, i < 31 → ∀ j, j < 31 → channelPosToNameMap (1 <<< i) ≠ none →
      channelPosToNameMap (1 <<< i) = channelPosToNameMap (1 <<< j) → i = j) := by
  constructor
  · have h : ∀ i, i < 31 → (channelPosToNameMap (1 <<< i)).all (fun name => name ∈ symbolicNames)
        = true := by decide
    intro i hi name hname
    have := h i hi
    rw [hname] at this
    simpa using this
  · decide

/-- Lanes of different bits with different lane numbers have different names. -/
theorem laneName_ne (i j c d : Nat) (hi : i < 31) (hj : j < 31) (hij : i ≠ j) (hc : 0 < c)
    (hd : 0 < d) (hcd : c ≠ d) : laneName i c ≠ laneName j d := by
  obtain ⟨hsym, hinj⟩ := channelPosToNameMap_bits
  unfold laneName
  intro h
  cases hi2 : channelPosToNameMap (1 <<< i) with
  | none =>
    cases hj2 : channelPosToNameMap (1 <<< j) with
    | none =>
      rw [hi2, hj2] at h
      exact hcd (to_wstring_inj c d hc hd h)
    | some b =>
      rw [hi2, hj2] at h
      simp only [] at h
      exact to_wstring_not_symbolic c hc (h ▸ hsym j hj b hj2)
  | some a =>
    cases hj2 : channelPosToNameMap (1 <<< j) with
    | none =>
      rw [hi2, hj2] at h
      simp only [] at h
      exact to_wstring_not_symbolic d hd (h ▸ hsym i hi a hi2)
    | some b =>
      rw [hi2, hj2] at h
      simp only [] at h
      refine hij (hinj i hi j hj (by simp [hi2]) ?_)
      rw [hi2, hj2, h]

/-- A lane name differs from the decimal string of any other lane number. -/
theorem laneName_ne_to_wstring (i c d : Nat) (hi : i < 31) (hc : 0 < c) (hd : 0 < d)
    (hcd : c ≠ d) : laneName i c ≠ to_wstring d := by
  obtain ⟨hsym, -⟩ := channelPosToNameMap_bits
  unfold laneName
  intro h
  cases hi2 : channelPosToNameMap (1 <<< i) with
  | none =>
    rw [hi2] at h
    exact hcd (to_wstring_inj c d hc hd h)
  | some a =>
    rw [hi2] at h
    simp only [] at h
    exact to_wstring_not_symbolic d hd (h ▸ hsym i hi a hi2)

theorem laneNames_length (bits : List Nat) (c : Nat) :
    (laneNames bits c).length = bits.length := by
  induction bits generalizing c with
  | nil => rfl
  | cons i rest ih => simp [laneNames, ih]

theorem laneNames_getElem? (bits : List Nat) (c k : Nat) :
    (laneNames bits c)[k]? = bits[k]?.map (fun i => laneName i (c + k)) := by
  induction bits generalizing c k with
  | nil => simp [laneNames]
  | cons i rest ih =>
    cases k with
    | zero => simp [laneNames]
    | succ k =>
      simp only [laneNames, List.getElem?_cons_succ, ih]
      congr 1
      funext i
      congr 1
      omega

/-- The loop over the mask bits pushes one lane name per set bit, in the order of the bits. -/
theorem maskFold_eq (channelMask : Nat) (l : List Nat) (names : List String) (c : Nat) :
    l.foldl (maskStep channelMask) (names, c) =
      (names ++ laneNames (l.filter (fun i => decide (channelMask &&& (1 <<< i) ≠ 0))) c,
        c + (l.filter (fun i => decide (channelMask &&& (1 <<< i) ≠ 0))).length) := by
  induction l generalizing names c with
  | nil => simp [laneNames]
  | cons i l ih =>
    simp only [List.foldl_cons]
    by_cases hset : channelMask &&& (1 <<< i) ≠ 0
    · have hstep : maskStep channelMask (names, c) i = (names ++ [laneName i c], c + 1) := by
        unfold maskStep laneName
        simp only [hset, ne_eq, not_false_eq_true, if_true]
        cases channelPosToNameMap (1 <<< i) <;> rfl
      rw [hstep, ih, List.filter_cons_of_pos (by simpa using hset)]
      simp [laneNames, Nat.add_assoc, Nat.add_comm 1]
    · have hstep : maskStep channelMask (names, c) i = (names, c) := by
        unfold maskStep
        simp only [hset, if_false]
      rw [hstep, ih, List.filter_cons_of_neg (by simpa using hset)]

theorem maskLoop_eq (channelMask : Nat) :
    maskLoop channelMask ([], 1) =
      (laneNames (maskBits channelMask) 1, 1 + (maskBits channelMask).length) := by
  unfold maskLoop maskBits
  rw [maskFold_eq]
  simp

/-- The loop over the lanes not covered by the mask, when its counter cannot wrap. -/
theorem coverLoop_eq (bound : Nat) (hbound : bound < 2 ^ 32 - 1) :
    ∀ (fuel : Nat) (names : List String) (c : Nat), bound + 1 - c < fuel →
      coverLoop fuel bound (names, c) =
        some (names ++ (List.range' c (bound + 1 - c)).map to_wstring) := by
  intro fuel
  induction fuel with
  | zero => intro names c h; omega
  | succ fuel ih =>
    intro names c hfuel
    unfold coverLoop
    by_cases hc : c ≤ bound
    · have hmod : (c + 1) % 2 ^ 32 = c + 1 := Nat.mod_eq_of_lt (by omega)
      have hlen : bound + 1 - c = (bound + 1 - (c + 1)) + 1 := by omega
      simp only [hc, if_true, hmod]
      rw [ih (names ++ [to_wstring c]) (c + 1) (by omega), hlen, List.range'_succ]
      simp
    · have hlen : bound + 1 - c = 0 := by omega
      simp [hc, hlen]

/-- The pool names in closed form. -/
theorem buildChannelNames_eq (fuel channelMask realChannelCount outputChannelCount : Nat)
    (hbound : max realChannelCount outputChannelCount < 2 ^ 32 - 1)
    (hfuel : max realChannelCount outputChannelCount < fuel) :
    buildChannelNames fuel channelMask realChannelCount outputChannelCount =
      some (laneNames (maskBits channelMask) 1 ++
        (List.range' (1 + (maskBits channelMask).length)
          (max realChannelCount outputChannelCount - (maskBits channelMask).length)).map
            to_wstring) := by
  unfold buildChannelNames
  have hlen : max realChannelCount outputChannelCount + 1 -
      (1 + (maskBits channelMask).length) =
      max realChannelCount outputChannelCount - (maskBits channelMask).length := by omega
  rw [maskLoop_eq, coverLoop_eq _ hbound fuel _ _ (by omega), hlen]

/-- A run of the loop over the uncovered lanes that ends: the bound is below the largest
`unsigned` and the names pushed are the decimal strings from the counter up to the bound. -/
theorem coverLoop_some (bound : Nat) :
    ∀ (fuel : Nat) (names : List String) (c : Nat) (result : List String), c < 2 ^ 32 →
      coverLoop fuel bound (names, c) = some result →
      bound < 2 ^ 32 - 1 ∧
        result = names ++ (List.range' c (bound + 1 - c)).map to_wstring := by
  intro fuel
  induction fuel with
  | zero =>
    intro names c result _ h
    simp only [coverLoop] at h
    cases h
  | succ fuel ih =>
    intro names c result hc h
    unfold coverLoop at h
    by_cases hle : c ≤ bound
    · simp only [hle, if_true] at h
      obtain ⟨hb, hres⟩ := ih _ _ result (Nat.mod_lt _ (by decide)) h
      have hmod : (c + 1) % 2 ^ 32 = c + 1 := Nat.mod_eq_of_lt (by omega)
      have hlen : bound + 1 - c = (bound + 1 - (c + 1)) + 1 := by omega
      refine ⟨hb, ?_⟩
      rw [hres, hmod, hlen, List.range'_succ]
      simp
    · simp only [hle, if_false, Option.some.injEq] at h
      have hlen : bound + 1 - c = 0 := by omega
      refine ⟨by omega, ?_⟩
      rw [← h, hlen]
      simp

theorem maskBits_length (channelMask : Nat) : (maskBits channelMask).length ≤ 31 := by
  unfold maskBits
  exact (List.length_filter_le _ _).trans (by simp)

/-- Whenever the pool names are returned, the channel counts are below the largest `unsigned`
and the names are those of the closed form. -/
theorem buildChannelNames_some (fuel channelMask realChannelCount outputChannelCount : Nat)
    (names : List String)
    (h : buildChannelNames fuel channelMask realChannelCount outputChannelCount = some names) :
    max realChannelCount outputChannelCount < 2 ^ 32 - 1 ∧
      names = laneNames (maskBits channelMask) 1 ++
        (List.range' (1 + (maskBits channelMask).length)
          (max realChannelCount outputChannelCount - (maskBits channelMask).length)).map
            to_wstring := by
  unfold buildChannelNames at h
  rw [maskLoop_eq] at h
  have hlen := maskBits_length channelMask
  obtain ⟨hb, hres⟩ := coverLoop_some _ fuel _ _ names (by omega) h
  have hsub : max realChannelCount outputChannelCount + 1 -
      (1 + (maskBits channelMask).length) =
      max realChannelCount outputChannelCount - (maskBits channelMask).length := by omega
  rw [hsub] at hres
  exact ⟨hb, hres⟩

theorem maskBits_mem (channelMask i : Nat) :
    i ∈ maskBits channelMask ↔ i < 31 ∧ channelMask &&& (1 <<< i) ≠ 0 := by
  simp [maskBits, List.mem_filter]

theorem maskBits_sorted (channelMask : Nat) :
    (maskBits channelMask).Pairwise (fun a b => a < b) :=
  (List.pairwise_lt_range 31).filter _

/-- The entries of the pool name list, position by position. -/
theorem poolNames_getElem? (channelMask bound k : Nat) :
    (laneNames (maskBits channelMask) 1 ++
        (List.range' (1 + (maskBits channelMask).length)
          (bound - (maskBits channelMask).length)).map to_wstring)[k]? =
      if k < (maskBits channelMask).length then
        (maskBits channelMask)[k]?.map (fun i => laneName i (k + 1))
      else if k < bound then some (to_wstring (k + 1)) else none := by
  rw [List.getElem?_append, laneNames_length, laneNames_getElem?]
  by_cases hk : k < (maskBits channelMask).length
  · simp only [hk, if_true]
    congr 1
    funext i
    rw [Nat.add_comm]
  · simp only [hk, if_false]
    by_cases hb : k < bound
    · have hlt : k - (maskBits channelMask).length <
          bound - (maskBits channelMask).length := by omega
      rw [List.getElem?_map, List.getElem?_range' _ _ hlt, if_pos hb]
      simp only [Option.map_some', Option.some.injEq]
      congr 1
      omega
    · rw [if_neg hb, List.getElem?_eq_none]
      simp only [List.length_map, List.length_range']
      omega

theorem poolNames_length (channelMask bound : Nat) :
    (laneNames (maskBits channelMask) 1 ++
        (List.range' (1 + (maskBits channelMask).length)
          (bound - (maskBits channelMask).length)).map to_wstring).length =
      max (maskBits channelMask).length bound := by
  simp only [List.length_append, laneNames_length, List.length_map, List.length_range']
  omega

/-- The pool name list has no duplicate. -/
theorem poolNames_nodup (channelMask bound : Nat) :
    (laneNames (maskBits channelMask) 1 ++
        (List.range' (1 + (maskBits channelMask).length)
          (bound - (maskBits channelMask).length)).map to_wstring).Nodup := by
  rw [List.nodup_iff_getElem?_ne_getElem?]
  intro a b hab hb
  rw [poolNames_length] at hb
  rw [poolNames_getElem?, poolNames_getElem?]
  have hsorted := maskBits_sorted channelMask
  by_cases hbn : b < (maskBits channelMask).length
  · have han : a < (maskBits channelMask).length := by omega
    simp only [han, hbn, if_true, List.getElem?_eq_getElem, Option.map_some']
    intro h
    have hlt := List.pairwise_iff_getElem.mp hsorted a b han hbn hab
    have hi := ((maskBits_mem channelMask _).mp (List.getElem_mem han)).1
    have hj := ((maskBits_mem channelMask _).mp (List.getElem_mem hbn)).1
    exact laneName_ne _ _ (a + 1) (b + 1) hi hj (by omega) (by omega) (by omega) (by omega)
      (Option.some.inj h)
  · have hbb : b < bound := by omega
    simp only [hbn, if_false, hbb, if_true]
    by_cases han : a < (maskBits channelMask).length
    · simp only [han, if_true, List.getElem?_eq_getElem, Option.map_some']
      intro h
      have hi := ((maskBits_mem channelMask _).mp (List.getElem_mem han)).1
      exact laneName_ne_to_wstring _ (a + 1) (b + 1) hi (by omega) (by omega) (by omega)
        (Option.some.inj h)
    · have hab2 : a < bound := by omega
      simp only [han, if_false, hab2, if_true]
      intro h
      have := to_wstring_inj (a + 1) (b + 1) (by omega) (by omega) (Option.some.inj h)
      omega

/-- The name table, bit by bit. -/
theorem channelPosToNameMap_table :
    ∀ i, i < 31 → channelPosToNameMap (1 <<< i) =
      if i = 0 then some "L" else if i = 1 then some "R" else if i = 2 then some "C"
      else if i = 3 then some "SUB" else if i = 4 then some "RL" else if i = 5 then some "RR"
      else if i = 8 then some "RC" else if i = 9 then some "SL" else if i = 10 then some "SR"
      else none := by
  decide

/-- The lane names, bit by bit. -/
theorem laneName_table (i c : Nat) (hi : i < 31) :
    laneName i c =
      if i = 0 then "L" else if i = 1 then "R" else if i = 2 then "C"
      else if i = 3 then "SUB" else if i = 4 then "RL" else if i = 5 then "RR"
      else if i = 8 then "RC" else if i = 9 then "SL" else if i = 10 then "SR"
      else to_wstring c := by
  unfold laneName
  rw [channelPosToNameMap_table i hi]
  split_ifs <;> rfl

/-- C12: the start of `loadConfig()` (lines 252-273) returns whenever the channel counts are
below `2 ^ 32 - 1` (the counts are `unsigned`; at `2 ^ 32 - 1` the `unsigned` lane counter of
lines 268-269 wraps and the loop has no end) and the loop is given enough iterations; and
whenever it returns, the pool name list has one entry per set bit among bits 0 to 30 of
`channelMask` in ascending bit order (entry `k` belongs to the `k`-th set bit), followed by
entries up to lane `max realChannelCount outputChannelCount`; the lane of one of the nine
standard positions gets its symbolic name (`L`, `R`, `C`, `SUB`, `RL`, `RR` for bits 0 to 5
and `RC`, `SL`, `SR` for bits 8 to 10), every other lane the decimal string of its 1-based
lane index; the list has length `max popcount (max realChannelCount outputChannelCount)` and
no duplicate, the current selection is the whole list, and `lastChannelNames` and
`lastNewChannelNames` are empty. -/
theorem loadChannelNames_spec (fuel channelMask realChannelCount outputChannelCount : Nat)
    (s : CompileState) :
    (max realChannelCount outputChannelCount < 2 ^ 32 - 1 →
      max realChannelCount outputChannelCount < fuel →
      ∃ s2, loadChannelNames fuel channelMask realChannelCount outputChannelCount s =
        some s2) ∧
    ∀ s2, loadChannelNames fuel channelMask realChannelCount outputChannelCount s = some s2 →
      (∀ i, i ∈ maskBits channelMask ↔ i < 31 ∧ channelMask &&& (1 <<< i) ≠ 0) ∧
      (maskBits channelMask).Pairwise (fun a b => a < b) ∧
      s2.allChannelNames.length =
        max (maskBits channelMask).length (max realChannelCount outputChannelCount) ∧
      (∀ (k i : Nat), (maskBits channelMask)[k]? = some i →
        s2.allChannelNames[k]? = some
          (if i = 0 then "L" else if i = 1 then "R" else if i = 2 then "C"
            else if i = 3 then "SUB" else if i = 4 then "RL" else if i = 5 then "RR"
            else if i = 8 then "RC" else if i = 9 then "SL" else if i = 10 then "SR"
            else to_wstring (k + 1))) ∧
      (∀ k : Nat, (maskBits channelMask).length ≤ k →
        k < max realChannelCount outputChannelCount →
        s2.allChannelNames[k]? = some (to_wstring (k + 1))) ∧
      s2.allChannelNames.Nodup ∧
      s2.currentChannelNames = s2.allChannelNames ∧
      s2.lastChannelNames = [] ∧ s2.lastNewChannelNames = [] := by
  constructor
  · intro hbound hfuel
    unfold loadChannelNames
    rw [buildChannelNames_eq fuel channelMask realChannelCount outputChannelCount hbound hfuel]
    exact ⟨_, rfl⟩
  · intro s2 h
    unfold loadChannelNames at h
    obtain ⟨names, hnames, hs2⟩ := Option.map_eq_some'.mp h
    obtain ⟨-, hform⟩ := buildChannelNames_some fuel channelMask realChannelCount
      outputChannelCount names hnames
    subst hs2
    subst hform
    refine ⟨maskBits_mem channelMask, maskBits_sorted channelMask,
      poolNames_length channelMask _, ?_, ?_, poolNames_nodup channelMask _, rfl, rfl, rfl⟩
    · intro k i hk
      have hlt : k < (maskBits channelMask).length := (List.getElem?_eq_some.mp hk).1
      have hi : i < 31 := ((maskBits_mem channelMask i).mp (List.mem_iff_getElem?.mpr ⟨k, hk⟩)).1
      simp only []
      rw [poolNames_getElem?, if_pos hlt, hk, Option.map_some', laneName_table i _ hi]
    · intro k hk hkb
      simp only []
      rw [poolNames_getElem?, if_neg (by omega), if_pos hkb]

theorem loadChannelNames_spec_witness :
    max 8 8 < 2 ^ 32 - 1 ∧ max 8 8 < 10 ∧
    ∃ s2, loadChannelNames 10 0x63F 8 8 stereoState = some s2 ∧
      s2.allChannelNames = ["L", "R", "C", "SUB", "RL", "RR", "SL", "SR"] ∧
      (∀ i, i ∈ maskBits 0x63F ↔ i < 31 ∧ 0x63F &&& (1 <<< i) ≠ 0) ∧
      (maskBits 0x63F).Pairwise (fun a b => a < b) ∧
      s2.allChannelNames.length = max (maskBits 0x63F).length (max 8 8) ∧
      (∀ (k i : Nat), (maskBits 0x63F)[k]? = some i →
        s2.allChannelNames[k]? = some
          (if i = 0 then "L" else if i = 1 then "R" else if i = 2 then "C"
            else if i = 3 then "SUB" else if i = 4 then "RL" else if i = 5 then "RR"
            else if i = 8 then "RC" else if i = 9 then "SL" else if i = 10 then "SR"
            else to_wstring (k + 1))) ∧
      (∀ k : Nat, (maskBits 0x63F).length ≤ k → k < max 8 8 →
        s2.allChannelNames[k]? = some (to_wstring (k + 1))) ∧
      s2.allChannelNames.Nodup ∧
      s2.currentChannelNames = s2.allChannelNames ∧
      s2.lastChannelNames = [] ∧ s2.lastNewChannelNames = [] :=
  ⟨by decide, by decide, _, rfl, by decide,
    (loadChannelNames_spec 10 0x63F 8 8 stereoState).2 _ rfl⟩

/-- The pool names of the 7.1 mask `0x63F` with eight channels, and of the stereo mask with
four channels. -/
theorem buildChannelNames_examples :
    buildChannelNames 10 0x63F 8 8 = some ["L", "R", "C", "SUB", "RL", "RR", "SL", "SR"] ∧
    buildChannelNames 10 0x3 2 4 = some ["L", "R", "3", "4"] := by
  decide

/-- C13 fails as stated: with only bit 6 set the single lane is named `1`, which is none of
the nine symbolic names, and with only bit 9 set the single lane is named `SL`, which is
not a number. -/
theorem channel_bits_not_zero_to_eight :
    (0x40 : Nat) = 1 <<< 6 ∧ buildChannelNames 2 0x40 1 1 = some ["1"] ∧
    "1" ∉ symbolicNames ∧
    (0x200 : Nat) = 1 <<< 9 ∧ buildChannelNames 2 0x200 1 1 = some ["SL"] ∧
    "SL" ∈ symbolicNames ∧ "SL" ≠ to_wstring 1 := by
  decide

/-- C13, amended: for every `channelMask` and every set bit `i` among bits 0 to 30, the lane
of the bit (at the position of `i` among the set bits in ascending order) is named `L`, `R`,
`C`, `SUB`, `RL`, `RR` for bits 0 to 5, `RC`, `SL`, `SR` for bits 8, 9, 10, and carries the
decimal string of its 1-based lane index for every other bit (6, 7 and 11 to 30). -/
theorem channel_bit_names (fuel channelMask realChannelCount outputChannelCount : Nat)
    (hbound : max realChannelCount outputChannelCount < 2 ^ 32 - 1)
    (hfuel : max realChannelCount outputChannelCount < fuel)
    (i : Nat) (hi : i < 31) (hset : channelMask &&& (1 <<< i) ≠ 0) :
    ∃ names, buildChannelNames fuel channelMask realChannelCount outputChannelCount =
        some names ∧
      (maskBits channelMask)[(maskBits channelMask).indexOf i]? = some i ∧
      names[(maskBits channelMask).indexOf i]? = some
        (if i = 0 then "L" else if i = 1 then "R" else if i = 2 then "C"
          else if i = 3 then "SUB" else if i = 4 then "RL" else if i = 5 then "RR"
          else if i = 8 then "RC" else if i = 9 then "SL" else if i = 10 then "SR"
          else to_wstring ((maskBits channelMask).indexOf i + 1)) := by
  have hmem : i ∈ maskBits channelMask := (maskBits_mem channelMask i).mpr ⟨hi, hset⟩
  have hidx : (maskBits channelMask)[(maskBits channelMask).indexOf i]? = some i := by
    rw [← List.get?_eq_getElem?]
    exact List.indexOf_get? hmem
  have hlt : (maskBits channelMask).indexOf i < (maskBits channelMask).length :=
    List.indexOf_lt_length.mpr hmem
  refine ⟨_, buildChannelNames_eq fuel channelMask realChannelCount outputChannelCount hbound
    hfuel, hidx, ?_⟩
  rw [poolNames_getElem?, if_pos hlt, hidx, Option.map_some', laneName_table i _ hi]

theorem channel_bit_names_witness :
    max 2 2 < 2 ^ 32 - 1 ∧ max 2 2 < 3 ∧ 9 < 31 ∧ 0x603 &&& (1 <<< 9) ≠ 0 ∧
    ∃ names, buildChannelNames 3 0x603 2 2 = some names ∧
      (maskBits 0x603)[(maskBits 0x603).indexOf 9]? = some 9 ∧
      names[(maskBits 0x603).indexOf 9]? = some
        (if 9 = 0 then "L" else if 9 = 1 then "R" else if 9 = 2 then "C"
          else if 9 = 3 then "SUB" else if 9 = 4 then "RL" else if 9 = 5 then "RR"
          else if 9 = 8 then "RC" else if 9 = 9 then "SL" else if 9 = 10 then "SR"
          else to_wstring ((maskBits 0x603).indexOf 9 + 1)) :=
  ⟨by decide, by decide, by decide, by decide,
    channel_bit_names 3 0x603 2 2 (by decide) (by decide) 9 (by decide) (by decide)⟩

/-! ## Theorems: the dispatch of a line to the factories -/

/-- The three ways one round of the loop of lines 376-397 can go. -/
theorem dispatchLine_cons {V σ : Type} (ops : FactoryOps V σ) (path : String)
    (factory : FactoryKind) (rest : List FactoryKind) (w : LoadState V σ) (key value : String) :
    (((ops.createFilter factory w path key value).key = "" ∧
        dispatchLine ops path (factory :: rest) w key value =
          ((ops.createFilter factory w path key value).state,
            [{ factory := factory, state := w, key := key, value := value,
               result := ops.createFilter factory w path key value }])) ∨
      ((ops.createFilter factory w path key value).key ≠ "" ∧
        ((ops.createFilter factory w path key value).newFilters.getD []).isEmpty = false ∧
        dispatchLine ops path (factory :: rest) w key value =
          ({ (ops.createFilter factory w path key value).state with
              routing := addFilters (ops.createFilter factory w path key value).state.routing
                ((ops.createFilter factory w path key value).newFilters.getD []) },
            [{ factory := factory, state := w, key := key, value := value,
               result := ops.createFilter factory w path key value }])) ∨
      ((ops.createFilter factory w path key value).key ≠ "" ∧
        ((ops.createFilter factory w path key value).newFilters.getD []).isEmpty = true ∧
        dispatchLine ops path (factory :: rest) w key value =
          ((dispatchLine ops path rest (ops.createFilter factory w path key value).state
              (ops.createFilter factory w path key value).key
              (ops.createFilter factory w path key value).value).1,
            { factory := factory, state := w, key := key, value := value,
              result := ops.createFilter factory w path key value } ::
            (dispatchLine ops path rest (ops.createFilter factory w path key value).state
              (ops.createFilter factory w path key value).key
              (ops.createFilter factory w path key value).value).2))) := by
  by_cases hk : (ops.createFilter factory w path key value).key = ""
  · left
    exact ⟨hk, by simp [dispatchLine, hk]⟩
  · right
    cases hf : ((ops.createFilter factory w path key value).newFilters.getD []).isEmpty with
    | false =>
      left
      exact ⟨hk, rfl, by simp [dispatchLine, hk, hf]⟩
    | true =>
      right
      exact ⟨hk, rfl, by simp [dispatchLine, hk, hf]⟩

/-- The factories called for a line are an initial segment of the given factories, and at
least one is called when there is one. -/
theorem dispatchLine_factories {V σ : Type} (ops : FactoryOps V σ) (path : String)
    (fs : List FactoryKind) (w : LoadState V σ) (key value : String) :
    ∃ n, n ≤ fs.length ∧ (fs ≠ [] → 0 < n) ∧
      (dispatchLine ops path fs w key value).2.map (fun call => call.factory) = fs.take n := by
  induction fs generalizing w key value with
  | nil => exact ⟨0, Nat.le_refl _, fun h => absurd rfl h, rfl⟩
  | cons factory rest ih =>
    rcases dispatchLine_cons ops path factory rest w key value with
      ⟨-, h⟩ | ⟨-, -, h⟩ | ⟨-, -, h⟩
    · exact ⟨1, by simp, fun _ => Nat.one_pos, by rw [h]; simp⟩
    · exact ⟨1, by simp, fun _ => Nat.one_pos, by rw [h]; simp⟩
    · obtain ⟨n, hn, -, hcalls⟩ := ih (ops.createFilter factory w path key value).state
        (ops.createFilter factory w path key value).key
        (ops.createFilter factory w path key value).value
      refine ⟨n + 1, by simpa using hn, fun _ => Nat.succ_pos n, ?_⟩
      rw [h]
      simp [hcalls]

/-- Every recorded call is the call the loop made. -/
theorem dispatchLine_calls {V σ : Type} (ops : FactoryOps V σ) (path : String)
    (fs : List FactoryKind) (w : LoadState V σ) (key value : String) :
    ∀ call ∈ (dispatchLine ops path fs w key value).2,
      call.result = ops.createFilter call.factory call.state path call.key call.value := by
  induction fs generalizing w key value with
  | nil => intro call hcall; simp [dispatchLine] at hcall
  | cons factory rest ih =>
    intro call hcall
    rcases dispatchLine_cons ops path factory rest w key value with
      ⟨-, h⟩ | ⟨-, -, h⟩ | ⟨-, -, h⟩
    · rw [h] at hcall
      simp only [List.mem_singleton] at hcall
      rw [hcall]
    · rw [h] at hcall
      simp only [List.mem_singleton] at hcall
      rw [hcall]
    · rw [h] at hcall
      simp only [List.mem_cons] at hcall
      rcases hcall with hcall | hcall
      · rw [hcall]
      · exact ih _ _ _ call hcall

/-- The first call is made on the state, key and value the loop starts with. -/
theorem dispatchLine_head {V σ : Type} (ops : FactoryOps V σ) (path : String)
    (fs : List FactoryKind) (w : LoadState V σ) (key value : String) :
    ∀ call ∈ (dispatchLine ops path fs w key value).2.head?,
      call.state = w ∧ call.key = key ∧ call.value = value := by
  cases fs with
  | nil => intro call hcall; simp [dispatchLine] at hcall
  | cons factory rest =>
    intro call hcall
    rcases dispatchLine_cons ops path factory rest w key value with
      ⟨-, h⟩ | ⟨-, -, h⟩ | ⟨-, -, h⟩ <;>
    · rw [h] at hcall
      simp only [List.head?_cons, Option.mem_def, Option.some.injEq] at hcall
      rw [← hcall]
      exact ⟨rfl, rfl, rfl⟩

/-- Each later call is made on the state, key and value left by the call before it, which
left a non-empty key and returned no filter. -/
theorem dispatchLine_chain {V σ : Type} (ops : FactoryOps V σ) (path : String)
    (fs : List FactoryKind) (w : LoadState V σ) (key value : String) :
    (dispatchLine ops path fs w key value).2.Chain' (fun a b =>
      b.state = a.result.state ∧ b.key = a.result.key ∧ b.value = a.result.value ∧
        a.result.key ≠ "" ∧ (a.result.newFilters.getD []).isEmpty = true) := by
  induction fs generalizing w key value with
  | nil => simp [dispatchLine]
  | cons factory rest ih =>
    rcases dispatchLine_cons ops path factory rest w key value with
      ⟨-, h⟩ | ⟨-, -, h⟩ | ⟨hk, hf, h⟩
    · rw [h]; exact List.chain'_singleton _
    · rw [h]; exact List.chain'_singleton _
    · rw [h, List.chain'_cons']
      refine ⟨fun call hcall => ?_, ih _ _ _⟩
      obtain ⟨h1, h2, h3⟩ := dispatchLine_head ops path rest _ _ _ call hcall
      exact ⟨h1, h2, h3, hk, hf⟩

/-- The state after the line, from the last call made: its filters are appended when it left
the key non-empty and returned some; and the loop stops before the last factory only after
a call that cleared the key or returned filters. -/
theorem dispatchLine_last {V σ : Type} (ops : FactoryOps V σ) (path : String)
    (fs : List FactoryKind) (w : LoadState V σ) (key value : String) :
    (fs = [] → dispatchLine ops path fs w key value = (w, [])) ∧
    (fs ≠ [] → ∃ call, (dispatchLine ops path fs w key value).2.getLast? = some call ∧
      ((dispatchLine ops path fs w key value).2.length < fs.length →
        call.result.key = "" ∨ (call.result.newFilters.getD []).isEmpty = false) ∧
      (dispatchLine ops path fs w key value).1 =
        if call.result.key ≠ "" ∧ (call.result.newFilters.getD []).isEmpty = false then
          { call.result.state with
            routing := addFilters call.result.state.routing (call.result.newFilters.getD []) }
        else call.result.state) := by
  refine ⟨fun h => by rw [h]; rfl, ?_⟩
  induction fs generalizing w key value with
  | nil => intro h; exact absurd rfl h
  | cons factory rest ih =>
    intro _
    rcases dispatchLine_cons ops path factory rest w key value with
      ⟨hk, h⟩ | ⟨hk, hf, h⟩ | ⟨hk, hf, h⟩
    · rw [h]
      exact ⟨_, rfl, fun _ => Or.inl hk, by simp [hk]⟩
    · rw [h]
      exact ⟨_, rfl, fun _ => Or.inr hf, by simp [hk, hf]⟩
    · rw [h]
      cases rest with
      | nil =>
        refine ⟨_, rfl, fun hlt => ?_, ?_⟩
        · simp [dispatchLine] at hlt
        · simp [dispatchLine, hk, hf]
      | cons factory2 rest2 =>
        obtain ⟨call, hlast, hstop, hstate⟩ := ih (ops.createFilter factory w path key value).state
          (ops.createFilter factory w path key value).key
          (ops.createFilter factory w path key value).value (by simp)
        refine ⟨call, ?_, fun hlt => hstop ?_, hstate⟩
        · rw [List.getLast?_cons, hlast]
          rfl
        · simpa using hlt

theorem dispatchLine_consults {V σ : Type} (ops : FactoryOps V σ) (path : String)
    (fs : List FactoryKind) (w : LoadState V σ) (key value : String) :
    ConsultsInOrder ops path fs w key value (dispatchLine ops path fs w key value) :=
  ⟨dispatchLine_factories ops path fs w key value, dispatchLine_calls ops path fs w key value,
    dispatchLine_head ops path fs w key value, dispatchLine_chain ops path fs w key value,
    (dispatchLine_last ops path fs w key value).2⟩

/-- For factories that leave the key and value of the line alone, the loop is the dispatch
that the claim describes. -/
theorem dispatchLine_eq_spec {V σ : Type} (ops : FactoryOps V σ) (path : String)
    (fs : List FactoryKind) (w : LoadState V σ) (key value : String) (hkey : key ≠ "")
    (hkeep : ∀ factory w2, (ops.createFilter factory w2 path key value).key = key ∧
      (ops.createFilter factory w2 path key value).value = value) :
    dispatchLine ops path fs w key value = dispatchLineSpec ops path key value fs w := by
  induction fs generalizing w with
  | nil => rfl
  | cons factory rest ih =>
    obtain ⟨hk, hv⟩ := hkeep factory w
    have hk2 : (ops.createFilter factory w path key value).key ≠ "" := by rw [hk]; exact hkey
    rcases dispatchLine_cons ops path factory rest w key value with
      ⟨hk3, -⟩ | ⟨-, hf, h⟩ | ⟨-, hf, h⟩
    · exact absurd hk3 hk2
    · rw [h]
      simp [dispatchLineSpec, hf]
    · rw [h, hk, hv, ih]
      simp [dispatchLineSpec, hf]

/-- A key that no factory knows: every factory is called and the state is as before. -/
theorem dispatchLine_unknown {V σ : Type} (ops : FactoryOps V σ) (path : String)
    (fs : List FactoryKind) (w : LoadState V σ) (key value : String) (hkey : key ≠ "")
    (hunknown : ∀ factory w2, (ops.createFilter factory w2 path key value).state = w2 ∧
      (ops.createFilter factory w2 path key value).key = key ∧
      (ops.createFilter factory w2 path key value).value = value ∧
      ((ops.createFilter factory w2 path key value).newFilters.getD []).isEmpty = true) :
    (dispatchLine ops path fs w key value).1 = w ∧
      (dispatchLine ops path fs w key value).2.map (fun call => call.factory) = fs := by
  induction fs generalizing w with
  | nil => exact ⟨rfl, rfl⟩
  | cons factory rest ih =>
    obtain ⟨hs, hk, hv, hf⟩ := hunknown factory w
    have hk2 : (ops.createFilter factory w path key value).key ≠ "" := by rw [hk]; exact hkey
    rcases dispatchLine_cons ops path factory rest w key value with
      ⟨hk3, -⟩ | ⟨-, hf2, -⟩ | ⟨-, -, h⟩
    · exact absurd hk3 hk2
    · rw [hf] at hf2
      cases hf2
    · rw [h, hs, hk, hv]
      obtain ⟨h1, h2⟩ := ih w
      exact ⟨h1, by simp [h2]⟩

/-- A line with a colon is its text before the first colon, the colon and the text after
it. -/
theorem line_split (line : List Char) (hcolon : ':' ∈ line) :
    line = keyText line ++ ':' :: valueText line ∧ ':' ∉ keyText line := by
  induction line with
  | nil => simp at hcolon
  | cons ch rest ih =>
    by_cases hch : ch = ':'
    · subst hch
      simp [keyText, valueText]
    · have hrest : ':' ∈ rest := by
        rcases List.mem_cons.mp hcolon with h | h
        · exact absurd h.symm hch
        · exact h
      obtain ⟨h1, h2⟩ := ih hrest
      have hne : (ch != ':') = true := by simpa using hch
      simp only [keyText, valueText] at h1 h2 ⊢
      simp only [List.takeWhile_cons, List.dropWhile_cons, hne, if_true, List.cons_append,
        List.mem_cons, not_or]
      exact ⟨congrArg (List.cons ch) h1, fun h => hch h.symm, h2⟩

/-- C14 fails as stated: the line `Preamp: -6 dB` has a colon and the non-empty key `Preamp`,
and the `Preamp` factory of `gatedOps` returns a filter for this key and value. The `Device`
factory, called first, clears the key, so the loop stops at line 391 after this one call:
no other factory is consulted and nothing is appended, whereas the dispatch the claim
describes consults the factories up to `Preamp` and appends its filter. -/
theorem dispatch_key_cleared :
    ':' ∈ stripCarriageReturn "Preamp: -6 dB".data ∧
    trimBlanks (String.mk (keyText (stripCarriageReturn "Preamp: -6 dB".data))) = "Preamp" ∧
    String.mk (valueText (stripCarriageReturn "Preamp: -6 dB".data)) = " -6 dB" ∧
    (loadLine gatedOps trimBlanks "config.txt" plainLoadState
      "Preamp: -6 dB").routing.filterInfos.length = 0 ∧
    (dispatchLine gatedOps "config.txt" factories plainLoadState "Preamp" " -6 dB").2.map
      (fun call => call.factory) = [FactoryKind.Device] ∧
    ((gatedOps.createFilter FactoryKind.Preamp plainLoadState "config.txt" "Preamp"
      " -6 dB").newFilters.getD []).length = 1 ∧
    (dispatchLineSpec gatedOps "config.txt" "Preamp" " -6 dB" factories
      plainLoadState).1.routing.filterInfos.length = 1 ∧
    (dispatchLineSpec gatedOps "config.txt" "Preamp" " -6 dB" factories plainLoadState).2.map
      (fun call => call.factory) =
        [FactoryKind.Device, FactoryKind.If, FactoryKind.Expression, FactoryKind.Include,
          FactoryKind.Stage, FactoryKind.Channel, FactoryKind.IIR, FactoryKind.BiQuad,
          FactoryKind.Preamp] := by
  decide

/-- C14, amended: for every line that contains a colon and whose trimmed key is non-empty,
with `key` the trimmed text before the first colon and `value` the text after it, the line is
handled by the loop over the registered factories (Device, If, Expression, Include, Stage,
Channel, IIR, BiQuad, Preamp, Delay, Copy), which consults them in that order as
`ConsultsInOrder` says: the first with `key` and `value`, each later one with the key and
value the call before it left, stopping after the first call that leaves the key empty or
returns filters, whose filters are appended only if the key is still non-empty. When no
factory rewrites key or value this is the dispatch of the claim (`dispatchLineSpec`), and for
a key that every factory ignores all factories are consulted, nothing is appended and the
state is unchanged. -/
theorem loadLine_dispatch {V σ : Type} (ops : FactoryOps V σ) (trim : String → String)
    (path : String) (w : LoadState V σ) (encodedLine : String)
    (hcolon : ':' ∈ stripCarriageReturn encodedLine.data)
    (hkey : trim (String.mk (keyText (stripCarriageReturn encodedLine.data))) ≠ "") :
    ∃ line key value d,
      line = stripCarriageReturn encodedLine.data ∧
      line = keyText line ++ ':' :: valueText line ∧ ':' ∉ keyText line ∧
      key = trim (String.mk (keyText line)) ∧ value = String.mk (valueText line) ∧
      factories =
        [FactoryKind.Device, FactoryKind.If, FactoryKind.Expression, FactoryKind.Include,
          FactoryKind.Stage, FactoryKind.Channel, FactoryKind.IIR, FactoryKind.BiQuad,
          FactoryKind.Preamp, FactoryKind.Delay, FactoryKind.Copy] ∧
      d = dispatchLine ops path factories w key value ∧
      loadLine ops trim path w encodedLine = d.1 ∧
      ConsultsInOrder ops path factories w key value d ∧
      ((∀ factory w2, (ops.createFilter factory w2 path key value).key = key ∧
          (ops.createFilter factory w2 path key value).value = value) →
        d = dispatchLineSpec ops path key value factories w) ∧
      ((∀ factory w2, (ops.createFilter factory w2 path key value).state = w2 ∧
          (ops.createFilter factory w2 path key value).key = key ∧
          (ops.createFilter factory w2 path key value).value = value ∧
          ((ops.createFilter factory w2 path key value).newFilters.getD []).isEmpty = true) →
        d.1 = w ∧ d.2.map (fun call => call.factory) = factories) := by
  obtain ⟨hsplit, hnot⟩ := line_split (stripCarriageReturn encodedLine.data) hcolon
  refine ⟨stripCarriageReturn encodedLine.data, _, _, _, rfl, hsplit, hnot, rfl, rfl, rfl, rfl,
    ?_, dispatchLine_consults ops path factories w _ _, ?_, ?_⟩
  · simp only [loadLine, hcolon, if_true]
  · exact fun hkeep => dispatchLine_eq_spec ops path factories w _ _ hkey hkeep
  · exact fun hunknown => dispatchLine_unknown ops path factories w _ _ hkey hunknown

theorem loadLine_dispatch_witness :
    ':' ∈ stripCarriageReturn "Preamp: -6 dB".data ∧
    trimBlanks (String.mk (keyText (stripCarriageReturn "Preamp: -6 dB".data))) ≠ "" ∧
    ∃ line key value d,
      line = stripCarriageReturn "Preamp: -6 dB".data ∧
      line = keyText line ++ ':' :: valueText line ∧ ':' ∉ keyText line ∧
      key = trimBlanks (String.mk (keyText line)) ∧ value = String.mk (valueText line) ∧
      factories =
        [FactoryKind.Device, FactoryKind.If, FactoryKind.Expression, FactoryKind.Include,
          FactoryKind.Stage, FactoryKind.Channel, FactoryKind.IIR, FactoryKind.BiQuad,
          FactoryKind.Preamp, FactoryKind.Delay, FactoryKind.Copy] ∧
      d = dispatchLine plainOps "config.txt" factories plainLoadState key value ∧
      loadLine plainOps trimBlanks "config.txt" plainLoadState "Preamp: -6 dB" = d.1 ∧
      ConsultsInOrder plainOps "config.txt" factories plainLoadState key value d ∧
      ((∀ factory w2, (plainOps.createFilter factory w2 "config.txt" key value).key = key ∧
          (plainOps.createFilter factory w2 "config.txt" key value).value = value) →
        d = dispatchLineSpec plainOps "config.txt" key value factories plainLoadState) ∧
      ((∀ factory w2, (plainOps.createFilter factory w2 "config.txt" key value).state = w2 ∧
          (plainOps.createFilter factory w2 "config.txt" key value).key = key ∧
          (plainOps.createFilter factory w2 "config.txt" key value).value = value ∧
          ((plainOps.createFilter factory w2 "config.txt" key value).newFilters.getD
            []).isEmpty = true) →
        d.1 = plainLoadState ∧ d.2.map (fun call => call.factory) = factories) :=
  ⟨by decide, by decide,
    loadLine_dispatch plainOps trimBlanks "config.txt" plainLoadState "Preamp: -6 dB"
      (by decide) (by decide)⟩

/-- The line `Preamp: -6 dB` with factories that leave the key alone: the factories up to
`Preamp` are consulted and its filter is appended. -/
theorem loadLine_plain_example :
    (loadLine plainOps trimBlanks "config.txt" plainLoadState
      "Preamp: -6 dB").routing.filterInfos.length = 1 ∧
    (dispatchLine plainOps "config.txt" factories plainLoadState "Preamp" " -6 dB").2.map
      (fun call => call.factory) =
        [FactoryKind.Device, FactoryKind.If, FactoryKind.Expression, FactoryKind.Include,
          FactoryKind.Stage, FactoryKind.Channel, FactoryKind.IIR, FactoryKind.BiQuad,
          FactoryKind.Preamp] := by
  decide

/-! ## Theorems: compile determinism -/

theorem SameRouting.refl (s : CompileState) : SameRouting s s :=
  ⟨rfl, rfl, rfl, rfl, rfl, rfl, rfl, Or.inl rfl⟩

/-- While `lastNewChannelNames` is empty the reuse test of line 536 makes no difference: it
can only succeed for a filter without output names, whose `outChannels` is empty anyway. -/
theorem outChannelsOf_of_nil (s : CompileState) (f : IFilter)
    (h : s.lastNewChannelNames = []) :
    outChannelsOf s f = mapOutChannels s.allChannelNames (newChannelNamesOf s f) := by
  unfold outChannelsOf
  by_cases hre : reusesOutputs s f = true
  · have hN : newChannelNamesOf s f = [] := by
      simp only [reusesOutputs, Bool.and_eq_true, decide_eq_true_eq] at hre
      rw [← hre.2, h]
    rw [if_pos hre, hN]
    rfl
  · rw [if_neg hre]

/-- One filter appended to two related routing states gives the same state: the stale
`lastInPlace` has no effect. -/
theorem addFilter_same (s1 s2 : CompileState) (f : IFilter) (h : SameRouting s1 s2) :
    addFilter s1 f = addFilter s2 f := by
  obtain ⟨h1, h2, h3, h4, h5, h6, h7, h8⟩ := h
  have hin : effectiveInputs s1 f = effectiveInputs s2 f := by
    simp only [effectiveInputs, h3, h4]
  have hnew : newChannelNamesOf s1 f = newChannelNamesOf s2 f := by
    simp only [newChannelNamesOf, h1, h2, hin]
  have hout : outChannelsOf s1 f = outChannelsOf s2 f := by
    rcases h8 with h8 | h8
    · simp only [outChannelsOf, reusesOutputs, h8, h6, hnew, h3]
    · rw [outChannelsOf_of_nil s1 f h8, outChannelsOf_of_nil s2 f (h6 ▸ h8), h3, hnew]
  have hinc : inChannelsOf s1 f = inChannelsOf s2 f := by
    simp only [inChannelsOf, h5, hin, h3]
  rw [addFilter_fields, addFilter_fields]
  simp only [emitInfo, h1, h2, h4, h7, hin, hnew, hout, hinc]

theorem addFilters_same (fs : List IFilter) (s1 s2 : CompileState) (h : SameRouting s1 s2) :
    SameRouting (addFilters s1 fs) (addFilters s2 fs) := by
  cases fs with
  | nil => exact h
  | cons f fs =>
    rw [addFilters_cons, addFilters_cons, addFilter_same s1 s2 f h]
    exact SameRouting.refl _

theorem addNewFilters_same {V σ : Type} (w1 w2 : LoadState V σ) (fs : List IFilter)
    (h : SameLoadState w1 w2) : SameLoadState (addNewFilters w1 fs) (addNewFilters w2 fs) := by
  unfold addNewFilters
  split
  · exact h
  · exact ⟨addFilters_same fs _ _ h.1, h.2.1, h.2.2.1, h.2.2.2⟩

theorem runHooks_same {V σ : Type}
    (hook : FactoryKind → LoadState V σ → LoadState V σ × List IFilter)
    (hhook : ∀ factory w1 w2, SameLoadState w1 w2 →
      SameLoadState (hook factory w1).1 (hook factory w2).1 ∧
        (hook factory w1).2 = (hook factory w2).2)
    (w1 w2 : LoadState V σ) (h : SameLoadState w1 w2) :
    SameLoadState (runHooks hook w1) (runHooks hook w2) := by
  unfold runHooks
  generalize factories = fs
  induction fs generalizing w1 w2 with
  | nil => exact h
  | cons factory rest ih =>
    simp only [List.foldl_cons]
    apply ih
    obtain ⟨hs, hf⟩ := hhook factory w1 w2 h
    rw [hf]
    exact addNewFilters_same _ _ _ hs

theorem dispatchLine_same {V σ : Type} (ops : FactoryOps V σ) (hdet : ops.Deterministic)
    (path : String) (fs : List FactoryKind) (w1 w2 : LoadState V σ) (key value : String)
    (h : SameLoadState w1 w2) :
    SameLoadState (dispatchLine ops path fs w1 key value).1
      (dispatchLine ops path fs w2 key value).1 := by
  induction fs generalizing w1 w2 key value with
  | nil => exact h
  | cons factory rest ih =>
    obtain ⟨hs, hk, hv, hf⟩ := hdet.createFilter factory w1 w2 path key value h
    rcases dispatchLine_cons ops path factory rest w1 key value with
      ⟨hk1, e1⟩ | ⟨hk1, hf1, e1⟩ | ⟨hk1, hf1, e1⟩ <;>
    rcases dispatchLine_cons ops path factory rest w2 key value with
      ⟨hk2, e2⟩ | ⟨hk2, hf2, e2⟩ | ⟨hk2, hf2, e2⟩
    · rw [e1, e2]; exact hs
    · exact absurd (hk ▸ hk1) hk2
    · exact absurd (hk ▸ hk1) hk2
    · exact absurd (hk ▸ hk2) hk1
    · rw [e1, e2, hf]
      exact ⟨addFilters_same _ _ _ hs.1, hs.2.1, hs.2.2.1, hs.2.2.2⟩
    · rw [hf, hf2] at hf1
      cases hf1
    · exact absurd (hk ▸ hk2) hk1
    · rw [hf, hf2] at hf1
      cases hf1
    · rw [e1, e2, hk, hv]
      exact ih _ _ _ _ hs

theorem loadLine_same {V σ : Type} (ops : FactoryOps V σ) (hdet : ops.Deterministic)
    (trim : String → String) (path : String) (w1 w2 : LoadState V σ) (encodedLine : String)
    (h : SameLoadState w1 w2) :
    SameLoadState (loadLine ops trim path w1 encodedLine)
      (loadLine ops trim path w2 encodedLine) := by
  unfold loadLine
  simp only []
  split
  · exact dispatchLine_same ops hdet path factories w1 w2 _ _ h
  · exact h

theorem loadConfigFile_same {V σ : Type} (ops : FactoryOps V σ) (hdet : ops.Deterministic)
    (trim : String → String) (path : String) (content : Option (List String))
    (w1 w2 : LoadState V σ) (h : SameLoadState w1 w2) :
    SameLoadState (loadConfigFile ops trim path content w1)
      (loadConfigFile ops trim path content w2) := by
  cases content with
  | none => exact h
  | some lines =>
    have hstart := runHooks_same (fun factory w => ops.startOfFile factory w path)
      (fun factory a b hab => hdet.startOfFile factory a b path hab) w1 w2 h
    have hlines : ∀ (lines : List String) (a b : LoadState V σ), SameLoadState a b →
        SameLoadState (lines.foldl (loadLine ops trim path) a)
          (lines.foldl (loadLine ops trim path) b) := by
      intro lines
      induction lines with
      | nil => exact fun a b hab => hab
      | cons line rest ih =>
        intro a b hab
        exact ih _ _ (loadLine_same ops hdet trim path a b line hab)
    have hend := runHooks_same (fun factory w => ops.endOfFile factory w path)
      (fun factory a b hab => hdet.endOfFile factory a b path hab) _ _
      (hlines lines _ _ hstart)
    obtain ⟨⟨h1, h2, h3, -, h5, h6, h7, h8⟩, hw, hp, hf⟩ := hend
    exact ⟨⟨h1, h2, h3, h.1.2.2.2.1, h5, h6, h7, h8⟩, hw, hp, hf⟩

/-- The state a compilation leaves behind has an empty `filterInfos` (line 298). -/
theorem compileConfig_clears {V σ : Type} (ops : FactoryOps V σ) (trim : String → String)
    (fuel channelMask realChannelCount outputChannelCount : Nat) (configFile : String)
    (content : Option (List String)) (w : LoadState V σ)
    (r : (List FilterInfo × Nat) × LoadState V σ)
    (h : compileConfig ops trim fuel channelMask realChannelCount outputChannelCount configFile
      content w = some r) : r.2.routing.filterInfos = [] := by
  unfold compileConfig at h
  cases hn : loadChannelNames fuel channelMask realChannelCount outputChannelCount
      w.routing with
  | none => rw [hn] at h; cases h
  | some routing =>
    rw [hn] at h
    simp only [Option.some.injEq] at h
    rw [← h]

/-- C11: two runs of the compiling part of `loadConfig()` with the same config text,
channel mask, channel counts and deterministic factories, started from engine states that
agree on `sampleRate`, `maxFrameCount` and the state of the factories but are otherwise
arbitrary leftovers of earlier compilations (whatever `lastInPlace`, `lastChannelNames`,
`lastNewChannelNames`, `currentChannelNames`, `allChannelNames`, registry keys and parser
variables they hold, `filterInfos` being empty as line 298 leaves it), both return and hand
the new configuration the same list of `FilterInfo`, in particular the same `inChannels` and
`outChannels` index sequences, and the same pool size. -/
theorem compileConfig_deterministic {V σ : Type} (ops : FactoryOps V σ)
    (hdet : ops.Deterministic) (trim : String → String)
    (fuel channelMask realChannelCount outputChannelCount : Nat) (configFile : String)
    (content : Option (List String)) (w1 w2 : LoadState V σ)
    (hrate : w1.routing.sampleRate = w2.routing.sampleRate)
    (hframes : w1.routing.maxFrameCount = w2.routing.maxFrameCount)
    (hinfos1 : w1.routing.filterInfos = []) (hinfos2 : w2.routing.filterInfos = [])
    (hfactories : w1.factoryState = w2.factoryState)
    (hbound : max realChannelCount outputChannelCount < 2 ^ 32 - 1)
    (hfuel : max realChannelCount outputChannelCount < fuel) :
    ∃ r1 r2,
      compileConfig ops trim fuel channelMask realChannelCount outputChannelCount configFile
        content w1 = some r1 ∧
      compileConfig ops trim fuel channelMask realChannelCount outputChannelCount configFile
        content w2 = some r2 ∧
      r1.1.1.map (fun info => info.inChannels) = r2.1.1.map (fun info => info.inChannels) ∧
      r1.1.1.map (fun info => info.outChannels) = r2.1.1.map (fun info => info.outChannels) ∧
      r1.1 = r2.1 := by
  have hnames := buildChannelNames_eq fuel channelMask realChannelCount outputChannelCount
    hbound hfuel
  have hstart : SameLoadState
      ({ w1 with
          routing :=
            { w1.routing with
              allChannelNames := laneNames (maskBits channelMask) 1 ++
                (List.range' (1 + (maskBits channelMask).length)
                  (max realChannelCount outputChannelCount -
                    (maskBits channelMask).length)).map to_wstring
              currentChannelNames := laneNames (maskBits channelMask) 1 ++
                (List.range' (1 + (maskBits channelMask).length)
                  (max realChannelCount outputChannelCount -
                    (maskBits channelMask).length)).map to_wstring
              lastChannelNames := []
              lastNewChannelNames := [] }
          watchRegistryKeys := []
          parserVars := [] } : LoadState V σ)
      ({ w2 with
          routing :=
            { w2.routing with
              allChannelNames := laneNames (maskBits channelMask) 1 ++
                (List.range' (1 + (maskBits channelMask).length)
                  (max realChannelCount outputChannelCount -
                    (maskBits channelMask).length)).map to_wstring
              currentChannelNames := laneNames (maskBits channelMask) 1 ++
                (List.range' (1 + (maskBits channelMask).length)
                  (max realChannelCount outputChannelCount -
                    (maskBits channelMask).length)).map to_wstring
              lastChannelNames := []
              lastNewChannelNames := [] }
          watchRegistryKeys := []
          parserVars := [] } : LoadState V σ) :=
    ⟨⟨hrate, hframes, rfl, rfl, rfl, rfl, by rw [hinfos1, hinfos2], Or.inr rfl⟩, rfl, rfl,
      hfactories⟩
  have hend := runHooks_same ops.endOfConfiguration hdet.endOfConfiguration _ _
    (loadConfigFile_same ops hdet trim configFile content _ _
      (runHooks_same ops.startOfConfiguration hdet.startOfConfiguration _ _ hstart))
  unfold compileConfig loadChannelNames
  rw [hnames]
  simp only [Option.map_some']
  refine ⟨_, _, rfl, rfl, ?_, ?_, ?_⟩
  · simp only [hend.1.2.2.2.2.2.2.1]
  · simp only [hend.1.2.2.2.2.2.2.1]
  · simp only [hend.1.2.2.2.2.2.2.1, hend.1.2.2.1]

/-- The factories of `plainOps` ignore the state they are called on. -/
theorem plainOps_deterministic : plainOps.Deterministic where
  startOfConfiguration := fun _ _ _ h => ⟨h, rfl⟩
  startOfFile := fun _ _ _ _ h => ⟨h, rfl⟩
  createFilter := fun _ _ _ _ _ _ h => ⟨h, rfl, rfl, rfl⟩
  endOfFile := fun _ _ _ _ h => ⟨h, rfl⟩
  endOfConfiguration := fun _ _ _ h => ⟨h, rfl⟩

theorem compileConfig_deterministic_witness :
    plainOps.Deterministic ∧
    plainLoadState.routing.sampleRate = staleLoadState.routing.sampleRate ∧
    plainLoadState.routing.maxFrameCount = staleLoadState.routing.maxFrameCount ∧
    plainLoadState.routing.filterInfos = [] ∧ staleLoadState.routing.filterInfos = [] ∧
    plainLoadState.factoryState = staleLoadState.factoryState ∧
    max 2 2 < 2 ^ 32 - 1 ∧ max 2 2 < 3 ∧
    ∃ r1 r2,
      compileConfig plainOps trimBlanks 3 0x3 2 2 "config.txt"
        (some ["Preamp: -6 dB", "Preamp: -3 dB"]) plainLoadState = some r1 ∧
      compileConfig plainOps trimBlanks 3 0x3 2 2 "config.txt"
        (some ["Preamp: -6 dB", "Preamp: -3 dB"]) staleLoadState = some r2 ∧
      r1.1.1.map (fun info => info.inChannels) = r2.1.1.map (fun info => info.inChannels) ∧
      r1.1.1.map (fun info => info.outChannels) = r2.1.1.map (fun info => info.outChannels) ∧
      r1.1 = r2.1 :=
  ⟨plainOps_deterministic, rfl, rfl, rfl, rfl, rfl, by decide, by decide,
    compileConfig_deterministic plainOps plainOps_deterministic trimBlanks 3 0x3 2 2
      "config.txt" (some ["Preamp: -6 dB", "Preamp: -3 dB"]) plainLoadState staleLoadState
      rfl rfl rfl rfl rfl (by decide) (by decide)⟩

/-- The routing tables compiled for two `Preamp` lines on a stereo device, here from the
state with stale members: the second filter reuses both bindings of the first. -/
theorem compileConfig_stale_example :
    (compileConfig plainOps trimBlanks 3 0x3 2 2 "config.txt"
        (some ["Preamp: -6 dB", "Preamp: -3 dB"]) staleLoadState).map
      (fun r => (r.1.1.map (fun info => (info.inChannels, info.outChannels)), r.1.2)) =
      some ([([0, 1], [0, 1]), ([], [])], 2) := by
  decide

/-! ## Theorems: the transition scenario -/

/-- The part of `process` that runs the configurations, for configurations of constant
output: the heap is unchanged and the lanes handed to `write` are the constant of the current
configuration, mixed with the constant of the next one while a next one is pending. -/
theorem runGraphs_const (e : Engine ℝ) (current : Nat) (output : Option (Buffer ℝ))
    (input : Buffer ℝ) (frameCount : Nat) :
    runGraphs realOps constGraphOps e current output input frameCount =
      (promote { e with transitionCounter := counterAtEnd e frameCount },
        write
          (match e.nextConfig with
            | none => fun _ _ => e.heap current
            | some next => fun c f =>
              if f < frameCount ∧ c < e.outputChannelCount then
                mixSample (counterAfter e.transitionCounter f) e.transitionLength
                  (e.heap current) (e.heap next)
              else e.heap current)
          (output.getD input) frameCount e.outputChannelCount) := by
  unfold runGraphs counterAtEnd
  cases hn : e.nextConfig with
  | none =>
    simp only [constGraphOps, Function.update_eq_self]
    simp
  | some next =>
    simp only [constGraphOps, Function.update_eq_self, mixFrames_range]
    simp [realOps]

theorem inputSilent_dc (frameCount realChannelCount : Nat) (hf : 0 < frameCount)
    (hr : 0 < realChannelCount) (hsize : frameCount * realChannelCount < 2 ^ 32) :
    inputSilent realOps dcInput frameCount realChannelCount = false := by
  have hpos : 0 < frameCount * realChannelCount := Nat.mul_pos hf hr
  have hmem : 0 ∈ List.range (frameCount * realChannelCount % 2 ^ 32) := by
    rw [Nat.mod_eq_of_lt hsize]
    exact List.mem_range.mpr hpos
  by_contra hne
  have htrue : inputSilent realOps dcInput frameCount realChannelCount = true := by
    simpa using hne
  simp only [inputSilent, List.all_eq_true] at htrue
  have := htrue 0 hmem
  simp [realOps, dcInput] at this

theorem mixSample_end (k len : Nat) (a b : ℝ) (h : len ≤ k) : mixSample k len a b = b := by
  have hw : crossfadeFactor k len = 1 := by rw [crossfadeFactor_eq, if_pos h]
  unfold mixSample
  rw [hw]
  ring

theorem counterAfter_small (counter frames : Nat) (h : counter + frames ≤ 480) :
    counterAfter counter frames = counter + frames := by
  unfold counterAfter
  split
  · omega
  · exact Nat.mod_eq_of_lt (by omega)

theorem counterAtEnd_pending {G : Type} (e : Engine G) (frameCount next : Nat)
    (h : e.nextConfig = some next) :
    counterAtEnd e frameCount = counterAfter e.transitionCounter frameCount := by
  simp [counterAtEnd, h]

theorem counterAtEnd_idle {G : Type} (e : Engine G) (frameCount : Nat)
    (h : e.nextConfig = none) : counterAtEnd e frameCount = e.transitionCounter := by
  simp [counterAtEnd, h]

/-- The promotion step at the end of a callback of `frameCount` frames keeps the
invariant of the transition scenario. -/
theorem promote_transition (e0 e3 : Engine ℝ) (current next frames frameCount : Nat)
    (hrc : e3.realChannelCount = e0.realChannelCount)
    (hoc : e3.outputChannelCount = e0.outputChannelCount)
    (hlen : e3.transitionLength = 480) (hheap : e3.heap = e0.heap)
    (hbefore : frames < 480 →
      e3.currentConfig = some current ∧ e3.nextConfig = some next ∧
        e3.transitionCounter = counterAfter frames frameCount)
    (hat : frames = 480 → e3.currentConfig = some next ∧ e3.nextConfig = none)
    (hsome : ∃ p, e3.currentConfig = some p) :
    TransitionInv e0 (promote e3) current next (frames + frameCount) := by
  obtain ⟨f1, f2, -, f4, -, f6⟩ := promote_frame e3
  obtain ⟨p, hp⟩ := hsome
  refine ⟨f1.trans hrc, f2.trans hoc, f4.trans hlen, f6.trans hheap, ?_, ?_, ?_⟩
  · intro hlt
    obtain ⟨hc, hn, hk⟩ := hbefore (by omega)
    rw [counterAfter_small _ _ (by omega)] at hk
    rcases promote_cases e3 with ⟨nx, -, hge, -⟩ | ⟨-, hpro⟩
    · omega
    · rw [hpro]
      exact ⟨hc, hn, hk⟩
  · intro heq
    rcases promote_cases e3 with ⟨nx, hnx, -, hpro⟩ | ⟨hno, hpro⟩
    · rw [hpro]
      by_cases hlt : frames < 480
      · obtain ⟨-, hn, -⟩ := hbefore hlt
        rw [hn] at hnx
        exact ⟨by rw [← hnx], rfl⟩
      · obtain ⟨-, hn⟩ := hat (by omega)
        rw [hn] at hnx
        cases hnx
    · rw [hpro]
      by_cases hlt : frames < 480
      · obtain ⟨-, hn, hk⟩ := hbefore hlt
        rw [counterAfter_small _ _ (by omega)] at hk
        rcases hno with hno | hno
        · rw [hn] at hno
          cases hno
        · omega
      · exact hat (by omega)
  · rcases promote_cases e3 with ⟨nx, -, -, hpro⟩ | ⟨-, hpro⟩
    · rw [hpro]
      exact ⟨nx, rfl⟩
    · rw [hpro]
      exact ⟨p, hp⟩

/-- One callback of the transition scenario: it returns, keeps the invariant, and its output
at every frame up to transition frame 480 is the crossfade of the two constants at that
frame. -/
theorem transition_step (e0 e : Engine ℝ) (current next frames : Nat) (g : ℝ)
    (hone : e0.heap current = 1) (hg : e0.heap next = g) (hreal : 0 < e0.realChannelCount)
    (hinv : TransitionInv e0 e current next frames) (output : Option (Buffer ℝ))
    (frameCount : Nat) (hsize : frameCount * e0.realChannelCount < 2 ^ 32) :
    ∃ r, process realOps constGraphOps e output dcInput frameCount = some r ∧
      TransitionInv e0 r.1 current next (frames + frameCount) ∧
      ∀ f c, f < frameCount → c < e0.outputChannelCount → frames + f ≤ 480 →
        r.2 (f * e0.outputChannelCount + c) = mixSample (frames + f) 480 1 g := by
  obtain ⟨hrc, hoc, hlen, hheap, hbefore, hat, p, hp⟩ := hinv
  by_cases hs : inputSilent realOps dcInput frameCount e.realChannelCount = true ∧
      e.lastInputWasSilent = true
  · have h0 : frameCount = 0 := by
      by_contra hne
      have := inputSilent_dc frameCount e.realChannelCount (Nat.pos_of_ne_zero hne)
        (hrc ▸ hreal) (hrc ▸ hsize)
      rw [this] at hs
      exact absurd hs.1 (by simp)
    refine ⟨_, process_silent realOps constGraphOps e output dcInput frameCount hs.1 hs.2,
      ?_, ?_⟩
    · subst h0
      exact ⟨hrc, hoc, hlen, hheap, hbefore, hat, p, hp⟩
    · intro f c hf
      omega
  · have hrun : ¬ (constGraphOps.isEmpty (e.heap p) = true ∧ e.nextConfig = none ∧
        e.realChannelCount = e.outputChannelCount) := by
      simp [constGraphOps]
    refine ⟨_, process_run realOps constGraphOps e output dcInput frameCount p hs hp hrun,
      ?_, ?_⟩
    · rw [runGraphs_const]
      refine promote_transition e0 _ current next frames frameCount hrc hoc hlen hheap ?_ ?_
        ⟨p, hp⟩
      · intro hlt
        obtain ⟨hc, hn, hk⟩ := hbefore hlt
        refine ⟨hc, hn, (counterAtEnd_pending _ frameCount next ?_).trans ?_⟩
        · exact hn
        · show counterAfter e.transitionCounter frameCount = _
          rw [hk]
      · intro heq
        exact hat heq
    · intro f c hf hc hle
      rw [runGraphs_const]
      show write _ _ frameCount e.outputChannelCount (f * e0.outputChannelCount + c) = _
      rw [← hoc, write_sample _ _ _ _ f c hf (hoc ▸ hc)]
      by_cases hlt : frames < 480
      · obtain ⟨hcur, hn, hk⟩ := hbefore hlt
        have hpc : p = current := Option.some.inj (hp.symm.trans hcur)
        have hfc : f < frameCount ∧ c < e.outputChannelCount := ⟨hf, hoc ▸ hc⟩
        show (match e.nextConfig with
          | none => fun _ _ => e.heap p
          | some next => fun c f =>
            if f < frameCount ∧ c < e.outputChannelCount then
              mixSample (counterAfter e.transitionCounter f) e.transitionLength
                (e.heap p) (e.heap next)
            else e.heap p) c f = _
        rw [hn]
        simp only [hfc, and_self, if_true]
        rw [hk, hlen, hheap, hpc, hone, hg, counterAfter_small _ _ hle]
      · obtain ⟨hcur, hn⟩ := hat (by omega)
        have hpc : p = next := Option.some.inj (hp.symm.trans hcur)
        have hf0 : frames + f = 480 := by omega
        show (match e.nextConfig with
          | none => fun _ _ => e.heap p
          | some next => fun c f =>
            if f < frameCount ∧ c < e.outputChannelCount then
              mixSample (counterAfter e.transitionCounter f) e.transitionLength
                (e.heap p) (e.heap next)
            else e.heap p) c f = _
        rw [hn]
        simp only []
        rw [hheap, hpc, hg, hf0, mixSample_end 480 480 1 g (Nat.le_refl _)]

/-- The callbacks of the transition scenario all return, and the output of the stream at every
frame up to transition frame 480 is the crossfade of the two constants at that frame. -/
theorem transition_stream (e0 : Engine ℝ) (current next : Nat) (g : ℝ)
    (hone : e0.heap current = 1) (hg : e0.heap next = g) (hreal : 0 < e0.realChannelCount) :
    ∀ (calls : List (Option (Buffer ℝ) × Nat)) (e : Engine ℝ) (frames : Nat),
      TransitionInv e0 e current next frames →
      (∀ call ∈ calls, call.2 * e0.realChannelCount < 2 ^ 32) →
      ∃ outs, runCallbacks realOps constGraphOps dcInput e calls = some outs ∧
        ∀ k c, c < e0.outputChannelCount → frames + k ≤ 480 →
          k < (calls.map Prod.snd).sum →
          frameSample e0.outputChannelCount outs k c =
            some (mixSample (frames + k) 480 1 g) := by
  intro calls
  induction calls with
  | nil =>
    intro e frames _ _
    refine ⟨[], rfl, ?_⟩
    intro k c _ _ hk
    simp at hk
  | cons call rest ih =>
    intro e frames hinv hsize
    obtain ⟨r, hr, hinv2, hout⟩ := transition_step e0 e current next frames g hone hg hreal
      hinv call.1 call.2 (hsize call (List.mem_cons_self _ _))
    obtain ⟨outs, houts, hrest⟩ := ih r.1 (frames + call.2) hinv2
      (fun c hc => hsize c (List.mem_cons_of_mem _ hc))
    refine ⟨(r.2, call.2) :: outs, ?_, ?_⟩
    · obtain ⟨output, frameCount⟩ := call
      simp only [runCallbacks, hr, houts, Option.map_some']
    · intro k c hc hle hk
      simp only [frameSample]
      by_cases hlt : k < call.2
      · rw [if_pos hlt, hout k c hlt hc hle]
      · rw [if_neg hlt, hrest (k - call.2) c hc (by omega)
          (by simp only [List.map_cons, List.sum_cons] at hk; omega)]
        congr 2
        omega

theorem crossfadeFactor_mono (len j k : Nat) (hjk : j ≤ k) :
    crossfadeFactor j len ≤ crossfadeFactor k len := by
  by_cases hk : len ≤ k
  · have : crossfadeFactor k len = 1 := by rw [crossfadeFactor_eq, if_pos hk]
    rw [this]
    exact (crossfadeFactor_bounds j len).2
  · have hj : ¬ len ≤ j := by omega
    rw [crossfadeFactor_eq, crossfadeFactor_eq, if_neg hk, if_neg hj]
    have hlen : (0 : ℝ) < len := by
      have : 0 < len := by omega
      exact_mod_cast this
    have hcos : Real.cos (Real.pi * k / len) ≤ Real.cos (Real.pi * j / len) := by
      apply Real.cos_le_cos_of_nonneg_of_le_pi
      · positivity
      · rw [div_le_iff₀ hlen]
        have : (k : ℝ) ≤ len := by
          have : k ≤ len := by omega
          exact_mod_cast this
        nlinarith [Real.pi_pos]
      · apply div_le_div_of_nonneg_right _ hlen.le
        have : (j : ℝ) ≤ k := by exact_mod_cast hjk
        nlinarith [Real.pi_pos]
    linarith

/-- The crossfade from 1 to a constant `g ≤ 1` does not increase from frame to frame. -/
theorem mixSample_antitone (len j k : Nat) (g : ℝ) (hg : g ≤ 1) (hjk : j ≤ k) :
    mixSample k len 1 g ≤ mixSample j len 1 g := by
  have h := crossfadeFactor_mono len j k hjk
  unfold mixSample
  nlinarith

theorem mixSample_start (len : Nat) (a b : ℝ) (h : 0 < len) : mixSample 0 len a b = a := by
  have hw : crossfadeFactor 0 len = 0 := by
    rw [crossfadeFactor_eq, if_neg (by omega)]
    simp
  unfold mixSample
  rw [hw]
  ring

/-- C15: an engine at `sampleRate` 48000, so with `transitionLength` 480, starts a transition
(`transitionCounter` 0) from a configuration of constant output 1.0 to a pending one of
constant output `g = 10 ^ (-12 / 20)` and is fed the constant input 1.0. For every list of
callbacks (any output buffers, any frame counts whose sample count fits in an `unsigned`),
every callback returns, and on every output channel the stream's output equals 1.0 at
transition frame 0, equals `g` at transition frame 480, and does not increase from frame to
frame over the frames 0 to 480 (for the frames the stream reaches). -/
theorem transition_scenario (e : Engine ℝ) (current next : Nat)
    (calls : List (Option (Buffer ℝ) × Nat))
    (hrate : e.sampleRate = 48000)
    (hlen : e.transitionLength = truncToUnsigned (e.sampleRate / 100))
    (hcounter : e.transitionCounter = 0)
    (hcur : e.currentConfig = some current) (hnext : e.nextConfig = some next)
    (hone : e.heap current = 1) (hg : e.heap next = (10 : ℝ) ^ (-(12 : ℝ) / 20))
    (hreal : 0 < e.realChannelCount)
    (hsize : ∀ call ∈ calls, call.2 * e.realChannelCount < 2 ^ 32) :
    e.transitionLength = 480 ∧
    ∃ outs, runCallbacks realOps constGraphOps dcInput e calls = some outs ∧
      ∀ c, c < e.outputChannelCount →
        (0 < (calls.map Prod.snd).sum →
          frameSample e.outputChannelCount outs 0 c = some 1) ∧
        (480 < (calls.map Prod.snd).sum →
          frameSample e.outputChannelCount outs 480 c = some ((10 : ℝ) ^ (-(12 : ℝ) / 20))) ∧
        (∀ j k, j ≤ k → k ≤ 480 → k < (calls.map Prod.snd).sum →
          ∃ x y, frameSample e.outputChannelCount outs j c = some x ∧
            frameSample e.outputChannelCount outs k c = some y ∧ y ≤ x) := by
  have h480 : e.transitionLength = 480 := by
    have hfloor : ⌊(48000 : ℚ) / 100⌋ = 480 := by norm_num
    rw [hlen, hrate, truncToUnsigned, hfloor]
    rfl
  have hinv : TransitionInv e e current next 0 :=
    ⟨rfl, rfl, h480, rfl, fun _ => ⟨hcur, hnext, hcounter⟩, fun h => by omega, current, hcur⟩
  obtain ⟨outs, houts, hframes⟩ := transition_stream e current next _ hone hg hreal calls e 0
    hinv hsize
  have hle1 : (10 : ℝ) ^ (-(12 : ℝ) / 20) ≤ 1 :=
    Real.rpow_le_one_of_one_le_of_nonpos (by norm_num) (by norm_num)
  refine ⟨h480, outs, houts, fun c hc => ⟨fun h0 => ?_, fun h1 => ?_, fun j k hjk hk hkt => ?_⟩⟩
  · rw [hframes 0 c hc (by omega) h0, Nat.zero_add, mixSample_start 480 _ _ (by omega)]
  · rw [hframes 480 c hc (by omega) h1, Nat.zero_add, mixSample_end 480 480 _ _ (Nat.le_refl _)]
  · refine ⟨_, _, hframes j c hc (by omega) (by omega), hframes k c hc (by omega) hkt, ?_⟩
    rw [Nat.zero_add, Nat.zero_add]
    exact mixSample_antitone 480 j k _ hle1 hjk

theorem transition_scenario_witness :
    dcEngine.sampleRate = 48000 ∧
    dcEngine.transitionLength = truncToUnsigned (dcEngine.sampleRate / 100) ∧
    dcEngine.transitionCounter = 0 ∧
    dcEngine.currentConfig = some 0 ∧ dcEngine.nextConfig = some 1 ∧
    dcEngine.heap 0 = 1 ∧ dcEngine.heap 1 = (10 : ℝ) ^ (-(12 : ℝ) / 20) ∧
    0 < dcEngine.realChannelCount ∧
    (∀ call ∈ [((none : Option (Buffer ℝ)), 240), (none, 241)],
      call.2 * dcEngine.realChannelCount < 2 ^ 32) ∧
    dcEngine.transitionLength = 480 ∧
    ∃ outs, runCallbacks realOps constGraphOps dcInput dcEngine
        [(none, 240), (none, 241)] = some outs ∧
      ∀ c, c < dcEngine.outputChannelCount →
        (0 < ([((none : Option (Buffer ℝ)), 240), (none, 241)].map Prod.snd).sum →
          frameSample dcEngine.outputChannelCount outs 0 c = some 1) ∧
        (480 < ([((none : Option (Buffer ℝ)), 240), (none, 241)].map Prod.snd).sum →
          frameSample dcEngine.outputChannelCount outs 480 c =
            some ((10 : ℝ) ^ (-(12 : ℝ) / 20))) ∧
        (∀ j k, j ≤ k → k ≤ 480 →
          k < ([((none : Option (Buffer ℝ)), 240), (none, 241)].map Prod.snd).sum →
          ∃ x y, frameSample dcEngine.outputChannelCount outs j c = some x ∧
            frameSample dcEngine.outputChannelCount outs k c = some y ∧ y ≤ x) :=
  have hlen : dcEngine.transitionLength = truncToUnsigned (dcEngine.sampleRate / 100) := by
    have hfloor : ⌊(48000 : ℚ) / 100⌋ = 480 := by norm_num
    show 480 = truncToUnsigned ((48000 : ℚ) / 100)
    rw [truncToUnsigned, hfloor]
    rfl
  have hsize : ∀ call ∈ [((none : Option (Buffer ℝ)), 240), (none, 241)],
      call.2 * dcEngine.realChannelCount < 2 ^ 32 := by
    intro call hcall
    simp only [List.mem_cons, List.mem_singleton, List.not_mem_nil, or_false] at hcall
    rcases hcall with rfl | rfl <;> decide
  ⟨rfl, hlen, rfl, rfl, rfl, by simp [dcEngine], by simp [dcEngine], by decide, hsize,
    transition_scenario dcEngine 0 1 [(none, 240), (none, 241)] rfl hlen rfl rfl rfl
      (by simp [dcEngine]) (by simp [dcEngine]) (by decide) hsize⟩

end FilterEngine
